import Mathlib

/-!
# Dungeon: room separation, corridor graph and tile rewriting

A shallow embedding of the generation pipeline of the Dungeon program
(`rect.h`, `rng.h`, `dungeon.h`, `tileset.h`, `map.h`) together with theorems
about it.

Modelling conventions
* C++ `int` is `Int`; no arithmetic in the modelled code is assumed to overflow.
* `Vert` coordinates are floats in the program, but every value stored in one
  is an integer of small magnitude, so they are `Int` here.
* `std::unordered_set<Rect>` is a duplicate-free `List Rect`; the list order is
  the iteration order, an iterator is a position in the list.
* `std::map<Rect, T>` is a function `Rect → T`: two rectangles are equivalent
  for `operator<` exactly when their four fields agree.
-/

namespace DungeonGen

/-! ## Geometry primitives (`rect.h`) -/

/-- The fields of `sf::Rect<int>`, which `Rect` inherits. -/
structure Rect where
  left : Int
  top : Int
  width : Int
  height : Int
deriving DecidableEq, Repr

/-- A two-dimensional point or displacement (`Vert` of `linal.h`). -/
structure Vert where
  x : Int
  y : Int
deriving DecidableEq, Repr

/-- Modelled from the spec: `sf::Rect<int>::intersects(rectangle, intersection)`
is library code that is not under src/.  Two rectangles intersect when they
overlap with positive area (rectangles that only share a boundary do not); the
overlap is written to the out parameter, and the zero rectangle is written when
there is none.  Negative dimensions are normalised with min/max first. -/
def Rect.intersection (a b : Rect) : Bool × Rect :=
  let r1MinX := min a.left (a.left + a.width)
  let r1MaxX := max a.left (a.left + a.width)
  let r1MinY := min a.top (a.top + a.height)
  let r1MaxY := max a.top (a.top + a.height)
  let r2MinX := min b.left (b.left + b.width)
  let r2MaxX := max b.left (b.left + b.width)
  let r2MinY := min b.top (b.top + b.height)
  let r2MaxY := max b.top (b.top + b.height)
  let interLeft := max r1MinX r2MinX
  let interTop := max r1MinY r2MinY
  let interRight := min r1MaxX r2MaxX
  let interBottom := min r1MaxY r2MaxY
  if interLeft < interRight ∧ interTop < interBottom then
    (true, ⟨interLeft, interTop, interRight - interLeft, interBottom - interTop⟩)
  else
    (false, ⟨0, 0, 0, 0⟩)

/-- The one-argument overload `intersects(rectangle)`: the Boolean alone. -/
def Rect.intersects (a b : Rect) : Bool := (a.intersection b).1

/-- The comparator `operator<(const Rect&, const Rect&)` of `rect.h`. -/
def Rect.lt (l r : Rect) : Bool :=
  if l.top < r.top then true
  else if l.top > r.top then false
  else if l.left < r.left then true
  else if l.left > r.left then false
  else if l.top + l.height < r.top + r.height then true
  else if l.top + l.height > r.top + r.height then false
  else decide (l.left + l.width < r.left + r.width)

/-- The static `Rect::centroid`: `/` on `int` truncates toward zero. -/
def Rect.centroid (rect : Rect) : Vert :=
  ⟨rect.left + Int.tdiv rect.width 2, rect.top + Int.tdiv rect.height 2⟩

/-! ## Room classification (`rng.h`) -/

def ROOM_DIE_SIZE : Int := 3
def ROOM_DICE : Int := 3
def ROOM_RADIUS : Int := 5

/-- The static `DungeonRNG::IsLarge`.  The source compares each dimension with
`threshold = ROOM_DIE_SIZE / 1.8f * ROOM_DICE`; the comparison `d > threshold`
is taken over the rationals and cleared of its denominator:
`d > s / 1.8 * n` iff `18 * d > 10 * s * n`. -/
def IsLarge (r : Rect) : Bool :=
  decide (18 * r.width > 10 * ROOM_DIE_SIZE * ROOM_DICE) &&
  decide (18 * r.height > 10 * ROOM_DIE_SIZE * ROOM_DICE)

/-- Rounding of the quotient `n / d` to the nearest integer, ties to even: the
rounding of a float operation, applied to the significand. -/
def roundHalfEven (n d : Nat) : Nat :=
  if 2 * (n % d) > d ∨ (2 * (n % d) = d ∧ (n / d) % 2 = 1) then n / d + 1 else n / d

/-- The 24-bit significand of the float literal `1.8f`, in units of `2^-23`. -/
def f32Divisor : Nat := roundHalfEven (18 * 2 ^ 23) 10

/-- The 24-bit significand of the float quotient `(float)ROOM_DIE_SIZE / 1.8f`,
in units of `2^-23`. -/
def f32Quotient : Nat := roundHalfEven (ROOM_DIE_SIZE.toNat * 2 ^ 23 * 2 ^ 23) f32Divisor

/-- The 24-bit significand of the float `threshold` of `IsLarge`, the product
of the quotient with `ROOM_DICE`, in units of `2^-21`. -/
def f32Threshold : Nat := roundHalfEven (f32Quotient * ROOM_DICE.toNat) 4

/-- The method `DungeonRNG::RoomDim`.  The random engine is the sequence `die`
of the outcomes of `die_(generator_)` and the position `pos` of the next one;
the result is the sum and the new position. -/
def RoomDim (die : Nat → Int) (pos : Nat) : Int × Nat :=
  (List.range ROOM_DICE.toNat).foldl
    (fun (acc : Int × Nat) _ => (acc.1 + die acc.2, acc.2 + 1)) (0, pos)

/-- The method `DungeonRNG::GetRoom`.  The point `(x, y)` is the value of
`((int)(ROOM_RADIUS * cos(theta)), (int)(ROOM_RADIUS * sin(theta)))`; the two
calls of `RoomDim` are taken in the order of the arguments. -/
def GetRoom (die : Nat → Int) (pos : Nat) (x y : Int) : Rect × Nat :=
  let w := RoomDim die pos
  let h := RoomDim die w.2
  (⟨x, y, w.1, h.1⟩, h.2)

/-! ## Corridors and the dungeon aggregate (`dungeon.h`) -/

/-- The class `Corridor : public Rect` with its orientation flag. -/
structure Corridor extends Rect where
  horizontal_ : Bool
deriving DecidableEq, Repr

/-- The constructor `Corridor(a, b, c, d, _horizontal)`. -/
def Corridor.new (a b c d : Int) (horizontal : Bool) : Corridor :=
  { left := a, top := b, width := c, height := d, horizontal_ := horizontal }

/-- The accessor `horizontal()`. -/
def Corridor.horizontal (c : Corridor) : Bool := c.horizontal_

/-- The state of a `Dungeon` that the generation pipeline reads and writes.
The random source is replaced by the list of rooms it draws, and the centre of
mass (`centerX_`, `centerY_`), which nothing reads, is left out. -/
structure Dungeon where
  rooms_ : List Rect
  corridors_ : List Corridor
  top_ : Int
  bottom_ : Int
  left_ : Int
  right_ : Int
deriving DecidableEq, Repr

/-- The four accessors `top()`, `bottom()`, `left()`, `right()`. -/
def Dungeon.top (d : Dungeon) : Int := d.top_
def Dungeon.bottom (d : Dungeon) : Int := d.bottom_
def Dungeon.left (d : Dungeon) : Int := d.left_
def Dungeon.right (d : Dungeon) : Int := d.right_

/-- Insertion into a `std::unordered_set<Rect>`: a rectangle equal in all four
fields to a member is not inserted again. -/
def setInsert (r : Rect) (s : List Rect) : List Rect :=
  if r ∈ s then s else s ++ [r]

/-- The inner loop of `CollisionsExist` for the outer iterator `i` at `*i = r`. -/
def collidesWithOther (rooms : List Rect) (i : Nat) (r : Rect) : Bool :=
  rooms.enum.any (fun js => decide (i ≠ js.1) && r.intersects js.2)

/-- The method `Dungeon::CollisionsExist`: some pair of distinct iterators of
the room set points at intersecting rooms. -/
def CollisionsExist (d : Dungeon) : Bool :=
  d.rooms_.enum.any (fun ir => collidesWithOther d.rooms_ ir.1 ir.2)

/-- The enumeration `Direction` used by `DriftVector`. -/
inductive Direction where
  | STAY | LEFT | RIGHT | UP | DOWN
deriving DecidableEq, Repr

/-- The value of `ceil(v)` after the optional `v /= 2` on the float copy of a
non-negative `int` extent. -/
def ceilHalf (halve : Bool) (extent : Int) : Int :=
  if halve then (extent + 1) / 2 else extent

/-- The method `Dungeon::DriftVector`. -/
def DriftVector (escapee collider : Rect) : Vert :=
  let left := escapee.left - collider.left
  let right := (collider.left + collider.width) - (escapee.left + escapee.width)
  let up := escapee.top - collider.top
  let down := (collider.top + collider.height) - (escapee.top + escapee.height)
  let ce := Rect.centroid escapee
  let cc := Rect.centroid collider
  let inter := (escapee.intersection collider).2
  let hor := inter.width
  let ver := inter.height
  let dirs : Direction × Direction :=
    if cc.x > ce.x then
      if cc.y > ce.y then
        (if left < up then Direction.LEFT else Direction.UP,
         if right > down then Direction.RIGHT else Direction.DOWN)
      else
        (if left < down then Direction.LEFT else Direction.DOWN,
         if right > down then Direction.RIGHT else Direction.UP)
    else
      if cc.y > ce.y then
        (if right < up then Direction.RIGHT else Direction.UP,
         if right > down then Direction.LEFT else Direction.DOWN)
      else
        (if right < down then Direction.RIGHT else Direction.DOWN,
         if right > down then Direction.LEFT else Direction.UP)
  let dir := dirs.1
  let oppDir := dirs.2
  let halveVer : Bool :=
    (dir == Direction.UP && oppDir == Direction.DOWN) ||
    (dir == Direction.DOWN && oppDir == Direction.UP)
  let halveHor : Bool :=
    (dir == Direction.LEFT && oppDir == Direction.RIGHT) ||
    (dir == Direction.RIGHT && oppDir == Direction.LEFT)
  let h := ceilHalf halveHor hor
  let v := ceilHalf halveVer ver
  match dir with
  | Direction.LEFT => ⟨-h, 0⟩
  | Direction.RIGHT => ⟨h, 0⟩
  | Direction.UP => ⟨0, -v⟩
  | Direction.DOWN => ⟨0, v⟩
  | Direction.STAY => ⟨0, 0⟩

/-- The method `Dungeon::UpdateBounds`. -/
def UpdateBounds (d : Dungeon) (r : Rect) : Dungeon :=
  { d with
    top_ := if d.top_ > r.top then r.top else d.top_
    bottom_ := if d.bottom_ < r.top + r.height then r.top + r.height else d.bottom_
    left_ := if d.left_ > r.left then r.left else d.left_
    right_ := if d.right_ < r.left + r.width then r.left + r.width else d.right_ }

/-- The table `std::map<Rect, std::vector<Vert>> vectors` of `DriftIterate`. -/
abbrev Vectors := Rect → List Vert

/-- The assignment `vectors[k] = v`. -/
def Vectors.set (vs : Vectors) (k : Rect) (v : List Vert) : Vectors :=
  fun q => if q = k then v else vs q

/-- The call `vectors[k].push_back(v)`. -/
def Vectors.push (vs : Vectors) (k : Rect) (v : Vert) : Vectors :=
  vs.set k (vs k ++ [v])

/-- The inner loop of the first pass of `DriftIterate` for the outer iterator
`i` at `*r = r`: every colliding `s` adds a vector to `r` and its negation to
`s`. -/
def pushCollisions (rooms : List Rect) (i : Nat) (r : Rect) (vs : Vectors) : Vectors :=
  rooms.enum.foldl
    (fun acc js =>
      if r.intersects js.2 && decide (i ≠ js.1) then
        let d := DriftVector r js.2
        (acc.push r d).push js.2 ⟨d.x * -1, d.y * -1⟩
      else acc)
    vs

/-- The first pass of `DriftIterate`: visiting `r` first resets `vectors[*r]`
to the empty vector, then runs the inner loop. -/
def collectVectors (rooms : List Rect) : Vectors :=
  rooms.enum.foldl
    (fun acc ir => pushCollisions rooms ir.1 ir.2 (acc.set ir.2 []))
    (fun _ => [])

/-- Modelled from the spec: `sgn` is declared outside src/; it is the sign of
its argument, one of -1, 0, 1. -/
def sgn (x : Int) : Int := Int.sign x

/-- The second pass of `DriftIterate`: the entry `velocity[*r]` computed from
the vectors collected for `r`. -/
def velocityOf (vs : Vectors) (r : Rect) : Vert :=
  if (vs r).length > 0 then
    ⟨sgn ((vs r).foldl (fun x f => x + f.x) 0), sgn ((vs r).foldl (fun y f => y + f.y) 0)⟩
  else
    ⟨0, 0⟩

/-- The method `Dungeon::DriftIterate`.  The `velocity` argument is written
for every room before it is read and zeroed afterwards, so it is local here. -/
def DriftIterate (d : Dungeon) : Dungeon :=
  let vectors := collectVectors d.rooms_
  let moved := d.rooms_.foldl
    (fun (acc : List Rect × Dungeon) r =>
      let vel := velocityOf vectors r
      (setInsert ⟨r.left + vel.x, r.top + vel.y, r.width, r.height⟩ acc.1,
       UpdateBounds acc.2 r))
    (([] : List Rect), d)
  { moved.2 with rooms_ := moved.1 }

/-- The method `Dungeon::Drift`: the loop `while (CollisionsExist())
DriftIterate(velocity)`, run for at most `fuel` iterations; `none` when the
loop has not ended by then. -/
def Drift : Nat → Dungeon → Option Dungeon
  | 0, d => if CollisionsExist d then none else some d
  | fuel + 1, d => if CollisionsExist d then Drift fuel (DriftIterate d) else some d

/-- An edge of the spanning tree returned by the triangulation collaborator
(`Edge` of `edge.h`), reduced to its `origin()` and `destination()`. -/
structure Edge where
  origin : Vert
  destination : Vert
deriving DecidableEq, Repr

/-- The order `std::sort` uses on the rows `{x, y}` of `buffer`: the
lexicographic order of `std::vector<float>`. -/
def rowLe (p q : Vert) : Prop := p.x < q.x ∨ (p.x = q.x ∧ p.y ≤ q.y)

instance : DecidableRel rowLe := fun p q => by unfold rowLe; infer_instance

/-- The algorithm `std::unique`: of every run of equal neighbours the first is
kept. -/
def unique : List Vert → List Vert
  | [] => []
  | [a] => [a]
  | a :: b :: t => if a = b then unique (b :: t) else a :: unique (b :: t)

/-- The point set `buffer` of `CreateCorridors` (lines 377-388): the centroids
of the large rooms, sorted and with duplicates erased. -/
def centroidBuffer (rooms : List Rect) : List Vert :=
  unique (((rooms.filter IsLarge).map Rect.centroid).insertionSort rowLe)

/-- The two corridors that `CreateCorridors` pushes for the spanning-tree edge
`c` (lines 401-429), horizontal first.  `floor` is the identity on the integer
coordinates. -/
def edgeCorridors (c : Edge) : List Corridor :=
  let x1 := c.origin.x
  let x2 := c.destination.x
  let y := c.origin.y
  let left := if x1 > x2 then x2 else x1
  let right := if x1 > x2 then x1 else x2
  let y2 := c.destination.y
  let top := if y > y2 then y2 else y
  let bottom := if y > y2 then y else y2
  [Corridor.new left (y - 1) (right - left + 1) 3 true,
   Corridor.new (x2 - 1) top 3 (bottom - top + 1) false]

/-- The test of line 440: the room meets the horizontal segment of edge `c`. -/
def hitsHorizontal (c : Edge) (r : Rect) : Bool :=
  let x1 := c.origin.x
  let x2 := c.destination.x
  let y := c.origin.y
  let left := if x1 > x2 then x2 else x1
  let right := if x1 > x2 then x1 else x2
  decide (r.top < y + 2) && decide (r.top + r.height > y - 1) &&
    decide (r.left > left) && decide (r.left + r.width < right)

/-- The test of line 446: the room meets the vertical segment of edge `c`. -/
def hitsVertical (c : Edge) (r : Rect) : Bool :=
  let x2 := c.destination.x
  let y := c.origin.y
  let y2 := c.destination.y
  let top := if y > y2 then y2 else y
  let bottom := if y > y2 then y else y2
  decide (r.left < x2 + 2) && decide (r.left + r.width > x2 - 1) &&
    decide (r.top > top) && decide (r.top + r.height < bottom)

/-- The body of the room loop of lines 431-450 for one room `r`. -/
def hitRoom (c : Edge) (hitRooms : List Rect) (r : Rect) : List Rect :=
  let h1 := if IsLarge r then setInsert r hitRooms else hitRooms
  let h2 := if hitsHorizontal c r then setInsert r h1 else h1
  if hitsVertical c r then setInsert r h2 else h2

/-- One iteration of the loop over the spanning tree (lines 399-451) on the
pair `(corridors_, hitRooms)`; `rooms` is the unchanged `rooms_`. -/
def corridorStep (rooms : List Rect) (acc : List Corridor × List Rect) (c : Edge) :
    List Corridor × List Rect :=
  (acc.1 ++ edgeCorridors c, rooms.foldl (hitRoom c) acc.2)

/-- The part of `Dungeon::CreateCorridors` after the collaborator has returned
the spanning tree `mst` (lines 395-453): the loop over the edges and the final
assignment `rooms_ = hitRooms`. -/
def CreateCorridorsFrom (d : Dungeon) (mst : List Edge) : Dungeon :=
  let res := mst.foldl (corridorStep d.rooms_) (d.corridors_, [])
  { d with corridors_ := res.1, rooms_ := res.2 }

/-- The method `Dungeon::CreateCorridors`.  The triangulation collaborator
(`Delaunay`, outside src/) is the parameter `GetMST`, from the point set to the
edges of its minimum spanning tree. -/
def CreateCorridors (GetMST : List Vert → List Edge) (d : Dungeon) : Dungeon :=
  CreateCorridorsFrom d (GetMST (centroidBuffer d.rooms_))

/-- The method `Dungeon::GenerateRooms(n)`: `draws` are the `n` rooms that
`rng_.GetRoom()` returns, in order. -/
def GenerateRooms (fuel : Nat) (draws : List Rect) (d : Dungeon) : Option Dungeon :=
  Drift fuel { d with rooms_ := draws.foldl (fun s r => setInsert r s) d.rooms_ }

/-- The constructor `Dungeon::Dungeon(int roomsNum)` with `roomsNum` the length
of `draws`; `none` when one of the two `Drift` loops has not ended within
`fuel` iterations. -/
def Dungeon.new (GetMST : List Vert → List Edge) (fuel : Nat) (draws : List Rect) :
    Option Dungeon :=
  (GenerateRooms fuel draws ⟨[], [], 0, 0, 0, 0⟩).bind fun d1 =>
    (Drift fuel d1).map fun d2 => CreateCorridors GetMST d2

/-! ## Tile codes (`tileset.h`) -/

def TILE_SIZE : Nat := 16
def TILESET_WIDTH : Nat := 16

def WALL_TOPLEFT : Nat := 0
def WALL_TOP : Nat := WALL_TOPLEFT + 1
def WALL_TOPRIGHT : Nat := WALL_TOPLEFT + 2
def WALL_LEFT : Nat := TILESET_WIDTH
def FLOOR_TEXTURE : Nat := TILESET_WIDTH + 1
def WALL_RIGHT : Nat := TILESET_WIDTH + 2
def WALL_BOTTOMLEFT : Nat := TILESET_WIDTH * 2
def WALL_BOTTOM : Nat := WALL_BOTTOMLEFT + 1
def WALL_BOTTOMRIGHT : Nat := WALL_BOTTOMLEFT + 2
def WALL_BR_CORNER : Nat := 3
def WALL_BL_CORNER : Nat := WALL_BR_CORNER + 1
def WALL_TR_CORNER : Nat := TILESET_WIDTH + 3
def WALL_TL_CORNER : Nat := WALL_TR_CORNER + 1
def WALL_TR_BL : Nat := TILESET_WIDTH * 2 + 3
def WALL_TL_BR : Nat := WALL_TR_BL + 1
def WALL_TEXTURE : Nat := 5

/-! ## The rewrite rules of the tile synthesizer (`map.h`) -/

/-- The switch of `Map::CorridorTopWallRewrite` on the tile read by `GetTileTypeAt(t)`, as a
function of that tile `existing`; the cases are in source order. -/
def CorridorTopWallRewrite (existing : Nat) : Nat :=
  if existing = FLOOR_TEXTURE then FLOOR_TEXTURE
  else if existing = WALL_LEFT then WALL_TL_CORNER
  else if existing = WALL_RIGHT then WALL_TR_CORNER
  else if existing = WALL_TL_CORNER then WALL_TL_CORNER
  else if existing = WALL_TR_CORNER then WALL_TR_CORNER
  else if existing = WALL_BL_CORNER then FLOOR_TEXTURE
  else if existing = WALL_BR_CORNER then FLOOR_TEXTURE
  else if existing = WALL_BOTTOM then FLOOR_TEXTURE
  else if existing = WALL_BOTTOMRIGHT then WALL_TR_CORNER
  else if existing = WALL_BOTTOMLEFT then WALL_TL_CORNER
  else WALL_TOP

/-- The switch of `Map::CorridorBottomWallRewrite` on the tile read by `GetTileTypeAt(t)`, as a
function of that tile `existing`; the cases are in source order. -/
def CorridorBottomWallRewrite (existing : Nat) : Nat :=
  if existing = FLOOR_TEXTURE then FLOOR_TEXTURE
  else if existing = WALL_LEFT then WALL_BL_CORNER
  else if existing = WALL_RIGHT then WALL_BR_CORNER
  else if existing = WALL_BL_CORNER then WALL_BL_CORNER
  else if existing = WALL_BR_CORNER then WALL_BR_CORNER
  else if existing = WALL_TL_CORNER then FLOOR_TEXTURE
  else if existing = WALL_TR_CORNER then FLOOR_TEXTURE
  else if existing = WALL_TOP then FLOOR_TEXTURE
  else if existing = WALL_TOPLEFT then WALL_BL_CORNER
  else if existing = WALL_TOPRIGHT then WALL_BR_CORNER
  else WALL_BOTTOM

/-- The switch of `Map::CorridorLeftWallRewrite` on the tile read by `GetTileTypeAt(t)`, as a
function of that tile `existing`; the cases are in source order. -/
def CorridorLeftWallRewrite (existing : Nat) : Nat :=
  if existing = FLOOR_TEXTURE then FLOOR_TEXTURE
  else if existing = WALL_TOP then WALL_TL_CORNER
  else if existing = WALL_BOTTOM then WALL_BL_CORNER
  else if existing = WALL_RIGHT then FLOOR_TEXTURE
  else if existing = WALL_TL_CORNER then WALL_TL_CORNER
  else if existing = WALL_BL_CORNER then WALL_BL_CORNER
  else if existing = WALL_TR_CORNER then FLOOR_TEXTURE
  else if existing = WALL_BR_CORNER then FLOOR_TEXTURE
  else if existing = WALL_TOPRIGHT then WALL_TL_CORNER
  else if existing = WALL_BOTTOMRIGHT then WALL_BL_CORNER
  else WALL_LEFT

/-- The switch of `Map::CorridorRightWallRewrite` on the tile read by `GetTileTypeAt(t)`, as a
function of that tile `existing`; the cases are in source order. -/
def CorridorRightWallRewrite (existing : Nat) : Nat :=
  if existing = FLOOR_TEXTURE then FLOOR_TEXTURE
  else if existing = WALL_TOP then WALL_TR_CORNER
  else if existing = WALL_BOTTOM then WALL_BR_CORNER
  else if existing = WALL_LEFT then FLOOR_TEXTURE
  else if existing = WALL_TR_CORNER then WALL_TR_CORNER
  else if existing = WALL_BR_CORNER then WALL_BR_CORNER
  else if existing = WALL_TL_CORNER then FLOOR_TEXTURE
  else if existing = WALL_BL_CORNER then FLOOR_TEXTURE
  else if existing = WALL_TOPLEFT then WALL_TR_CORNER
  else if existing = WALL_BOTTOMLEFT then WALL_BR_CORNER
  else WALL_RIGHT

/-- The switch of `Map::CorridorTopLeftRewrite` on the tile read by `GetTileTypeAt(t)`, as a
function of that tile `existing`; the cases are in source order. -/
def CorridorTopLeftRewrite (existing : Nat) : Nat :=
  if existing = FLOOR_TEXTURE then FLOOR_TEXTURE
  else if existing = WALL_TOP then WALL_TOP
  else if existing = WALL_LEFT then WALL_LEFT
  else if existing = WALL_RIGHT then WALL_TR_CORNER
  else if existing = WALL_TL_CORNER then WALL_TL_CORNER
  else if existing = WALL_TR_CORNER then WALL_TR_CORNER
  else if existing = WALL_BL_CORNER then FLOOR_TEXTURE
  else if existing = WALL_BR_CORNER then FLOOR_TEXTURE
  else if existing = WALL_BOTTOM then WALL_BL_CORNER
  else if existing = WALL_BOTTOMRIGHT then WALL_TR_BL
  else if existing = WALL_BOTTOMLEFT then WALL_TL_BR
  else WALL_TOPLEFT

/-- The switch of `Map::CorridorTopRightRewrite` on the tile read by `GetTileTypeAt(t)`, as a
function of that tile `existing`; the cases are in source order. -/
def CorridorTopRightRewrite (existing : Nat) : Nat :=
  if existing = FLOOR_TEXTURE then FLOOR_TEXTURE
  else if existing = WALL_TOP then WALL_TOP
  else if existing = WALL_RIGHT then WALL_RIGHT
  else if existing = WALL_LEFT then WALL_TL_CORNER
  else if existing = WALL_TL_CORNER then WALL_TL_CORNER
  else if existing = WALL_TR_CORNER then WALL_TR_CORNER
  else if existing = WALL_BL_CORNER then FLOOR_TEXTURE
  else if existing = WALL_BR_CORNER then FLOOR_TEXTURE
  else if existing = WALL_BOTTOM then WALL_BR_CORNER
  else if existing = WALL_BOTTOMRIGHT then WALL_TR_BL
  else if existing = WALL_BOTTOMLEFT then WALL_TL_BR
  else WALL_TOPRIGHT

/-- The switch of `Map::CorridorBottomLeftRewrite` on the tile read by `GetTileTypeAt(t)`, as a
function of that tile `existing`; the cases are in source order. -/
def CorridorBottomLeftRewrite (existing : Nat) : Nat :=
  if existing = FLOOR_TEXTURE then FLOOR_TEXTURE
  else if existing = WALL_BOTTOM then WALL_BOTTOM
  else if existing = WALL_LEFT then WALL_LEFT
  else if existing = WALL_TOP then WALL_TL_CORNER
  else if existing = WALL_RIGHT then WALL_BR_CORNER
  else if existing = WALL_TOPLEFT then WALL_LEFT
  else if existing = WALL_TL_CORNER then WALL_TL_CORNER
  else if existing = WALL_TR_CORNER then FLOOR_TEXTURE
  else if existing = WALL_BL_CORNER then WALL_BL_CORNER
  else if existing = WALL_BR_CORNER then WALL_BR_CORNER
  else if existing = WALL_TOPRIGHT then WALL_TR_BL
  else WALL_BOTTOMLEFT

/-- The switch of `Map::CorridorBottomRightRewrite` on the tile read by `GetTileTypeAt(t)`, as a
function of that tile `existing`; the cases are in source order. -/
def CorridorBottomRightRewrite (existing : Nat) : Nat :=
  if existing = FLOOR_TEXTURE then FLOOR_TEXTURE
  else if existing = WALL_BOTTOM then WALL_BOTTOM
  else if existing = WALL_RIGHT then WALL_RIGHT
  else if existing = WALL_TOP then WALL_TR_CORNER
  else if existing = WALL_LEFT then WALL_BL_CORNER
  else if existing = WALL_TOPRIGHT then WALL_RIGHT
  else if existing = WALL_TL_CORNER then FLOOR_TEXTURE
  else if existing = WALL_TR_CORNER then WALL_TR_CORNER
  else if existing = WALL_BL_CORNER then WALL_BL_CORNER
  else if existing = WALL_BR_CORNER then WALL_BR_CORNER
  else if existing = WALL_TOPLEFT then WALL_TL_BR
  else WALL_BOTTOMRIGHT

/-! ## The tile grid (`map.h`) -/

/-- The fields `width_`, `height_` and `tiles_` of `Map`.  The array `tiles_`
is the memory it points into, addressed by the index; reading or writing an
index outside `0 .. width_ * height_ - 1` is undefined in the program, so the
statements about grids below are made for writes that lie inside the grid. -/
structure Map where
  width_ : Int
  height_ : Int
  tiles_ : Int → Nat

/-- The method `Map::GetTileTypeAt(x, y)`: `tiles_[x + y * width_]`. -/
def GetTileTypeAt (m : Map) (x y : Int) : Nat := m.tiles_ (x + y * m.width_)

/-- The method `Map::AddTileAt(x, y, tile)`: `tiles_[y * width_ + x] = tile`. -/
def AddTileAt (m : Map) (x y : Int) (tile : Nat) : Map :=
  { m with tiles_ := fun i => if i = y * m.width_ + x then tile else m.tiles_ i }

/-- The cell `(x, y)` lies inside the grid. -/
def InGrid (m : Map) (x y : Int) : Prop :=
  0 ≤ x ∧ x < m.width_ ∧ 0 ≤ y ∧ y < m.height_

instance (m : Map) (x y : Int) : Decidable (InGrid m x y) := by
  unfold InGrid; infer_instance

/-- One step `AddTileAt(pos, f(GetTileTypeAt(pos)))` of a stamping routine: the
cell written and the function `rewrite` from the tile read there to the tile
written.  A plain `AddTileAt(pos, tile)` has the constant function. -/
structure TileWrite where
  x : Int
  y : Int
  rewrite : Nat → Nat

/-- Runs one write on the grid. -/
def applyWrite (m : Map) (w : TileWrite) : Map :=
  AddTileAt m w.x w.y (w.rewrite (GetTileTypeAt m w.x w.y))

/-- Runs a sequence of writes in order. -/
def applyWrites (m : Map) (ws : List TileWrite) : Map := ws.foldl applyWrite m

/-- The values of the counter of `for (int i = lo; i < hi; i++)`, in order. -/
def loop (lo hi : Int) : List Int := (List.range (hi - lo).toNat).map (fun (k : Nat) => lo + (k : Int))

/-- The unconditional write `AddTileAt(x, y, tile)`. -/
def putTile (x y : Int) (tile : Nat) : TileWrite := ⟨x, y, fun _ => tile⟩

/-- The writes of the background fill of `Map::Map(Tileset&, Dungeon&)`
(lines 113-119), in order. -/
def backgroundWrites (width height : Int) : List TileWrite :=
  (loop 0 height).flatMap fun y => (loop 0 width).map fun x => putTile x y WALL_TEXTURE

/-- The writes of `Map::TileRoom(left, top, r)`, in source order: interior,
corners, top and bottom rows, left and right columns. -/
def TileRoomWrites (left top : Int) (r : Rect) : List TileWrite :=
  ((loop 1 (r.height - 1)).flatMap fun y =>
    (loop 1 (r.width - 1)).map fun x =>
      putTile (r.left - left + x) (r.top - top + y) FLOOR_TEXTURE) ++
  [putTile (r.left - left) (r.top - top) WALL_TOPLEFT,
   putTile (r.left - left + r.width - 1) (r.top - top) WALL_TOPRIGHT,
   putTile (r.left - left) (r.top - top + r.height - 1) WALL_BOTTOMLEFT,
   putTile (r.left - left + r.width - 1) (r.top - top + r.height - 1) WALL_BOTTOMRIGHT] ++
  ((loop 1 (r.width - 1)).flatMap fun i =>
    [putTile (r.left - left + i) (r.top - top) WALL_TOP,
     putTile (r.left - left + i) (r.top - top + r.height - 1) WALL_BOTTOM]) ++
  ((loop 1 (r.height - 1)).flatMap fun i =>
    [putTile (r.left - left) (r.top - top + i) WALL_LEFT,
     putTile (r.left - left + r.width - 1) (r.top - top + i) WALL_RIGHT])

/-- The method `Map::TileRoom(left, top, r)`. -/
def TileRoom (m : Map) (left top : Int) (r : Rect) : Map :=
  applyWrites m (TileRoomWrites left top r)

/-- The guarded write of `FillWithFloor`: `if (GetTileTypeAt(pos) !=
FLOOR_TEXTURE) AddTileAt(pos, FLOOR_TEXTURE)`. -/
def fillFloor (x y : Int) : TileWrite :=
  ⟨x, y, fun existing => if existing ≠ FLOOR_TEXTURE then FLOOR_TEXTURE else existing⟩

/-- The writes of `Map::FillWithFloor(c, left, top)`, in source order; `left`
and `top` are already relative to the grid. -/
def FillWithFloorWrites (c : Corridor) (left top : Int) : List TileWrite :=
  ((loop 1 (c.width - 1)).flatMap fun x =>
    (loop 1 (c.height - 1)).map fun y => fillFloor (left + x) (top + y)) ++
  (if c.horizontal then
    [fillFloor left (top + 1), fillFloor (left + c.width - 1) (top + 1)]
  else
    [fillFloor (left + 1) top, fillFloor (left + 1) (top + c.height - 1)])

/-- The writes of `Map::TileCorridor(left, top, c)`, in source order.  The
arguments are the bounds of the dungeon; the body first makes them relative. -/
def TileCorridorWrites (left0 top0 : Int) (c : Corridor) : List TileWrite :=
  let left := c.left - left0
  let right := left + c.width - 1
  let top := c.top - top0
  let bottom := top + c.height - 1
  if c.horizontal then
    [⟨left - 1, top, CorridorTopLeftRewrite⟩,
     ⟨left - 1, top + 1, CorridorLeftWallRewrite⟩,
     ⟨left - 1, top + 2, CorridorBottomLeftRewrite⟩] ++
    ((loop 0 (c.width - 1)).map fun x => ⟨left + x, top, CorridorTopWallRewrite⟩) ++
    FillWithFloorWrites c left top ++
    ((loop 0 (c.width - 1)).map fun x => ⟨left + x, bottom, CorridorBottomWallRewrite⟩) ++
    [⟨left + c.width, top, CorridorTopRightRewrite⟩,
     ⟨left + c.width, top + 1, CorridorRightWallRewrite⟩,
     ⟨left + c.width, top + 2, CorridorBottomRightRewrite⟩]
  else
    [⟨left, top - 1, CorridorTopLeftRewrite⟩,
     ⟨left + 1, top - 1, CorridorTopWallRewrite⟩,
     ⟨left + 2, top - 1, CorridorTopRightRewrite⟩] ++
    ((loop 0 (c.height - 1)).map fun y => ⟨left, top + y, CorridorLeftWallRewrite⟩) ++
    FillWithFloorWrites c left top ++
    ((loop 0 (c.height - 1)).map fun y => ⟨right, top + y, CorridorRightWallRewrite⟩) ++
    [⟨left, top + c.height, CorridorBottomLeftRewrite⟩,
     ⟨left + 1, top + c.height, CorridorBottomWallRewrite⟩,
     ⟨left + 2, top + c.height, CorridorBottomRightRewrite⟩]

/-- The method `Map::TileCorridor(left, top, c)`. -/
def TileCorridor (m : Map) (left top : Int) (c : Corridor) : Map :=
  applyWrites m (TileCorridorWrites left top c)

/-- A call of `TileRoom` or of `TileCorridor`. -/
inductive Stamp where
  | room (r : Rect)
  | corridor (c : Corridor)

/-- The writes of one stamping call. -/
def Stamp.writes (left top : Int) : Stamp → List TileWrite
  | .room r => TileRoomWrites left top r
  | .corridor c => TileCorridorWrites left top c

/-- Runs one stamping call. -/
def Stamp.run (left top : Int) (m : Map) : Stamp → Map
  | .room r => TileRoom m left top r
  | .corridor c => TileCorridor m left top c

/-- The constructor `Map::Map(Tileset&, Dungeon&)`: the grid is sized from the
bounds of the dungeon, filled with `WALL_TEXTURE`, then every room and after
them every corridor is stamped.  `mem` is the content of the fresh array. -/
def Map.new (d : Dungeon) (mem : Int → Nat) : Map :=
  let m0 : Map := ⟨d.right - d.left, d.bottom - d.top, mem⟩
  let m1 := applyWrites m0 (backgroundWrites m0.width_ m0.height_)
  let m2 := d.rooms_.foldl (fun m r => TileRoom m d.left d.top r) m1
  d.corridors_.foldl (fun m c => TileCorridor m d.left d.top c) m2

/-- The tile that room stamping is to leave at offset `(x, y)` of the footprint
of `r`, in the words of the specification: the four corner codes at the four
corners, the four straight-wall codes on the border runs between them, floor
strictly inside the border. -/
def roomTileAt (r : Rect) (x y : Int) : Nat :=
  if x = 0 ∧ y = 0 then WALL_TOPLEFT
  else if x = r.width - 1 ∧ y = 0 then WALL_TOPRIGHT
  else if x = 0 ∧ y = r.height - 1 then WALL_BOTTOMLEFT
  else if x = r.width - 1 ∧ y = r.height - 1 then WALL_BOTTOMRIGHT
  else if y = 0 then WALL_TOP
  else if y = r.height - 1 then WALL_BOTTOM
  else if x = 0 then WALL_LEFT
  else if x = r.width - 1 then WALL_RIGHT
  else FLOOR_TEXTURE

/-- The reflection `V` of tile codes that the specification uses to state the
mirror symmetry, swapping top and bottom: `WALL_TOP` with `WALL_BOTTOM`,
`WALL_TOPLEFT` with `WALL_BOTTOMLEFT`, `WALL_TOPRIGHT` with `WALL_BOTTOMRIGHT`,
`WALL_TL_CORNER` with `WALL_BL_CORNER`, `WALL_TR_CORNER` with `WALL_BR_CORNER`,
`WALL_TR_BL` with `WALL_TL_BR`; every other code is fixed. -/
def reflectV (t : Nat) : Nat :=
  if t = WALL_TOP then WALL_BOTTOM
  else if t = WALL_BOTTOM then WALL_TOP
  else if t = WALL_TOPLEFT then WALL_BOTTOMLEFT
  else if t = WALL_BOTTOMLEFT then WALL_TOPLEFT
  else if t = WALL_TOPRIGHT then WALL_BOTTOMRIGHT
  else if t = WALL_BOTTOMRIGHT then WALL_TOPRIGHT
  else if t = WALL_TL_CORNER then WALL_BL_CORNER
  else if t = WALL_BL_CORNER then WALL_TL_CORNER
  else if t = WALL_TR_CORNER then WALL_BR_CORNER
  else if t = WALL_BR_CORNER then WALL_TR_CORNER
  else if t = WALL_TR_BL then WALL_TL_BR
  else if t = WALL_TL_BR then WALL_TR_BL
  else t

/-- The reflection `H` of tile codes that the specification uses to state the
mirror symmetry, swapping left and right: `WALL_LEFT` with `WALL_RIGHT`,
`WALL_TOPLEFT` with `WALL_TOPRIGHT`, `WALL_BOTTOMLEFT` with `WALL_BOTTOMRIGHT`,
`WALL_TL_CORNER` with `WALL_TR_CORNER`, `WALL_BL_CORNER` with `WALL_BR_CORNER`,
`WALL_TR_BL` with `WALL_TL_BR`; every other code is fixed. -/
def reflectH (t : Nat) : Nat :=
  if t = WALL_LEFT then WALL_RIGHT
  else if t = WALL_RIGHT then WALL_LEFT
  else if t = WALL_TOPLEFT then WALL_TOPRIGHT
  else if t = WALL_TOPRIGHT then WALL_TOPLEFT
  else if t = WALL_BOTTOMLEFT then WALL_BOTTOMRIGHT
  else if t = WALL_BOTTOMRIGHT then WALL_BOTTOMLEFT
  else if t = WALL_TL_CORNER then WALL_TR_CORNER
  else if t = WALL_TR_CORNER then WALL_TL_CORNER
  else if t = WALL_BL_CORNER then WALL_BR_CORNER
  else if t = WALL_BR_CORNER then WALL_BL_CORNER
  else if t = WALL_TR_BL then WALL_TL_BR
  else if t = WALL_TL_BR then WALL_TR_BL
  else t

/-- The sixteen tile codes of `Tileset`. -/
def tileCodes : List Nat :=
  [WALL_TOPLEFT, WALL_TOP, WALL_TOPRIGHT, WALL_LEFT, FLOOR_TEXTURE, WALL_RIGHT,
   WALL_BOTTOMLEFT, WALL_BOTTOM, WALL_BOTTOMRIGHT, WALL_BR_CORNER, WALL_BL_CORNER,
   WALL_TR_CORNER, WALL_TL_CORNER, WALL_TR_BL, WALL_TL_BR, WALL_TEXTURE]

/-! ## Connectivity of the floor -/

/-- The cell `(x, y)` of the grid holds `FLOOR_TEXTURE`. -/
def IsFloor (m : Map) (x y : Int) : Prop :=
  InGrid m x y ∧ GetTileTypeAt m x y = FLOOR_TEXTURE

instance (m : Map) (x y : Int) : Decidable (IsFloor m x y) := by
  unfold IsFloor; infer_instance

/-- The cells `p` and `q` are horizontally or vertically adjacent. -/
def Adjacent (p q : Int × Int) : Prop :=
  (p.2 = q.2 ∧ (p.1 = q.1 + 1 ∨ q.1 = p.1 + 1)) ∨
  (p.1 = q.1 ∧ (p.2 = q.2 + 1 ∨ q.2 = p.2 + 1))

instance (p q : Int × Int) : Decidable (Adjacent p q) := by
  unfold Adjacent; infer_instance

/-- Two floor cells of the grid that are horizontally or vertically adjacent. -/
def FloorAdj (m : Map) (p q : Int × Int) : Prop :=
  IsFloor m p.1 p.2 ∧ IsFloor m q.1 q.2 ∧ Adjacent p q

/-- Two cells joined by a path of adjacent floor cells. -/
def FloorConnected (m : Map) (p q : Int × Int) : Prop :=
  Relation.ReflTransGen (FloorAdj m) p q

/-- The edges `edges` form a spanning tree over the points `pts`: every edge
joins two of the points, any two points are joined by a chain of edges, and
there is one edge fewer than there are points. -/
def IsSpanningTree (pts : List Vert) (edges : List Edge) : Prop :=
  (∀ e ∈ edges, e.origin ∈ pts ∧ e.destination ∈ pts) ∧
  (∀ p ∈ pts, ∀ q ∈ pts,
    Relation.ReflTransGen
      (fun a b => ∃ e ∈ edges, (e.origin = a ∧ e.destination = b) ∨
        (e.origin = b ∧ e.destination = a)) p q) ∧
  edges.length = pts.length - 1

/-- The bounds of the dungeon enclose the rectangle `r`. -/
def Dungeon.Encloses (d : Dungeon) (r : Rect) : Prop :=
  d.left ≤ r.left ∧ r.left + r.width ≤ d.right ∧ d.top ≤ r.top ∧ r.top + r.height ≤ d.bottom

instance (d : Dungeon) (r : Rect) : Decidable (d.Encloses r) := by
  unfold Dungeon.Encloses; infer_instance

/-- What `TileCorridor` does to one cell: one of the eight rewrites, the floor
fill, or nothing. -/
inductive Role where
  | topLeft
  | top
  | topRight
  | left
  | floor
  | right
  | bottomLeft
  | bottom
  | bottomRight
  | keep
deriving DecidableEq, Repr

/-- The tile a cell holds after the write of its role, from the tile `existing`
it held before. -/
def Role.apply : Role → Nat → Nat
  | .topLeft, existing => CorridorTopLeftRewrite existing
  | .top, existing => CorridorTopWallRewrite existing
  | .topRight, existing => CorridorTopRightRewrite existing
  | .left, existing => CorridorLeftWallRewrite existing
  | .floor, _ => FLOOR_TEXTURE
  | .right, existing => CorridorRightWallRewrite existing
  | .bottomLeft, existing => CorridorBottomLeftRewrite existing
  | .bottom, existing => CorridorBottomWallRewrite existing
  | .bottomRight, existing => CorridorBottomRightRewrite existing
  | .keep, existing => existing

/-- The ten roles. -/
def Role.all : List Role :=
  [.topLeft, .top, .topRight, .left, .floor, .right, .bottomLeft, .bottom, .bottomRight, .keep]

/-- The four corner roles. -/
def Role.corners : List Role := [.topLeft, .topRight, .bottomLeft, .bottomRight]

/-- The roles of the cells next to the centre line of a corridor, and of the
centre line itself. -/
def Role.straight : List Role := [.top, .left, .floor, .right, .bottom]

/-- The role of cell `(x, y)` in `TileCorridor` for a horizontal corridor of
height 3 whose rectangle starts at `(l, t)` in grid coordinates and is `w`
wide: the caps left of and right of the rectangle, the top and bottom rows
without their last cell, and the centre row. -/
def hKind (l t w x y : Int) : Role :=
  if x = l - 1 ∧ y = t then .topLeft
  else if x = l - 1 ∧ y = t + 1 then .left
  else if x = l - 1 ∧ y = t + 2 then .bottomLeft
  else if y = t ∧ l ≤ x ∧ x < l + w - 1 then .top
  else if y = t + 1 ∧ l ≤ x ∧ x < l + w then .floor
  else if y = t + 2 ∧ l ≤ x ∧ x < l + w - 1 then .bottom
  else if x = l + w ∧ y = t then .topRight
  else if x = l + w ∧ y = t + 1 then .right
  else if x = l + w ∧ y = t + 2 then .bottomRight
  else .keep

/-- The role of cell `(x, y)` in `TileCorridor` for a vertical corridor of
width 3 whose rectangle starts at `(l, t)` in grid coordinates and is `h` high:
the caps above and below the rectangle, the left and right columns without
their last cell, and the centre column. -/
def vKind (l t h x y : Int) : Role :=
  if x = l ∧ y = t - 1 then .topLeft
  else if x = l + 1 ∧ y = t - 1 then .top
  else if x = l + 2 ∧ y = t - 1 then .topRight
  else if x = l ∧ t ≤ y ∧ y < t + h - 1 then .left
  else if x = l + 1 ∧ t ≤ y ∧ y < t + h then .floor
  else if x = l + 2 ∧ t ≤ y ∧ y < t + h - 1 then .right
  else if x = l ∧ y = t + h then .bottomLeft
  else if x = l + 1 ∧ y = t + h then .bottom
  else if x = l + 2 ∧ y = t + h then .bottomRight
  else .keep

/-- The codes a top wall can turn into. -/
def topClass : List Nat := [WALL_TOP, WALL_TL_CORNER, WALL_TR_CORNER, FLOOR_TEXTURE]

/-- The codes a bottom wall can turn into. -/
def bottomClass : List Nat := [WALL_BOTTOM, WALL_BL_CORNER, WALL_BR_CORNER, FLOOR_TEXTURE]

/-- The codes a left wall can turn into. -/
def leftClass : List Nat := [WALL_LEFT, WALL_TL_CORNER, WALL_BL_CORNER, FLOOR_TEXTURE]

/-- The codes a right wall can turn into. -/
def rightClass : List Nat := [WALL_RIGHT, WALL_TR_CORNER, WALL_BR_CORNER, FLOOR_TEXTURE]

/-- The sets of codes that every role maps into themselves. -/
def tileClasses : List (List Nat) :=
  [[FLOOR_TEXTURE], topClass, bottomClass, leftClass, rightClass, tileCodes]

/-- The straight walls and the inner corners. -/
def wallCodes : List Nat :=
  [WALL_TOP, WALL_BOTTOM, WALL_LEFT, WALL_RIGHT, WALL_TL_CORNER, WALL_TR_CORNER,
   WALL_BL_CORNER, WALL_BR_CORNER]

/-- The cell `(x, y)` lies on the centre line of one of the two corridors of
the edge from `(x1, y1)` to `(x2, y2)`: the row `y1` between the two columns,
or the column `x2` between the two rows. -/
def OnLine (x1 y1 x2 y2 x y : Int) : Prop :=
  (y = y1 ∧ min x1 x2 ≤ x ∧ x ≤ max x1 x2) ∨ (x = x2 ∧ min y1 y2 ≤ y ∧ y ≤ max y1 y2)

instance (x1 y1 x2 y2 x y : Int) : Decidable (OnLine x1 y1 x2 y2 x y) := by
  unfold OnLine; infer_instance

/-- The role of cell `(x, y)` in the horizontal corridor of the edge from
`(x1, y1)` to `(x2, y2)` (grid coordinates): the corridor
`(min x1 x2, y1 - 1, max x1 x2 - min x1 x2 + 1, 3)`. -/
def edgeH (x1 y1 x2 _y2 x y : Int) : Role :=
  hKind (min x1 x2) (y1 - 1) (max x1 x2 - min x1 x2 + 1) x y

/-- The role of cell `(x, y)` in the vertical corridor of the edge from
`(x1, y1)` to `(x2, y2)` (grid coordinates): the corridor
`(x2 - 1, min y1 y2, 3, max y1 y2 - min y1 y2 + 1)`. -/
def edgeV (_x1 y1 x2 y2 x y : Int) : Role :=
  vKind (x2 - 1) (min y1 y2) (max y1 y2 - min y1 y2 + 1) x y

/-- The tile at `(x, y)` after the two corridors of the edge from `(x1, y1)`
to `(x2, y2)` (grid coordinates), from the tile `existing` before them: the
horizontal corridor is stamped first. -/
def edgeRole (x1 y1 x2 y2 x y : Int) (existing : Nat) : Nat :=
  (edgeV x1 y1 x2 y2 x y).apply ((edgeH x1 y1 x2 y2 x y).apply existing)

/-- Every cell that holds a straight wall or an inner corner has a floor cell
next to it. -/
def WallsBacked (m : Map) : Prop :=
  ∀ x y : Int, InGrid m x y → GetTileTypeAt m x y ∈ wallCodes →
    IsFloor m (x + 1) y ∨ IsFloor m (x - 1) y ∨ IsFloor m x (y + 1) ∨ IsFloor m x (y - 1)

/-- Next to a top-left outer corner, on its right, and next to a top-right
outer corner, on its left, lies a cell of the class of the top walls. -/
def CornersFlanked (m : Map) : Prop :=
  ∀ x y : Int, InGrid m x y →
    (GetTileTypeAt m x y = WALL_TOPLEFT →
      InGrid m (x + 1) y ∧ GetTileTypeAt m (x + 1) y ∈ topClass) ∧
    (GetTileTypeAt m x y = WALL_TOPRIGHT →
      InGrid m (x - 1) y ∧ GetTileTypeAt m (x - 1) y ∈ topClass)

/-- The footprint of the room `r` lies inside the grid `m`, whose origin is
`(l0, t0)`, and each of its cells holds a code of every class that contains the
tile that room stamping leaves there. -/
def RoomKept (m : Map) (l0 t0 : Int) (r : Rect) : Prop :=
  ∀ i j : Int, 0 ≤ i → i < r.width → 0 ≤ j → j < r.height →
    InGrid m (r.left - l0 + i) (r.top - t0 + j) ∧
    ∀ C ∈ tileClasses, roomTileAt r i j ∈ C →
      GetTileTypeAt m (r.left - l0 + i) (r.top - t0 + j) ∈ C

/-- The grid `m2` is the grid `m` after the two corridors of the edge from
`(x1, y1)` to `(x2, y2)` (grid coordinates), all of whose writes lie inside the
grid; the cells around the origin of the edge hold floor in `m`, and every cell
of `m` holds one of the sixteen codes. -/
structure EdgeStep (m m2 : Map) (x1 y1 x2 y2 : Int) : Prop where
  width_eq : m2.width_ = m.width_
  height_eq : m2.height_ = m.height_
  cell : ∀ x y : Int, InGrid m x y →
    GetTileTypeAt m2 x y = edgeRole x1 y1 x2 y2 x y (GetTileTypeAt m x y)
  low : InGrid m (min x1 x2 - 1) (min y1 y2 - 1)
  high : InGrid m (max x1 x2 + 1) (max y1 y2 + 1)
  origin : ∀ x y : Int, x1 - 1 ≤ x → x ≤ x1 + 1 → y1 - 1 ≤ y → y ≤ y1 + 1 →
    GetTileTypeAt m x y = FLOOR_TEXTURE
  codes : ∀ x y : Int, InGrid m x y → GetTileTypeAt m x y ∈ tileCodes

/-- The cell `(a, b)` of the grid with origin `(l0, t0)` lies on the centre
line of one of the two corridors of the edge `e`. -/
def Edge.Covers (e : Edge) (l0 t0 a b : Int) : Prop :=
  OnLine (e.origin.x - l0) (e.origin.y - t0) (e.destination.x - l0) (e.destination.y - t0) a b

/-- The edge `e` joins the centroids of two large rooms of the list. -/
def Edge.JoinsLarge (e : Edge) (rooms : List Rect) : Prop :=
  (∃ r ∈ rooms, IsLarge r = true ∧ r.centroid = e.origin) ∧
  (∃ r ∈ rooms, IsLarge r = true ∧ r.centroid = e.destination)

/-- What holds of the grid `m` after the rooms `rooms` (grid `m0`) and then the
corridors of the edges `done` have been stamped: the rooms are kept, every wall
has floor next to it, the centre lines hold floor, every floor cell is joined
to a floor cell of `m0` or to a centre line, and every room that an edge meets
is joined to a centre line of that edge. -/
structure FloorInv (m0 m : Map) (l0 t0 : Int) (rooms : List Rect) (done : List Edge) :
    Prop where
  width_eq : m.width_ = m0.width_
  height_eq : m.height_ = m0.height_
  kept : ∀ r ∈ rooms, RoomKept m l0 t0 r
  codes : ∀ x y : Int, InGrid m x y → GetTileTypeAt m x y ∈ tileCodes
  backed : WallsBacked m
  flanked : CornersFlanked m
  mono : ∀ x y : Int, IsFloor m0 x y → IsFloor m x y
  lines : ∀ e ∈ done, ∀ a b : Int, e.Covers l0 t0 a b → IsFloor m a b
  anchored : ∀ x y : Int, IsFloor m x y → ∃ a b : Int, FloorConnected m (x, y) (a, b) ∧
    (IsFloor m0 a b ∨ ∃ e ∈ done, e.Covers l0 t0 a b)
  hits : ∀ e ∈ done, ∀ r ∈ rooms, hitsHorizontal e r = true ∨ hitsVertical e r = true →
    ∃ i j c d : Int, (0 < i ∧ i < r.width - 1) ∧ (0 < j ∧ j < r.height - 1) ∧
      e.Covers l0 t0 c d ∧ FloorConnected m (r.left - l0 + i, r.top - t0 + j) (c, d)

/-! ## Concrete inputs used by the witnesses and counterexamples -/

/-- Three generated rooms, the first two of which overlap. -/
def driftExample : Dungeon :=
  ⟨[⟨5, 0, 6, 6⟩, ⟨4, 2, 6, 7⟩, ⟨0, 5, 3, 3⟩], [], 0, 0, 0, 0⟩

/-- The state `Drift` reaches from `driftExample` after two iterations. -/
def driftExampleDone : Dungeon :=
  ⟨[⟨5, -2, 6, 6⟩, ⟨4, 4, 6, 7⟩, ⟨0, 5, 3, 3⟩], [], -1, 10, 0, 11⟩

/-- A collaborator that returns the one edge joining the first two points of
the point set, and no edge for fewer than two points. -/
def pairMST : List Vert → List Edge
  | a :: b :: _ => [⟨a, b⟩]
  | _ => []

/-- The spanning-tree edge of the worked example: centroids `(0,0)` and
`(10,0)`. -/
def exampleEdge : Edge := ⟨⟨0, 0⟩, ⟨10, 0⟩⟩

/-- The empty dungeon with which the constructor starts. -/
def emptyDungeon : Dungeon := ⟨[], [], 0, 0, 0, 0⟩

/-- Two large rooms far apart and a small room lying between their centroids. -/
def corridorExample : Dungeon :=
  ⟨[⟨-10, 0, 6, 6⟩, ⟨10, 0, 6, 6⟩, ⟨0, 2, 3, 3⟩, ⟨0, 20, 3, 3⟩], [], 0, 0, 0, 0⟩

/-- The spanning tree of `corridorExample`: one edge between the centroids
`(-7,3)` and `(13,3)` of its two large rooms. -/
def corridorExampleMST : List Edge := [⟨⟨-7, 3⟩, ⟨13, 3⟩⟩]

/-- A room set with a single large room and one small room. -/
def loneLargeRoom : Dungeon := ⟨[⟨5, 0, 6, 6⟩, ⟨0, 5, 3, 3⟩], [], 0, 0, 0, 0⟩

/-- Two large rooms with centroids `(3,3)` and `(13,5)`, the bounds enclosing
them, and no corridor yet. -/
def twoRooms : Dungeon := ⟨[⟨0, 0, 6, 6⟩, ⟨10, 2, 7, 6⟩], [], 0, 8, 0, 17⟩

/-- The grid of `twoRooms`: background and the two rooms, on a fresh array of
zeros. -/
def twoRoomsGrid : Map := Map.new twoRooms (fun _ => 0)

/-- The horizontal corridor of the edge from `(3,3)` to `(13,5)`. -/
def horizontalExample : Corridor := Corridor.new 3 2 11 3 true

/-- The vertical corridor of the edge from `(3,3)` to `(13,5)`. -/
def verticalExample : Corridor := Corridor.new 12 3 3 3 false

/-- A grid of 17 by 8 cells after the background fill. -/
def backgroundGrid : Map := applyWrites ⟨17, 8, fun _ => 0⟩ (backgroundWrites 17 8)

/-- A die that shows 1, 2, 3, 1, 2, 3, and so on. -/
def cyclicDie (n : Nat) : Int := 1 + ((n % 3 : Nat) : Int)

/-- Two large rooms with centroids `(3,3)` and `(13,5)`, a small room between
them whose top wall lies in the row below the line of centroid `(3,3)`, and the
bounds enclosing the three. -/
def threeRooms : Dungeon := ⟨[⟨0, 0, 6, 6⟩, ⟨10, 2, 7, 6⟩, ⟨6, 4, 3, 3⟩], [], 0, 8, 0, 17⟩

/-- The spanning tree of `threeRooms`: the edge between the centroids of its
two large rooms. -/
def threeRoomsMST : List Edge := [⟨⟨3, 3⟩, ⟨13, 5⟩⟩]

/-- A room drawn at angle 0: position `(5, 0)`, 6 wide and 6 high; the first
room of `driftExample`. -/
def eastRoom : Rect := ⟨5, 0, 6, 6⟩

/-- The second room of `driftExample`; it overlaps `eastRoom` in a rectangle 5
wide and 4 high. -/
def lowerRoom : Rect := ⟨4, 2, 6, 7⟩

/-- A room drawn at a right angle to `eastRoom`: position `(0, 5)`, 6 wide and
3 high.  The two overlap in the cell `(5, 5)`. -/
def southRoom : Rect := ⟨0, 5, 6, 3⟩

/-- Four rooms of sizes the generator draws: two rooms 3 wide and 6 high, two
columns apart, between a room on the left and a room on the right. -/
def squeezedRooms : Dungeon :=
  ⟨[⟨0, 0, 3, 6⟩, ⟨2, 0, 3, 6⟩, ⟨-4, -1, 7, 9⟩, ⟨2, -1, 5, 8⟩], [], 0, 0, 0, 0⟩

/-! ## Lemmas on the room set -/

theorem setInsert_nodup (r : Rect) (s : List Rect) (h : s.Nodup) : (setInsert r s).Nodup := by
  unfold setInsert
  split
  · exact h
  · rename_i hr
    exact List.Nodup.append h (List.nodup_singleton r) (by simpa using hr)

theorem mem_setInsert (r q : Rect) (s : List Rect) : q ∈ setInsert r s ↔ q = r ∨ q ∈ s := by
  unfold setInsert
  split
  · rename_i hr
    constructor
    · intro h; exact Or.inr h
    · rintro (h | h)
      · exact h ▸ hr
      · exact h
  · simp [or_comm]

theorem collidesWithOther_iff (rooms : List Rect) (i : Nat) (r : Rect) :
    collidesWithOther rooms i r = true ↔
      ∃ (j : Nat) (s : Rect), rooms[j]? = some s ∧ i ≠ j ∧ r.intersects s = true := by
  unfold collidesWithOther
  rw [List.any_eq_true]
  constructor
  · rintro ⟨⟨j, s⟩, hmem, hp⟩
    rw [List.mk_mem_enum_iff_getElem?] at hmem
    simp only [Bool.and_eq_true, decide_eq_true_eq] at hp
    exact ⟨j, s, hmem, hp.1, hp.2⟩
  · rintro ⟨j, s, hget, hne, hint⟩
    refine ⟨(j, s), List.mk_mem_enum_iff_getElem?.mpr hget, ?_⟩
    simp [hne, hint]

theorem CollisionsExist_iff (d : Dungeon) :
    CollisionsExist d = true ↔
      ∃ (i j : Nat) (r s : Rect), d.rooms_[i]? = some r ∧ d.rooms_[j]? = some s ∧ i ≠ j ∧
        r.intersects s = true := by
  unfold CollisionsExist
  rw [List.any_eq_true]
  constructor
  · rintro ⟨⟨i, r⟩, hmem, hp⟩
    rw [List.mk_mem_enum_iff_getElem?] at hmem
    obtain ⟨j, s, hj, hne, hint⟩ := (collidesWithOther_iff _ _ _).mp hp
    exact ⟨i, j, r, s, hmem, hj, hne, hint⟩
  · rintro ⟨i, j, r, s, hi, hj, hne, hint⟩
    exact ⟨(i, r), List.mk_mem_enum_iff_getElem?.mpr hi,
      (collidesWithOther_iff _ _ _).mpr ⟨j, s, hj, hne, hint⟩⟩

/-- On a duplicate-free room set two iterators differ exactly when the rooms
they point at do. -/
theorem CollisionsExist_false_iff_of_nodup (d : Dungeon) (hnd : d.rooms_.Nodup) :
    CollisionsExist d = false ↔
      ∀ r ∈ d.rooms_, ∀ s ∈ d.rooms_, r ≠ s → r.intersects s = false := by
  rw [← Bool.not_eq_true, CollisionsExist_iff]
  constructor
  · intro h r hr s hs hne
    obtain ⟨i, hi⟩ := List.getElem?_of_mem hr
    obtain ⟨j, hj⟩ := List.getElem?_of_mem hs
    by_contra hint
    apply h
    refine ⟨i, j, r, s, hi, hj, ?_, by simpa using hint⟩
    rintro rfl
    rw [hi] at hj
    exact hne (Option.some.inj hj)
  · rintro h ⟨i, j, r, s, hi, hj, hne, hint⟩
    have hr : r ∈ d.rooms_ := List.mem_iff_getElem?.mpr ⟨i, hi⟩
    have hs : s ∈ d.rooms_ := List.mem_iff_getElem?.mpr ⟨j, hj⟩
    have hrs : r ≠ s := by
      rintro rfl
      obtain ⟨hi1, hi2⟩ := List.getElem?_eq_some.mp hi
      obtain ⟨hj1, hj2⟩ := List.getElem?_eq_some.mp hj
      exact hne ((List.Nodup.getElem_inj_iff hnd).mp (hi2.trans hj2.symm))
    rw [h r hr s hs hrs] at hint
    exact Bool.false_ne_true hint

theorem DriftIterate_rooms_nodup (d : Dungeon) : (DriftIterate d).rooms_.Nodup := by
  unfold DriftIterate
  simp only
  generalize collectVectors d.rooms_ = vs
  suffices h : ∀ (l : List Rect) (acc : List Rect × Dungeon), acc.1.Nodup →
      (l.foldl (fun (acc : List Rect × Dungeon) r =>
        (setInsert ⟨r.left + (velocityOf vs r).x, r.top + (velocityOf vs r).y, r.width, r.height⟩ acc.1,
         UpdateBounds acc.2 r)) acc).1.Nodup from h d.rooms_ _ List.nodup_nil
  intro l
  induction l with
  | nil => intro acc h; exact h
  | cons a t ih =>
    intro acc h
    rw [List.foldl_cons]
    exact ih _ (setInsert_nodup _ _ h)

theorem Drift_rooms_nodup (fuel : Nat) : ∀ (d d' : Dungeon), d.rooms_.Nodup →
    Drift fuel d = some d' → d'.rooms_.Nodup := by
  induction fuel with
  | zero =>
    intro d d' hnd h
    unfold Drift at h
    split at h
    · exact absurd h (by simp)
    · exact (Option.some.inj h) ▸ hnd
  | succ n ih =>
    intro d d' hnd h
    unfold Drift at h
    split at h
    · exact ih _ _ (DriftIterate_rooms_nodup d) h
    · exact (Option.some.inj h) ▸ hnd

theorem Drift_no_collisions (fuel : Nat) : ∀ (d d' : Dungeon),
    Drift fuel d = some d' → CollisionsExist d' = false := by
  induction fuel with
  | zero =>
    intro d d' h
    unfold Drift at h
    split at h
    · exact absurd h (by simp)
    · rename_i hc
      exact (Option.some.inj h) ▸ (by simpa using hc)
  | succ n ih =>
    intro d d' h
    unfold Drift at h
    split at h
    · exact ih _ _ h
    · rename_i hc
      exact (Option.some.inj h) ▸ (by simpa using hc)

/-! ## Lemmas on the corridor graph builder -/

theorem mem_hitRoom (c : Edge) (hit : List Rect) (r q : Rect) :
    q ∈ hitRoom c hit r ↔
      q ∈ hit ∨ (q = r ∧ (IsLarge r = true ∨ hitsHorizontal c r = true ∨ hitsVertical c r = true)) := by
  unfold hitRoom
  by_cases h1 : IsLarge r = true <;> by_cases h2 : hitsHorizontal c r = true <;>
    by_cases h3 : hitsVertical c r = true <;>
    simp only [h1, h2, h3, if_true, if_false, mem_setInsert, Bool.false_eq_true] <;> tauto

theorem mem_foldl_hitRoom (c : Edge) (rooms : List Rect) : ∀ (hit : List Rect) (q : Rect),
    q ∈ rooms.foldl (hitRoom c) hit ↔
      q ∈ hit ∨ (q ∈ rooms ∧
        (IsLarge q = true ∨ hitsHorizontal c q = true ∨ hitsVertical c q = true)) := by
  induction rooms with
  | nil => intro hit q; simp
  | cons a t ih =>
    intro hit q
    rw [List.foldl_cons, ih, mem_hitRoom, List.mem_cons]
    constructor
    · rintro ((h | ⟨rfl, h⟩) | ⟨hq, h⟩)
      · exact Or.inl h
      · exact Or.inr ⟨Or.inl rfl, h⟩
      · exact Or.inr ⟨Or.inr hq, h⟩
    · rintro (h | ⟨rfl | hq, h⟩)
      · exact Or.inl (Or.inl h)
      · exact Or.inl (Or.inr ⟨rfl, h⟩)
      · exact Or.inr ⟨hq, h⟩

theorem foldl_corridorStep_fst (rooms : List Rect) (mst : List Edge) :
    ∀ acc : List Corridor × List Rect,
      (mst.foldl (corridorStep rooms) acc).1 = acc.1 ++ mst.flatMap edgeCorridors := by
  induction mst with
  | nil => intro acc; simp
  | cons c t ih =>
    intro acc
    rw [List.foldl_cons, ih]
    simp [corridorStep, List.flatMap_cons]

theorem mem_foldl_corridorStep_snd (rooms : List Rect) (mst : List Edge) :
    ∀ (acc : List Corridor × List Rect) (q : Rect),
      q ∈ (mst.foldl (corridorStep rooms) acc).2 ↔
        q ∈ acc.2 ∨ (q ∈ rooms ∧ ∃ c ∈ mst,
          IsLarge q = true ∨ hitsHorizontal c q = true ∨ hitsVertical c q = true) := by
  induction mst with
  | nil => intro acc q; simp
  | cons c t ih =>
    intro acc q
    rw [List.foldl_cons, ih]
    simp only [corridorStep, mem_foldl_hitRoom, List.mem_cons]
    constructor
    · rintro ((h | ⟨hq, h⟩) | ⟨hq, e, he, h⟩)
      · exact Or.inl h
      · exact Or.inr ⟨hq, c, Or.inl rfl, h⟩
      · exact Or.inr ⟨hq, e, Or.inr he, h⟩
    · rintro (h | ⟨hq, e, rfl | he, h⟩)
      · exact Or.inl (Or.inl h)
      · exact Or.inl (Or.inr ⟨hq, h⟩)
      · exact Or.inr ⟨hq, e, he, h⟩

theorem CreateCorridorsFrom_corridors (d : Dungeon) (mst : List Edge) :
    (CreateCorridorsFrom d mst).corridors_ = d.corridors_ ++ mst.flatMap edgeCorridors := by
  simp [CreateCorridorsFrom, foldl_corridorStep_fst]

theorem mem_CreateCorridorsFrom_rooms (d : Dungeon) (mst : List Edge) (q : Rect) :
    q ∈ (CreateCorridorsFrom d mst).rooms_ ↔
      q ∈ d.rooms_ ∧ ∃ c ∈ mst,
        IsLarge q = true ∨ hitsHorizontal c q = true ∨ hitsVertical c q = true := by
  simp [CreateCorridorsFrom, mem_foldl_corridorStep_snd]

/-- With at least one spanning-tree edge the pruning rule is the stated one:
a room of the input set survives exactly when it is large or meets the
horizontal or the vertical segment of some edge. -/
theorem mem_CreateCorridorsFrom_rooms_of_ne_nil (d : Dungeon) (mst : List Edge)
    (hne : mst ≠ []) (q : Rect) (hq : q ∈ d.rooms_) :
    q ∈ (CreateCorridorsFrom d mst).rooms_ ↔
      IsLarge q = true ∨ ∃ c ∈ mst, hitsHorizontal c q = true ∨ hitsVertical c q = true := by
  rw [mem_CreateCorridorsFrom_rooms]
  obtain ⟨e, he⟩ := List.exists_mem_of_ne_nil mst hne
  constructor
  · rintro ⟨_, c, hc, h | h⟩
    · exact Or.inl h
    · exact Or.inr ⟨c, hc, h⟩
  · rintro (h | ⟨c, hc, h⟩)
    · exact ⟨hq, e, he, Or.inl h⟩
    · exact ⟨hq, c, hc, Or.inr h⟩

theorem hitsHorizontal_iff (c : Edge) (r : Rect) :
    hitsHorizontal c r = true ↔
      (r.top < c.origin.y + 2 ∧ r.top + r.height > c.origin.y - 1) ∧
      min c.origin.x c.destination.x < r.left ∧
      r.left + r.width < max c.origin.x c.destination.x := by
  unfold hitsHorizontal
  simp only [Bool.and_eq_true, decide_eq_true_eq]
  split_ifs with h
  · rw [min_eq_right (le_of_lt h), max_eq_left (le_of_lt h)]; tauto
  · rw [min_eq_left (not_lt.mp h), max_eq_right (not_lt.mp h)]; tauto

theorem hitsVertical_iff (c : Edge) (r : Rect) :
    hitsVertical c r = true ↔
      (r.left < c.destination.x + 2 ∧ r.left + r.width > c.destination.x - 1) ∧
      min c.origin.y c.destination.y < r.top ∧
      r.top + r.height < max c.origin.y c.destination.y := by
  unfold hitsVertical
  simp only [Bool.and_eq_true, decide_eq_true_eq]
  split_ifs with h
  · rw [min_eq_right (le_of_lt h), max_eq_left (le_of_lt h)]; tauto
  · rw [min_eq_left (not_lt.mp h), max_eq_right (not_lt.mp h)]; tauto

theorem Rect.intersects_iff (a b : Rect) :
    a.intersects b = true ↔
      max (min a.left (a.left + a.width)) (min b.left (b.left + b.width)) <
        min (max a.left (a.left + a.width)) (max b.left (b.left + b.width)) ∧
      max (min a.top (a.top + a.height)) (min b.top (b.top + b.height)) <
        min (max a.top (a.top + a.height)) (max b.top (b.top + b.height)) := by
  unfold Rect.intersects Rect.intersection
  simp only
  split_ifs with h
  · simpa using h
  · simpa using h

theorem edgeCorridors_eq (c : Edge) :
    edgeCorridors c =
      [Corridor.new (min c.origin.x c.destination.x) (c.origin.y - 1)
         (|c.origin.x - c.destination.x| + 1) 3 true,
       Corridor.new (c.destination.x - 1) (min c.origin.y c.destination.y) 3
         (|c.origin.y - c.destination.y| + 1) false] := by
  unfold edgeCorridors
  simp only
  have hx : (if c.origin.x > c.destination.x then c.destination.x else c.origin.x) =
      min c.origin.x c.destination.x := by
    split_ifs with h <;> omega
  have hy : (if c.origin.y > c.destination.y then c.destination.y else c.origin.y) =
      min c.origin.y c.destination.y := by
    split_ifs with h <;> omega
  have hw : (if c.origin.x > c.destination.x then c.origin.x else c.destination.x) -
      (if c.origin.x > c.destination.x then c.destination.x else c.origin.x) + 1 =
      |c.origin.x - c.destination.x| + 1 := by
    rcases abs_cases (c.origin.x - c.destination.x) with ⟨h1, _⟩ | ⟨h1, _⟩ <;>
      split_ifs with h <;> omega
  have hh : (if c.origin.y > c.destination.y then c.origin.y else c.destination.y) -
      (if c.origin.y > c.destination.y then c.destination.y else c.origin.y) + 1 =
      |c.origin.y - c.destination.y| + 1 := by
    rcases abs_cases (c.origin.y - c.destination.y) with ⟨h1, _⟩ | ⟨h1, _⟩ <;>
      split_ifs with h <;> omega
  rw [hw, hh, hx, hy]

theorem flatMap_edgeCorridors_getElem? (mst : List Edge) : ∀ (k : Nat) (e : Edge),
    mst[k]? = some e →
      (mst.flatMap edgeCorridors)[2 * k]? =
        some (Corridor.new (min e.origin.x e.destination.x) (e.origin.y - 1)
          (|e.origin.x - e.destination.x| + 1) 3 true) ∧
      (mst.flatMap edgeCorridors)[2 * k + 1]? =
        some (Corridor.new (e.destination.x - 1) (min e.origin.y e.destination.y) 3
          (|e.origin.y - e.destination.y| + 1) false) := by
  induction mst with
  | nil => intro k e h; simp at h
  | cons a t ih =>
    intro k e h
    rw [List.flatMap_cons, edgeCorridors_eq]
    cases k with
    | zero =>
      simp only [List.getElem?_cons_zero, Option.some.injEq] at h
      subst h
      simp
    | succ n =>
      simp only [List.getElem?_cons_succ] at h
      obtain ⟨h1, h2⟩ := ih n e h
      have e1 : 2 * (n + 1) = (2 * n) + 1 + 1 := by ring
      rw [e1]
      simp only [List.cons_append, List.nil_append, List.getElem?_cons_succ]
      exact ⟨h1, h2⟩

theorem length_flatMap_edgeCorridors (mst : List Edge) :
    (mst.flatMap edgeCorridors).length = 2 * mst.length := by
  induction mst with
  | nil => rfl
  | cons a t ih =>
    rw [List.flatMap_cons, List.length_append, ih, edgeCorridors_eq]
    simp only [List.length_cons, List.length_nil]
    omega

theorem CollisionsExist_of_length_le_one (d : Dungeon) (h : d.rooms_.length ≤ 1) :
    CollisionsExist d = false := by
  rw [← Bool.not_eq_true, CollisionsExist_iff]
  rintro ⟨i, j, r, s, hi, hj, hne, _⟩
  obtain ⟨hi1, _⟩ := List.getElem?_eq_some.mp hi
  obtain ⟨hj1, _⟩ := List.getElem?_eq_some.mp hj
  omega

theorem Drift_of_no_collisions (fuel : Nat) (d : Dungeon) (h : CollisionsExist d = false) :
    Drift fuel d = some d := by
  cases fuel <;> simp [Drift, h]

theorem unique_length_le : ∀ l : List Vert, (unique l).length ≤ l.length
  | [] => by simp [unique]
  | [_] => by simp [unique]
  | a :: b :: t => by
    have ih := unique_length_le (b :: t)
    unfold unique
    split_ifs
    · simp only [List.length_cons] at ih ⊢; omega
    · simp only [List.length_cons] at ih ⊢; omega

theorem centroidBuffer_length_le (rooms : List Rect) :
    (centroidBuffer rooms).length ≤ rooms.length := by
  unfold centroidBuffer
  refine le_trans (unique_length_le _) ?_
  rw [List.length_insertionSort, List.length_map]
  exact List.length_filter_le _ _

theorem pairMST_of_length_le_one (pts : List Vert) (h : pts.length ≤ 1) : pairMST pts = [] := by
  match pts, h with
  | [], _ => rfl
  | [_], _ => rfl
  | _ :: _ :: _, h => simp at h

/-! ## Claims on the separation solver -/

/-- C1: on a (duplicate-free) room set `CollisionsExist` returns false exactly
when no two distinct rooms intersect, and whenever `Drift` returns, no two
distinct rooms of the room set it leaves intersect. -/
theorem CollisionsExist_false_iff_and_Drift_separates (d : Dungeon) (hnd : d.rooms_.Nodup) :
    (CollisionsExist d = false ↔
      ∀ r ∈ d.rooms_, ∀ s ∈ d.rooms_, r ≠ s → r.intersects s = false) ∧
    (∀ (fuel : Nat) (d' : Dungeon), Drift fuel d = some d' →
      ∀ r ∈ d'.rooms_, ∀ s ∈ d'.rooms_, r ≠ s → r.intersects s = false) := by
  refine ⟨CollisionsExist_false_iff_of_nodup d hnd, ?_⟩
  intro fuel d' h
  exact (CollisionsExist_false_iff_of_nodup d' (Drift_rooms_nodup fuel d d' hnd h)).mp
    (Drift_no_collisions fuel d d' h)

/-- Witness for C1: the drift loop returns on `driftExample` after two
iterations and leaves no intersecting pair. -/
theorem CollisionsExist_false_iff_and_Drift_separates_witness :
    driftExample.rooms_.Nodup ∧ CollisionsExist driftExample = true ∧
    Drift 2 driftExample = some driftExampleDone ∧
    (∀ r ∈ driftExampleDone.rooms_, ∀ s ∈ driftExampleDone.rooms_, r ≠ s →
      r.intersects s = false) :=
  ⟨by decide, by decide, by decide,
   (CollisionsExist_false_iff_and_Drift_separates driftExample (by decide)).2 2
     driftExampleDone (by decide)⟩

/-! ## Claims on the corridor graph builder -/

/-- C2 (the code at the failing input): with an empty spanning tree the large
room `(5,0,6,6)` of the room set is not in the room set that
`CreateCorridors` leaves, which is empty. -/
theorem CreateCorridorsFrom_nil_drops_large_room :
    IsLarge ⟨5, 0, 6, 6⟩ = true ∧ (⟨5, 0, 6, 6⟩ : Rect) ∈ loneLargeRoom.rooms_ ∧
    pairMST (centroidBuffer loneLargeRoom.rooms_) = [] ∧
    (CreateCorridors pairMST loneLargeRoom).rooms_ = [] := by
  decide

/-- C3: when all rooms have positive width and height, every room that
`CreateCorridors` leaves is large or intersects one of the corridor
rectangles that this call appended to the corridor list. -/
theorem CreateCorridorsFrom_room_large_or_meets_corridor (d : Dungeon) (mst : List Edge)
    (hpos : ∀ r ∈ d.rooms_, 0 < r.width ∧ 0 < r.height) :
    ∀ r ∈ (CreateCorridorsFrom d mst).rooms_,
      IsLarge r = true ∨
      ∃ c ∈ (CreateCorridorsFrom d mst).corridors_.drop d.corridors_.length,
        r.intersects c.toRect = true := by
  intro r hr
  rw [CreateCorridorsFrom_corridors, List.drop_left]
  obtain ⟨hmem, e, he, h⟩ := (mem_CreateCorridorsFrom_rooms d mst r).mp hr
  obtain ⟨hw, hh⟩ := hpos r hmem
  rcases h with h | h | h
  · exact Or.inl h
  · right
    refine ⟨Corridor.new (min e.origin.x e.destination.x) (e.origin.y - 1)
      (|e.origin.x - e.destination.x| + 1) 3 true, ?_, ?_⟩
    · exact List.mem_flatMap.mpr ⟨e, he, by rw [edgeCorridors_eq]; simp⟩
    · rw [hitsHorizontal_iff] at h
      rw [Rect.intersects_iff]
      simp only [Corridor.new]
      rcases abs_cases (e.origin.x - e.destination.x) with ⟨h1, _⟩ | ⟨h1, _⟩ <;>
        rw [h1] <;> omega
  · right
    refine ⟨Corridor.new (e.destination.x - 1) (min e.origin.y e.destination.y) 3
      (|e.origin.y - e.destination.y| + 1) false, ?_, ?_⟩
    · exact List.mem_flatMap.mpr ⟨e, he, by rw [edgeCorridors_eq]; simp⟩
    · rw [hitsVertical_iff] at h
      rw [Rect.intersects_iff]
      simp only [Corridor.new]
      rcases abs_cases (e.origin.y - e.destination.y) with ⟨h1, _⟩ | ⟨h1, _⟩ <;>
        rw [h1] <;> omega

/-- Witness for C3: in `corridorExample` the small room `(0,2,3,3)` survives
and every surviving room is large or meets an emitted corridor. -/
theorem CreateCorridorsFrom_room_large_or_meets_corridor_witness :
    (∀ r ∈ corridorExample.rooms_, 0 < r.width ∧ 0 < r.height) ∧
    (⟨0, 2, 3, 3⟩ : Rect) ∈ (CreateCorridorsFrom corridorExample corridorExampleMST).rooms_ ∧
    IsLarge ⟨0, 2, 3, 3⟩ = false ∧
    ∀ r ∈ (CreateCorridorsFrom corridorExample corridorExampleMST).rooms_,
      IsLarge r = true ∨
      ∃ c ∈ (CreateCorridorsFrom corridorExample corridorExampleMST).corridors_.drop
          corridorExample.corridors_.length,
        r.intersects c.toRect = true :=
  ⟨by decide, by decide, by decide,
   CreateCorridorsFrom_room_large_or_meets_corridor corridorExample corridorExampleMST
     (by decide)⟩

/-- C4: starting from an empty corridor list, `CreateCorridors` leaves exactly
twice as many corridors as there are spanning-tree edges, and the corridor at
position `i` is horizontal exactly when `i` is even. -/
theorem CreateCorridorsFrom_corridor_count (d : Dungeon) (mst : List Edge)
    (hempty : d.corridors_ = []) :
    (CreateCorridorsFrom d mst).corridors_.length = 2 * mst.length ∧
    ∀ (i : Nat) (c : Corridor), (CreateCorridorsFrom d mst).corridors_[i]? = some c →
      c.horizontal = decide (i % 2 = 0) := by
  rw [CreateCorridorsFrom_corridors, hempty, List.nil_append]
  refine ⟨length_flatMap_edgeCorridors mst, ?_⟩
  intro i c hc
  have hlt : i < 2 * mst.length := by
    rw [← length_flatMap_edgeCorridors]
    exact (List.getElem?_eq_some.mp hc).1
  have hk : i / 2 < mst.length := by omega
  obtain ⟨h1, h2⟩ := flatMap_edgeCorridors_getElem? mst (i / 2) (mst[i / 2])
    (List.getElem?_eq_getElem hk)
  rcases Nat.mod_two_eq_zero_or_one i with hmod | hmod
  · have hi : 2 * (i / 2) = i := by omega
    rw [hi, hc] at h1
    rw [Option.some.inj h1]
    simp [Corridor.horizontal, Corridor.new, hmod]
  · have hi : 2 * (i / 2) + 1 = i := by omega
    rw [hi, hc] at h2
    rw [Option.some.inj h2]
    simp [Corridor.horizontal, Corridor.new, hmod]

/-- Witness for C4: one edge gives two corridors, horizontal then vertical. -/
theorem CreateCorridorsFrom_corridor_count_witness :
    (CreateCorridorsFrom corridorExample corridorExampleMST).corridors_.length =
      2 * corridorExampleMST.length ∧
    ∀ (i : Nat) (c : Corridor),
      (CreateCorridorsFrom corridorExample corridorExampleMST).corridors_[i]? = some c →
      c.horizontal = decide (i % 2 = 0) :=
  CreateCorridorsFrom_corridor_count corridorExample corridorExampleMST (by decide)

/-- C5: for the spanning-tree edge at position `k`, with origin `A` and
destination `B`, `CreateCorridors` appends at positions `2k` and `2k+1` the
horizontal corridor `(min(A.x,B.x), A.y-1, |A.x-B.x|+1, 3)` and the vertical
corridor `(B.x-1, min(A.y,B.y), 3, |A.y-B.y|+1)`; for `A = (0,0)`,
`B = (10,0)` these are `(0,-1,11,3)` and `(9,0,3,1)`. -/
theorem CreateCorridorsFrom_edge_corridors (d : Dungeon) (mst : List Edge) (k : Nat)
    (e : Edge) (he : mst[k]? = some e) :
    (CreateCorridorsFrom d mst).corridors_[d.corridors_.length + 2 * k]? =
      some (Corridor.new (min e.origin.x e.destination.x) (e.origin.y - 1)
        (|e.origin.x - e.destination.x| + 1) 3 true) ∧
    (CreateCorridorsFrom d mst).corridors_[d.corridors_.length + (2 * k + 1)]? =
      some (Corridor.new (e.destination.x - 1) (min e.origin.y e.destination.y) 3
        (|e.origin.y - e.destination.y| + 1) false) ∧
    edgeCorridors exampleEdge = [Corridor.new 0 (-1) 11 3 true, Corridor.new 9 0 3 1 false] := by
  obtain ⟨h1, h2⟩ := flatMap_edgeCorridors_getElem? mst k e he
  rw [CreateCorridorsFrom_corridors]
  refine ⟨?_, ?_, by decide⟩
  · rw [List.getElem?_append_right (Nat.le_add_right _ _), Nat.add_sub_cancel_left]
    exact h1
  · rw [List.getElem?_append_right (Nat.le_add_right _ _), Nat.add_sub_cancel_left]
    exact h2

/-- Witness for C5: the worked example, run through `CreateCorridors` on an
empty dungeon. -/
theorem CreateCorridorsFrom_edge_corridors_witness :
    (CreateCorridorsFrom emptyDungeon [exampleEdge]).corridors_[0]? =
      some (Corridor.new 0 (-1) 11 3 true) ∧
    (CreateCorridorsFrom emptyDungeon [exampleEdge]).corridors_[1]? =
      some (Corridor.new 9 0 3 1 false) :=
  ⟨(CreateCorridorsFrom_edge_corridors emptyDungeon [exampleEdge] 0 exampleEdge rfl).1,
   (CreateCorridorsFrom_edge_corridors emptyDungeon [exampleEdge] 0 exampleEdge rfl).2.1⟩

/-! ## Claims on the constructor and on the empty spanning tree -/

/-- C6 (the code at the failing input): for the draws `(5,0,6,6)` and
`(4,2,6,7)` the constructor returns a dungeon whose room `(5,-2,6,6)` starts
above `top() = -1` and whose room `(4,4,6,7)` ends below `bottom() = 10`; for
the draws `(5,0,6,6)` and `(-5,0,6,6)`, which never collide, all four bounds
are still 0. -/
theorem Dungeon_new_bounds_do_not_enclose_rooms :
    Dungeon.new pairMST 2 [⟨5, 0, 6, 6⟩, ⟨4, 2, 6, 7⟩] =
      some ⟨[⟨5, -2, 6, 6⟩, ⟨4, 4, 6, 7⟩],
        [Corridor.new 7 6 2 3 true, Corridor.new 7 1 3 7 false], -1, 10, 0, 11⟩ ∧
    Dungeon.new pairMST 0 [⟨5, 0, 6, 6⟩, ⟨-5, 0, 6, 6⟩] =
      some ⟨[⟨5, 0, 6, 6⟩, ⟨-5, 0, 6, 6⟩],
        [Corridor.new (-2) 2 11 3 true, Corridor.new 7 3 3 1 false], 0, 0, 0, 0⟩ := by
  decide

/-- C7 (counterexample): with the single draw `(5,0,3,3)`, a room that is not
large, the constructor returns a dungeon with no room at all. -/
theorem Dungeon_new_single_room_not_kept :
    ∃ d : Dungeon, Dungeon.new pairMST 0 [⟨5, 0, 3, 3⟩] = some d ∧
      ¬ (d.rooms_.length = 1 ∧ d.corridors_ = []) :=
  ⟨⟨[], [], 0, 0, 0, 0⟩, by decide, by decide⟩

/-- C7 (amended): when the collaborator returns no edge for fewer than two
points, constructing a dungeon from one drawn room returns (for every fuel) a
dungeon with an empty corridor list and a room set of at most one room, none
of them non-large. -/
theorem Dungeon_new_single_room (GetMST : List Vert → List Edge)
    (hmst : ∀ pts : List Vert, pts.length ≤ 1 → GetMST pts = [])
    (fuel : Nat) (r : Rect) :
    ∃ d : Dungeon, Dungeon.new GetMST fuel [r] = some d ∧ d.corridors_ = [] ∧
      d.rooms_.length ≤ 1 ∧ ∀ q ∈ d.rooms_, IsLarge q = true := by
  have hd : CollisionsExist ⟨[r], [], 0, 0, 0, 0⟩ = false :=
    CollisionsExist_of_length_le_one _ (by simp)
  have hgen : GenerateRooms fuel [r] ⟨[], [], 0, 0, 0, 0⟩ = some ⟨[r], [], 0, 0, 0, 0⟩ := by
    simp only [GenerateRooms, List.foldl_cons, List.foldl_nil, setInsert, List.not_mem_nil,
      if_false, List.nil_append]
    exact Drift_of_no_collisions fuel _ hd
  have hbuf : GetMST (centroidBuffer [r]) = [] :=
    hmst _ (le_trans (centroidBuffer_length_le [r]) (by simp))
  refine ⟨CreateCorridors GetMST ⟨[r], [], 0, 0, 0, 0⟩, ?_, ?_, ?_, ?_⟩
  · simp only [Dungeon.new, hgen, Option.some_bind, Drift_of_no_collisions fuel _ hd,
      Option.map_some']
  · simp [CreateCorridors, hbuf, CreateCorridorsFrom]
  · simp [CreateCorridors, hbuf, CreateCorridorsFrom]
  · simp [CreateCorridors, hbuf, CreateCorridorsFrom]

/-- Witness for C7 (amended): one drawn room `(5,0,6,6)` and the collaborator
`pairMST`. -/
theorem Dungeon_new_single_room_witness :
    ∃ d : Dungeon, Dungeon.new pairMST 0 [⟨5, 0, 6, 6⟩] = some d ∧ d.corridors_ = [] ∧
      d.rooms_.length ≤ 1 ∧ ∀ q ∈ d.rooms_, IsLarge q = true :=
  Dungeon_new_single_room pairMST pairMST_of_length_le_one 0 ⟨5, 0, 6, 6⟩

/-- C8: when the spanning tree has no edge, `CreateCorridors` appends no
corridor and leaves a room set with no non-large room and at most one room. -/
theorem CreateCorridors_no_edges (GetMST : List Vert → List Edge) (d : Dungeon)
    (hnil : GetMST (centroidBuffer d.rooms_) = []) :
    (CreateCorridors GetMST d).corridors_ = d.corridors_ ∧
    (∀ r ∈ (CreateCorridors GetMST d).rooms_, IsLarge r = true) ∧
    (CreateCorridors GetMST d).rooms_.length ≤ 1 := by
  simp [CreateCorridors, hnil, CreateCorridorsFrom]

/-- Witness for C8: a room set with one large room, for which `pairMST`
returns no edge. -/
theorem CreateCorridors_no_edges_witness :
    pairMST (centroidBuffer loneLargeRoom.rooms_) = [] ∧
    (CreateCorridors pairMST loneLargeRoom).corridors_ = loneLargeRoom.corridors_ ∧
    (∀ r ∈ (CreateCorridors pairMST loneLargeRoom).rooms_, IsLarge r = true) ∧
    (CreateCorridors pairMST loneLargeRoom).rooms_.length ≤ 1 :=
  ⟨by decide, CreateCorridors_no_edges pairMST loneLargeRoom (by decide)⟩

/-! ## Lemmas on the rewrite rules -/

/-- Every tile code named in `tileset.h` is below 37, so a code from 37 on
differs from each of them. -/
theorem ne_of_ge_37 (t : Nat) (h : 37 ≤ t) (c : Nat) (hc : c < 37) : ¬ (t = c) := by
  omega

theorem CorridorTopWallRewrite_default (t : Nat) (h : 37 ≤ t) : CorridorTopWallRewrite t = WALL_TOP := by
  unfold CorridorTopWallRewrite
  iterate 10 rw [if_neg (ne_of_ge_37 t h _ (by decide))]

theorem CorridorBottomWallRewrite_default (t : Nat) (h : 37 ≤ t) : CorridorBottomWallRewrite t = WALL_BOTTOM := by
  unfold CorridorBottomWallRewrite
  iterate 10 rw [if_neg (ne_of_ge_37 t h _ (by decide))]

theorem CorridorLeftWallRewrite_default (t : Nat) (h : 37 ≤ t) : CorridorLeftWallRewrite t = WALL_LEFT := by
  unfold CorridorLeftWallRewrite
  iterate 10 rw [if_neg (ne_of_ge_37 t h _ (by decide))]

theorem CorridorRightWallRewrite_default (t : Nat) (h : 37 ≤ t) : CorridorRightWallRewrite t = WALL_RIGHT := by
  unfold CorridorRightWallRewrite
  iterate 10 rw [if_neg (ne_of_ge_37 t h _ (by decide))]

theorem CorridorTopLeftRewrite_default (t : Nat) (h : 37 ≤ t) : CorridorTopLeftRewrite t = WALL_TOPLEFT := by
  unfold CorridorTopLeftRewrite
  iterate 11 rw [if_neg (ne_of_ge_37 t h _ (by decide))]

theorem CorridorTopRightRewrite_default (t : Nat) (h : 37 ≤ t) : CorridorTopRightRewrite t = WALL_TOPRIGHT := by
  unfold CorridorTopRightRewrite
  iterate 11 rw [if_neg (ne_of_ge_37 t h _ (by decide))]

theorem CorridorBottomLeftRewrite_default (t : Nat) (h : 37 ≤ t) : CorridorBottomLeftRewrite t = WALL_BOTTOMLEFT := by
  unfold CorridorBottomLeftRewrite
  iterate 11 rw [if_neg (ne_of_ge_37 t h _ (by decide))]

theorem CorridorBottomRightRewrite_default (t : Nat) (h : 37 ≤ t) : CorridorBottomRightRewrite t = WALL_BOTTOMRIGHT := by
  unfold CorridorBottomRightRewrite
  iterate 11 rw [if_neg (ne_of_ge_37 t h _ (by decide))]

/-! ## Claims on the rewrite rules -/

/-- C9: each of the four edge rewrite functions, as a function of the existing
tile code, is idempotent on every tile code (every natural number, so every
16-bit code). -/
theorem edge_rewrites_idempotent (t : Nat) :
    CorridorTopWallRewrite (CorridorTopWallRewrite t) = CorridorTopWallRewrite t ∧
    CorridorBottomWallRewrite (CorridorBottomWallRewrite t) = CorridorBottomWallRewrite t ∧
    CorridorLeftWallRewrite (CorridorLeftWallRewrite t) = CorridorLeftWallRewrite t ∧
    CorridorRightWallRewrite (CorridorRightWallRewrite t) = CorridorRightWallRewrite t := by
  by_cases h : t < 37
  · revert t
    decide
  · have h37 : 37 ≤ t := Nat.le_of_not_lt h
    rw [CorridorTopWallRewrite_default t h37, CorridorBottomWallRewrite_default t h37,
      CorridorLeftWallRewrite_default t h37, CorridorRightWallRewrite_default t h37]
    decide

/-- C10 (counterexample): no corner rewrite function is idempotent.  The
top-left and top-right rules send `WALL_BOTTOM` to an inner corner and that
corner to floor; the bottom-left rule sends `WALL_TOPRIGHT` to a bowtie and the
bowtie to `WALL_BOTTOMLEFT`; the bottom-right rule sends `WALL_TOPLEFT` to a
bowtie and the bowtie to `WALL_BOTTOMRIGHT`. -/
theorem corner_rewrites_not_idempotent :
    CorridorTopLeftRewrite (CorridorTopLeftRewrite WALL_BOTTOM) ≠
      CorridorTopLeftRewrite WALL_BOTTOM ∧
    CorridorTopRightRewrite (CorridorTopRightRewrite WALL_BOTTOM) ≠
      CorridorTopRightRewrite WALL_BOTTOM ∧
    CorridorBottomLeftRewrite (CorridorBottomLeftRewrite WALL_TOPRIGHT) ≠
      CorridorBottomLeftRewrite WALL_TOPRIGHT ∧
    CorridorBottomRightRewrite (CorridorBottomRightRewrite WALL_TOPLEFT) ≠
      CorridorBottomRightRewrite WALL_TOPLEFT := by
  decide

/-- C10 (amended): for every tile code `t`, a second application of a corner
rewrite function changes nothing except on the codes listed: the top-left and
the top-right rule are idempotent at `t` exactly when `t` is none of
`WALL_BOTTOMLEFT`, `WALL_BOTTOM`, `WALL_BOTTOMRIGHT`; the bottom-left rule
exactly when `t` is not `WALL_TOPRIGHT`; the bottom-right rule exactly when
`t` is not `WALL_TOPLEFT`. -/
theorem corner_rewrites_idempotent_iff (t : Nat) :
    (CorridorTopLeftRewrite (CorridorTopLeftRewrite t) = CorridorTopLeftRewrite t ↔
      t ≠ WALL_BOTTOMLEFT ∧ t ≠ WALL_BOTTOM ∧ t ≠ WALL_BOTTOMRIGHT) ∧
    (CorridorTopRightRewrite (CorridorTopRightRewrite t) = CorridorTopRightRewrite t ↔
      t ≠ WALL_BOTTOMLEFT ∧ t ≠ WALL_BOTTOM ∧ t ≠ WALL_BOTTOMRIGHT) ∧
    (CorridorBottomLeftRewrite (CorridorBottomLeftRewrite t) = CorridorBottomLeftRewrite t ↔
      t ≠ WALL_TOPRIGHT) ∧
    (CorridorBottomRightRewrite (CorridorBottomRightRewrite t) = CorridorBottomRightRewrite t ↔
      t ≠ WALL_TOPLEFT) := by
  by_cases h : t < 37
  · revert t
    decide
  · have h37 : 37 ≤ t := Nat.le_of_not_lt h
    rw [CorridorTopLeftRewrite_default t h37, CorridorTopRightRewrite_default t h37,
      CorridorBottomLeftRewrite_default t h37, CorridorBottomRightRewrite_default t h37]
    have hne := ne_of_ge_37 t h37
    refine ⟨⟨fun _ => ⟨hne _ (by decide), hne _ (by decide), hne _ (by decide)⟩, fun _ => by decide⟩,
      ⟨fun _ => ⟨hne _ (by decide), hne _ (by decide), hne _ (by decide)⟩, fun _ => by decide⟩,
      ⟨fun _ => hne _ (by decide), fun _ => by decide⟩,
      ⟨fun _ => hne _ (by decide), fun _ => by decide⟩⟩

/-! ## Lemmas on the tile grid -/

theorem mem_loop (lo hi k : Int) : k ∈ loop lo hi ↔ lo ≤ k ∧ k < hi := by
  unfold loop
  simp only [List.mem_map, List.mem_range]
  constructor
  · rintro ⟨n, hn, rfl⟩
    rw [Int.lt_toNat] at hn
    omega
  · rintro ⟨h1, h2⟩
    refine ⟨(k - lo).toNat, ?_, ?_⟩
    · rw [Int.lt_toNat, Int.toNat_of_nonneg (by omega)]
      omega
    · rw [Int.toNat_of_nonneg (by omega)]
      omega

theorem applyWrite_width (m : Map) (w : TileWrite) : (applyWrite m w).width_ = m.width_ := rfl

theorem applyWrite_height (m : Map) (w : TileWrite) : (applyWrite m w).height_ = m.height_ := rfl

theorem applyWrites_width (ws : List TileWrite) : ∀ m : Map, (applyWrites m ws).width_ = m.width_ := by
  induction ws with
  | nil => intro m; rfl
  | cons w t ih => intro m; exact (ih (applyWrite m w)).trans (applyWrite_width m w)

theorem applyWrites_height (ws : List TileWrite) :
    ∀ m : Map, (applyWrites m ws).height_ = m.height_ := by
  induction ws with
  | nil => intro m; rfl
  | cons w t ih => intro m; exact (ih (applyWrite m w)).trans (applyWrite_height m w)

theorem applyWrites_append (m : Map) (ws vs : List TileWrite) :
    applyWrites m (ws ++ vs) = applyWrites (applyWrites m ws) vs := by
  simp [applyWrites, List.foldl_append]

theorem applyWrite_tiles (m : Map) (w : TileWrite) (i : Int) :
    (applyWrite m w).tiles_ i =
      if i = w.x + w.y * m.width_ then w.rewrite (m.tiles_ i) else m.tiles_ i := by
  unfold applyWrite AddTileAt GetTileTypeAt
  simp only
  by_cases h : i = w.x + w.y * m.width_
  · rw [if_pos h, if_pos (by rw [h]; ring), h]
  · rw [if_neg h, if_neg (fun h2 => h (by rw [h2]; ring))]

/-- A property of tiles that every write of the sequence preserves holds at an
index afterwards when it held there before. -/
theorem applyWrites_preserves (P : Nat → Prop) (ws : List TileWrite)
    (hws : ∀ w ∈ ws, ∀ t, P t → P (w.rewrite t)) :
    ∀ (m : Map) (i : Int), P (m.tiles_ i) → P ((applyWrites m ws).tiles_ i) := by
  induction ws with
  | nil => intro m i h; exact h
  | cons w t ih =>
    intro m i h
    refine ih (fun v hv => hws v (List.mem_cons_of_mem _ hv)) (applyWrite m w) i ?_
    rw [applyWrite_tiles]
    split_ifs
    · exact hws w (List.mem_cons_self _ _) _ h
    · exact h

/-- An index that no write of the sequence addresses keeps its tile. -/
theorem applyWrites_untouched (ws : List TileWrite) :
    ∀ (m : Map) (i : Int), (∀ w ∈ ws, i ≠ w.x + w.y * m.width_) →
      (applyWrites m ws).tiles_ i = m.tiles_ i := by
  induction ws with
  | nil => intro m i _; rfl
  | cons w t ih =>
    intro m i h
    have h1 := ih (applyWrite m w) i (fun v hv => h v (List.mem_cons_of_mem _ hv))
    have h2 := applyWrite_tiles m w i
    rw [if_neg (h w (List.mem_cons_self _ _))] at h2
    exact h1.trans h2

/-- When every write of the sequence that addresses index `i` stores the same
tile `v`, and one of them does address `i`, the index holds `v` afterwards. -/
theorem applyWrites_constant (v : Nat) (ws : List TileWrite) :
    ∀ (m : Map) (i : Int),
      (∀ w ∈ ws, i = w.x + w.y * m.width_ → ∀ t, w.rewrite t = v) →
      (∃ w ∈ ws, i = w.x + w.y * m.width_) →
      (applyWrites m ws).tiles_ i = v := by
  induction ws with
  | nil => intro m i _ h; simp at h
  | cons w t ih =>
    intro m i hall hex
    by_cases ht : ∃ u ∈ t, i = u.x + u.y * m.width_
    · exact ih (applyWrite m w) i (fun u hu => hall u (List.mem_cons_of_mem _ hu)) ht
    · have hw : i = w.x + w.y * m.width_ := by
        obtain ⟨u, hu, hi⟩ := hex
        rcases List.mem_cons.mp hu with rfl | hu
        · exact hi
        · exact absurd ⟨u, hu, hi⟩ ht
      have h1 : (applyWrites m (w :: t)).tiles_ i = (applyWrite m w).tiles_ i :=
        applyWrites_untouched t (applyWrite m w) i (fun u hu hi => ht ⟨u, hu, hi⟩)
      rw [h1, applyWrite_tiles, if_pos hw]
      exact hall w (List.mem_cons_self _ _) hw _

/-- Inside the grid the index `x + y * width_` determines the cell. -/
theorem index_injective (m : Map) (x y x' y' : Int) (h : InGrid m x y) (h' : InGrid m x' y')
    (heq : x + y * m.width_ = x' + y' * m.width_) : x = x' ∧ y = y' := by
  obtain ⟨hx0, hx1, _, _⟩ := h
  obtain ⟨hx0', hx1', _, _⟩ := h'
  have hw : 0 < m.width_ := lt_of_le_of_lt hx0 hx1
  have hy : y = y' := by
    have e1 : (x + y * m.width_) / m.width_ = y := by
      rw [Int.add_mul_ediv_right _ _ (ne_of_gt hw), Int.ediv_eq_zero_of_lt hx0 hx1, zero_add]
    have e2 : (x' + y' * m.width_) / m.width_ = y' := by
      rw [Int.add_mul_ediv_right _ _ (ne_of_gt hw), Int.ediv_eq_zero_of_lt hx0' hx1', zero_add]
    rw [← e1, ← e2, heq]
  subst hy
  exact ⟨by omega, rfl⟩

theorem FillWithFloorWrites_rewrite (c : Corridor) (left top : Int) :
    ∀ w ∈ FillWithFloorWrites c left top, w.rewrite = (fillFloor 0 0).rewrite := by
  intro w hw
  unfold FillWithFloorWrites at hw
  rw [List.mem_append, List.mem_flatMap] at hw
  rcases hw with ⟨x, _, hx⟩ | hw
  · rw [List.mem_map] at hx
    obtain ⟨y, _, rfl⟩ := hx
    rfl
  · split_ifs at hw <;> simp only [List.mem_cons, List.mem_singleton, List.not_mem_nil, or_false] at hw <;>
      rcases hw with rfl | rfl <;> rfl

/-- Every write of `TileCorridor` applies one of the eight rewrite functions or
the guarded floor write of `FillWithFloor`. -/
theorem TileCorridorWrites_rewrite (left top : Int) (c : Corridor) :
    ∀ w ∈ TileCorridorWrites left top c,
      w.rewrite ∈ [CorridorTopWallRewrite, CorridorBottomWallRewrite, CorridorLeftWallRewrite,
        CorridorRightWallRewrite, CorridorTopLeftRewrite, CorridorTopRightRewrite,
        CorridorBottomLeftRewrite, CorridorBottomRightRewrite, (fillFloor 0 0).rewrite] := by
  intro w hw
  unfold TileCorridorWrites at hw
  simp only at hw
  split_ifs at hw
  all_goals
    simp only [List.mem_append, List.mem_cons, List.mem_singleton, List.not_mem_nil, or_false,
      List.mem_map] at hw
    rcases hw with (((((rfl | rfl | rfl) | ⟨_, _, rfl⟩) | hw) | ⟨_, _, rfl⟩) | (rfl | rfl | rfl))
    all_goals first
      | (rw [FillWithFloorWrites_rewrite _ _ _ w hw]; simp)
      | simp

/-! ## Claims on the tile synthesizer -/

/-- C11: each edge rewrite sends a straight wall of the perpendicular axis to
the inner corner of its own side, and that result is neither floor nor one of
the three other inner corners. -/
theorem edge_rewrite_perpendicular_wall :
    (CorridorTopWallRewrite WALL_LEFT = WALL_TL_CORNER ∧
      CorridorTopWallRewrite WALL_RIGHT = WALL_TR_CORNER ∧
      CorridorBottomWallRewrite WALL_LEFT = WALL_BL_CORNER ∧
      CorridorBottomWallRewrite WALL_RIGHT = WALL_BR_CORNER ∧
      CorridorLeftWallRewrite WALL_TOP = WALL_TL_CORNER ∧
      CorridorLeftWallRewrite WALL_BOTTOM = WALL_BL_CORNER ∧
      CorridorRightWallRewrite WALL_TOP = WALL_TR_CORNER ∧
      CorridorRightWallRewrite WALL_BOTTOM = WALL_BR_CORNER) ∧
    (CorridorTopWallRewrite WALL_LEFT ∉
        [FLOOR_TEXTURE, WALL_TR_CORNER, WALL_BL_CORNER, WALL_BR_CORNER] ∧
      CorridorTopWallRewrite WALL_RIGHT ∉
        [FLOOR_TEXTURE, WALL_TL_CORNER, WALL_BL_CORNER, WALL_BR_CORNER] ∧
      CorridorBottomWallRewrite WALL_LEFT ∉
        [FLOOR_TEXTURE, WALL_TL_CORNER, WALL_TR_CORNER, WALL_BR_CORNER] ∧
      CorridorBottomWallRewrite WALL_RIGHT ∉
        [FLOOR_TEXTURE, WALL_TL_CORNER, WALL_TR_CORNER, WALL_BL_CORNER] ∧
      CorridorLeftWallRewrite WALL_TOP ∉
        [FLOOR_TEXTURE, WALL_TR_CORNER, WALL_BL_CORNER, WALL_BR_CORNER] ∧
      CorridorLeftWallRewrite WALL_BOTTOM ∉
        [FLOOR_TEXTURE, WALL_TL_CORNER, WALL_TR_CORNER, WALL_BR_CORNER] ∧
      CorridorRightWallRewrite WALL_TOP ∉
        [FLOOR_TEXTURE, WALL_TL_CORNER, WALL_BL_CORNER, WALL_BR_CORNER] ∧
      CorridorRightWallRewrite WALL_BOTTOM ∉
        [FLOOR_TEXTURE, WALL_TL_CORNER, WALL_TR_CORNER, WALL_BL_CORNER]) := by
  decide

/-- C12: stamping a corridor, horizontal or vertical, whose written cells lie
inside the grid leaves every floor cell of the grid a floor cell: all eight
rewrite functions return floor on floor, and `FillWithFloor` writes only
floor. -/
theorem TileCorridor_keeps_floor (m : Map) (left top : Int) (c : Corridor)
    (_hin : ∀ w ∈ TileCorridorWrites left top c, InGrid m w.x w.y)
    (x y : Int) (_hxy : InGrid m x y) (hfloor : GetTileTypeAt m x y = FLOOR_TEXTURE) :
    GetTileTypeAt (TileCorridor m left top c) x y = FLOOR_TEXTURE ∧
    (∀ f ∈ [CorridorTopWallRewrite, CorridorBottomWallRewrite, CorridorLeftWallRewrite,
        CorridorRightWallRewrite, CorridorTopLeftRewrite, CorridorTopRightRewrite,
        CorridorBottomLeftRewrite, CorridorBottomRightRewrite],
      f FLOOR_TEXTURE = FLOOR_TEXTURE) ∧
    (∀ (l t : Int), ∀ w ∈ FillWithFloorWrites c l t, ∀ existing : Nat,
      w.rewrite existing = FLOOR_TEXTURE) := by
  have h8 : ∀ f ∈ [CorridorTopWallRewrite, CorridorBottomWallRewrite, CorridorLeftWallRewrite,
        CorridorRightWallRewrite, CorridorTopLeftRewrite, CorridorTopRightRewrite,
        CorridorBottomLeftRewrite, CorridorBottomRightRewrite],
      f FLOOR_TEXTURE = FLOOR_TEXTURE := by decide
  have hfill : ∀ existing : Nat, (fillFloor 0 0).rewrite existing = FLOOR_TEXTURE := by
    intro existing
    simp only [fillFloor]
    split_ifs with h
    · rfl
    · exact not_not.mp h
  refine ⟨?_, h8, ?_⟩
  · unfold GetTileTypeAt TileCorridor
    rw [applyWrites_width]
    refine applyWrites_preserves (fun t => t = FLOOR_TEXTURE) _ ?_ m _ hfloor
    intro w hw t ht
    have hmem := TileCorridorWrites_rewrite left top c w hw
    simp only [List.mem_cons, List.mem_singleton, List.not_mem_nil, or_false] at hmem
    rw [ht]
    rcases hmem with h | h | h | h | h | h | h | h | h <;> rw [h]
    · exact h8 _ (by simp)
    · exact h8 _ (by simp)
    · exact h8 _ (by simp)
    · exact h8 _ (by simp)
    · exact h8 _ (by simp)
    · exact h8 _ (by simp)
    · exact h8 _ (by simp)
    · exact h8 _ (by simp)
    · exact hfill _
  · intro l t w hw existing
    rw [FillWithFloorWrites_rewrite c l t w hw]
    exact hfill existing

/-- Witness for C12: the floor cell `(5,3)` in the right wall column of the
first room of `twoRoomsGrid`, made floor by the horizontal corridor, is still
floor after the vertical corridor is stamped. -/
theorem TileCorridor_keeps_floor_witness :
    (∀ w ∈ TileCorridorWrites twoRooms.left twoRooms.top verticalExample,
      InGrid (TileCorridor twoRoomsGrid twoRooms.left twoRooms.top horizontalExample) w.x w.y) ∧
    GetTileTypeAt twoRoomsGrid 5 3 = WALL_RIGHT ∧
    GetTileTypeAt (TileCorridor twoRoomsGrid twoRooms.left twoRooms.top horizontalExample) 5 3 =
      FLOOR_TEXTURE ∧
    GetTileTypeAt (TileCorridor
      (TileCorridor twoRoomsGrid twoRooms.left twoRooms.top horizontalExample)
      twoRooms.left twoRooms.top verticalExample) 5 3 = FLOOR_TEXTURE :=
  ⟨by decide, by decide, by decide,
   (TileCorridor_keeps_floor
      (TileCorridor twoRoomsGrid twoRooms.left twoRooms.top horizontalExample)
      twoRooms.left twoRooms.top verticalExample (by decide) 5 3 (by decide) (by decide)).1⟩

theorem TileRoomWrites_spec (left top : Int) (r : Rect) (hw : 2 ≤ r.width) (hh : 2 ≤ r.height) :
    ∀ w ∈ TileRoomWrites left top r, ∃ x y : Int,
      (0 ≤ x ∧ x < r.width ∧ 0 ≤ y ∧ y < r.height) ∧
      w.x = r.left - left + x ∧ w.y = r.top - top + y ∧
      ∀ t, w.rewrite t = roomTileAt r x y := by
  intro w hmem
  unfold TileRoomWrites at hmem
  simp only [List.mem_append, List.mem_flatMap, List.mem_map, List.mem_cons, List.mem_singleton,
    List.not_mem_nil, or_false, mem_loop] at hmem
  rcases hmem with ((⟨y, hy, x, hx, rfl⟩ | (rfl | rfl | rfl | rfl)) | ⟨i, hi, (rfl | rfl)⟩) |
    ⟨i, hi, (rfl | rfl)⟩
  · refine ⟨x, y, by omega, rfl, rfl, fun t => ?_⟩
    simp only [putTile, roomTileAt]
    split_ifs <;> first | rfl | omega
  · refine ⟨0, 0, by omega, by simp [putTile], by simp [putTile], fun t => ?_⟩
    simp [putTile, roomTileAt]
  · refine ⟨r.width - 1, 0, by omega, by simp only [putTile]; ring, by simp [putTile],
      fun t => ?_⟩
    have e1 : r.width - 1 ≠ 0 := by omega
    have e2 : r.height - 1 ≠ 0 := by omega
    have e3 : (0 : Int) ≠ r.width - 1 := by omega
    have e4 : (0 : Int) ≠ r.height - 1 := by omega
    simp [putTile, roomTileAt, e1, e2, e3, e4]
  · refine ⟨0, r.height - 1, by omega, by simp [putTile], by simp only [putTile]; ring,
      fun t => ?_⟩
    have e1 : r.width - 1 ≠ 0 := by omega
    have e2 : r.height - 1 ≠ 0 := by omega
    have e3 : (0 : Int) ≠ r.width - 1 := by omega
    have e4 : (0 : Int) ≠ r.height - 1 := by omega
    simp [putTile, roomTileAt, e1, e2, e3, e4]
  · refine ⟨r.width - 1, r.height - 1, by omega, by simp only [putTile]; ring,
      by simp only [putTile]; ring, fun t => ?_⟩
    have e1 : r.width - 1 ≠ 0 := by omega
    have e2 : r.height - 1 ≠ 0 := by omega
    have e3 : (0 : Int) ≠ r.width - 1 := by omega
    have e4 : (0 : Int) ≠ r.height - 1 := by omega
    simp [putTile, roomTileAt, e1, e2, e3, e4]
  · refine ⟨i, 0, by omega, rfl, by simp [putTile], fun t => ?_⟩
    simp only [putTile, roomTileAt]
    split_ifs <;> first | rfl | omega
  · refine ⟨i, r.height - 1, by omega, rfl, by simp only [putTile]; ring, fun t => ?_⟩
    simp only [putTile, roomTileAt]
    split_ifs <;> first | rfl | omega
  · refine ⟨0, i, by omega, by simp [putTile], rfl, fun t => ?_⟩
    simp only [putTile, roomTileAt]
    split_ifs <;> first | rfl | omega
  · refine ⟨r.width - 1, i, by omega, by simp only [putTile]; ring, rfl, fun t => ?_⟩
    simp only [putTile, roomTileAt]
    split_ifs <;> first | rfl | omega

theorem TileRoomWrites_cover (left top : Int) (r : Rect) (x y : Int)
    (hx0 : 0 ≤ x) (hx1 : x < r.width) (hy0 : 0 ≤ y) (hy1 : y < r.height) :
    ∃ w ∈ TileRoomWrites left top r, w.x = r.left - left + x ∧ w.y = r.top - top + y := by
  unfold TileRoomWrites
  simp only [List.mem_append, List.mem_flatMap, List.mem_map, List.mem_cons, List.mem_singleton,
    List.not_mem_nil, or_false, mem_loop]
  by_cases hxl : x = 0
  · by_cases hyt : y = 0
    · exact ⟨putTile (r.left - left) (r.top - top) WALL_TOPLEFT, by simp,
        by simp [putTile, hxl], by simp [putTile, hyt]⟩
    · by_cases hyb : y = r.height - 1
      · exact ⟨putTile (r.left - left) (r.top - top + r.height - 1) WALL_BOTTOMLEFT, by simp,
          by simp [putTile, hxl], by simp only [putTile, hyb]; ring⟩
      · exact ⟨putTile (r.left - left) (r.top - top + y) WALL_LEFT,
          Or.inr ⟨y, by omega, Or.inl rfl⟩, by simp [putTile, hxl], rfl⟩
  · by_cases hxr : x = r.width - 1
    · by_cases hyt : y = 0
      · exact ⟨putTile (r.left - left + r.width - 1) (r.top - top) WALL_TOPRIGHT, by simp,
          by simp only [putTile, hxr]; ring, by simp [putTile, hyt]⟩
      · by_cases hyb : y = r.height - 1
        · exact ⟨putTile (r.left - left + r.width - 1) (r.top - top + r.height - 1)
            WALL_BOTTOMRIGHT, by simp, by simp only [putTile, hxr]; ring,
            by simp only [putTile, hyb]; ring⟩
        · exact ⟨putTile (r.left - left + r.width - 1) (r.top - top + y) WALL_RIGHT,
            Or.inr ⟨y, by omega, Or.inr rfl⟩, by simp only [putTile, hxr]; ring, rfl⟩
    · by_cases hyt : y = 0
      · exact ⟨putTile (r.left - left + x) (r.top - top) WALL_TOP,
          Or.inl (Or.inr ⟨x, by omega, Or.inl rfl⟩), rfl, by simp [putTile, hyt]⟩
      · by_cases hyb : y = r.height - 1
        · exact ⟨putTile (r.left - left + x) (r.top - top + r.height - 1) WALL_BOTTOM,
            Or.inl (Or.inr ⟨x, by omega, Or.inr rfl⟩), rfl, by simp only [putTile, hyb]; ring⟩
        · exact ⟨putTile (r.left - left + x) (r.top - top + y) FLOOR_TEXTURE,
            Or.inl (Or.inl (Or.inl ⟨y, by omega, x, by omega, rfl⟩)), rfl, rfl⟩

/-- The tiles that `TileRoom` leaves inside and outside the footprint of the
room. -/
theorem TileRoom_cells (m : Map) (left top : Int) (r : Rect)
    (hw : 2 ≤ r.width) (hh : 2 ≤ r.height)
    (hin : 0 ≤ r.left - left ∧ r.left - left + r.width ≤ m.width_ ∧
      0 ≤ r.top - top ∧ r.top - top + r.height ≤ m.height_) :
    (∀ x y : Int, 0 ≤ x → x < r.width → 0 ≤ y → y < r.height →
      GetTileTypeAt (TileRoom m left top r) (r.left - left + x) (r.top - top + y) =
        roomTileAt r x y) ∧
    (∀ x y : Int, InGrid m x y →
      ¬ (r.left - left ≤ x ∧ x < r.left - left + r.width ∧
         r.top - top ≤ y ∧ y < r.top - top + r.height) →
      GetTileTypeAt (TileRoom m left top r) x y = GetTileTypeAt m x y) := by
  have hcell : ∀ w ∈ TileRoomWrites left top r, ∀ x y : Int, InGrid m x y →
      x + y * m.width_ = w.x + w.y * m.width_ →
      ∃ a b : Int, (0 ≤ a ∧ a < r.width ∧ 0 ≤ b ∧ b < r.height) ∧
        x = r.left - left + a ∧ y = r.top - top + b ∧ ∀ t, w.rewrite t = roomTileAt r a b := by
    intro w hmem x y hxy heq
    obtain ⟨a, b, hab, hwx, hwy, hval⟩ := TileRoomWrites_spec left top r hw hh w hmem
    have hwin : InGrid m w.x w.y := by
      unfold InGrid
      omega
    obtain ⟨h1, h2⟩ := index_injective m x y w.x w.y hxy hwin heq
    exact ⟨a, b, hab, h1.trans hwx, h2.trans hwy, hval⟩
  constructor
  · intro x y hx0 hx1 hy0 hy1
    have hxy : InGrid m (r.left - left + x) (r.top - top + y) := by
      unfold InGrid
      omega
    unfold GetTileTypeAt TileRoom
    rw [applyWrites_width]
    refine applyWrites_constant _ _ m _ ?_ ?_
    · intro w hmem heq t
      obtain ⟨a, b, _, ha, hb, hval⟩ := hcell w hmem _ _ hxy heq
      have ea : a = x := by omega
      have eb : b = y := by omega
      rw [hval t, ea, eb]
    · obtain ⟨w, hmem, hwx, hwy⟩ := TileRoomWrites_cover left top r x y hx0 hx1 hy0 hy1
      exact ⟨w, hmem, by rw [hwx, hwy]⟩
  · intro x y hxy hout
    unfold GetTileTypeAt TileRoom
    rw [applyWrites_width]
    refine applyWrites_untouched _ m _ ?_
    intro w hmem heq
    obtain ⟨a, b, hab, ha, hb, _⟩ := hcell w hmem x y hxy heq
    apply hout
    omega

/-- C13: for a room of width and height at least 2 whose footprint lies inside
the grid, `TileRoom(left, top, r)` leaves at offset `(x, y)` of the translated
footprint the tile `roomTileAt r x y` (corner codes at the corners, straight
walls on the border runs, floor strictly inside), and every grid cell outside
the footprint keeps its tile. -/
theorem TileRoom_tiles (m : Map) (left top : Int) (r : Rect)
    (hw : 2 ≤ r.width) (hh : 2 ≤ r.height)
    (hin : 0 ≤ r.left - left ∧ r.left - left + r.width ≤ m.width_ ∧
      0 ≤ r.top - top ∧ r.top - top + r.height ≤ m.height_) :
    (∀ x y : Int, 0 ≤ x → x < r.width → 0 ≤ y → y < r.height →
      GetTileTypeAt (TileRoom m left top r) (r.left - left + x) (r.top - top + y) =
        roomTileAt r x y) ∧
    (∀ x y : Int, InGrid m x y →
      ¬ (r.left - left ≤ x ∧ x < r.left - left + r.width ∧
         r.top - top ≤ y ∧ y < r.top - top + r.height) →
      GetTileTypeAt (TileRoom m left top r) x y = GetTileTypeAt m x y) :=
  TileRoom_cells m left top r hw hh hin

/-- Witness for C13: the room `(10,2,7,6)` stamped on `backgroundGrid`. -/
theorem TileRoom_tiles_witness :
    GetTileTypeAt (TileRoom backgroundGrid 0 0 ⟨10, 2, 7, 6⟩) 10 2 = WALL_TOPLEFT ∧
    GetTileTypeAt (TileRoom backgroundGrid 0 0 ⟨10, 2, 7, 6⟩) 13 2 = WALL_TOP ∧
    GetTileTypeAt (TileRoom backgroundGrid 0 0 ⟨10, 2, 7, 6⟩) 16 4 = WALL_RIGHT ∧
    GetTileTypeAt (TileRoom backgroundGrid 0 0 ⟨10, 2, 7, 6⟩) 12 5 = FLOOR_TEXTURE ∧
    GetTileTypeAt (TileRoom backgroundGrid 0 0 ⟨10, 2, 7, 6⟩) 9 2 = WALL_TEXTURE :=
  have h := TileRoom_tiles backgroundGrid 0 0 ⟨10, 2, 7, 6⟩ (by decide) (by decide) (by decide)
  ⟨h.1 0 0 (by decide) (by decide) (by decide) (by decide),
   h.1 3 0 (by decide) (by decide) (by decide) (by decide),
   h.1 6 2 (by decide) (by decide) (by decide) (by decide),
   h.1 2 3 (by decide) (by decide) (by decide) (by decide),
   (h.2 9 2 (by decide) (by decide)).trans (by decide)⟩

/-! ## Claims on the geometry primitives and the random source -/

theorem Rect.lt_iff (l r : Rect) :
    Rect.lt l r = true ↔
      l.top < r.top ∨ (l.top = r.top ∧ (l.left < r.left ∨ (l.left = r.left ∧
        (l.top + l.height < r.top + r.height ∨ (l.top + l.height = r.top + r.height ∧
          l.left + l.width < r.left + r.width))))) := by
  unfold Rect.lt
  split_ifs <;> simp only [decide_eq_true_eq, Bool.false_eq_true, true_iff, false_iff] <;> omega

theorem Rect.eq_iff (a b : Rect) :
    a = b ↔ a.left = b.left ∧ a.top = b.top ∧ a.width = b.width ∧ a.height = b.height := by
  cases a
  cases b
  simp

/-- C15: `operator<` on `Rect` is the strict lexicographic order on
`(top, left, top+height, left+width)`: it is irreflexive and transitive, and of
`a < b`, `b < a` and `a = b` (all four fields equal) exactly one holds. -/
theorem Rect_lt_strict_total_order (a b c : Rect) :
    (Rect.lt a b = true ↔
      a.top < b.top ∨ (a.top = b.top ∧ (a.left < b.left ∨ (a.left = b.left ∧
        (a.top + a.height < b.top + b.height ∨ (a.top + a.height = b.top + b.height ∧
          a.left + a.width < b.left + b.width)))))) ∧
    Rect.lt a a = false ∧
    (Rect.lt a b = true → Rect.lt b c = true → Rect.lt a c = true) ∧
    ((Rect.lt a b = true ∧ Rect.lt b a = false ∧ a ≠ b) ∨
     (Rect.lt a b = false ∧ Rect.lt b a = true ∧ a ≠ b) ∨
     (Rect.lt a b = false ∧ Rect.lt b a = false ∧ a = b)) := by
  refine ⟨Rect.lt_iff a b, ?_, ?_, ?_⟩
  · rw [← Bool.not_eq_true, Rect.lt_iff]
    omega
  · rw [Rect.lt_iff, Rect.lt_iff, Rect.lt_iff]
    omega
  · simp only [← Bool.not_eq_true, Rect.lt_iff, ne_eq, Rect.eq_iff]
    omega

/-- Witness for C15: three rectangles with the same top-left corner, ordered by
their bottom and right edges. -/
theorem Rect_lt_strict_total_order_witness :
    Rect.lt ⟨0, 0, 3, 3⟩ ⟨0, 0, 4, 3⟩ = true ∧ Rect.lt ⟨0, 0, 4, 3⟩ ⟨0, 0, 1, 4⟩ = true ∧
    Rect.lt ⟨0, 0, 3, 3⟩ ⟨0, 0, 1, 4⟩ = true :=
  ⟨by decide, by decide,
   (Rect_lt_strict_total_order ⟨0, 0, 3, 3⟩ ⟨0, 0, 4, 3⟩ ⟨0, 0, 1, 4⟩).2.2.1
     (by decide) (by decide)⟩

/-- C16: with `ROOM_DIE_SIZE = 3` and `ROOM_DICE = 3` the threshold is 5 (as a
rational, `3 / 1.8 * 3 = 5`, and the float computation rounds to the
significand of `5.0f`), so `IsLarge(r)` holds exactly when width and height
both exceed 5, that is, are at least 6. -/
theorem IsLarge_iff (r : Rect) :
    ((ROOM_DIE_SIZE : ℚ) / (18 / 10) * (ROOM_DICE : ℚ) = 5 ∧ f32Threshold = 5 * 2 ^ 21) ∧
    (IsLarge r = true ↔ 5 < r.width ∧ 5 < r.height) ∧
    (IsLarge r = true ↔ 6 ≤ r.width ∧ 6 ≤ r.height) := by
  refine ⟨⟨?_, by decide⟩, ?_, ?_⟩
  · norm_num [ROOM_DIE_SIZE, ROOM_DICE]
  · simp only [IsLarge, ROOM_DIE_SIZE, ROOM_DICE, Bool.and_eq_true, decide_eq_true_eq]
    omega
  · simp only [IsLarge, ROOM_DIE_SIZE, ROOM_DICE, Bool.and_eq_true, decide_eq_true_eq]
    omega

theorem RoomDim_eq (die : Nat → Int) (pos : Nat) :
    RoomDim die pos = (die pos + die (pos + 1) + die (pos + 2), pos + 3) := by
  simp [RoomDim, ROOM_DICE, List.range_succ]

/-- C17: when every die outcome lies in `1 .. ROOM_DIE_SIZE`, `RoomDim` returns
the sum of the next three outcomes, a value between 3 and 9, and the rectangle
of `GetRoom` has width and height between 3 and 9. -/
theorem RoomDim_range (die : Nat → Int) (hdie : ∀ n, 1 ≤ die n ∧ die n ≤ ROOM_DIE_SIZE)
    (pos : Nat) (x y : Int) :
    (RoomDim die pos).1 = die pos + die (pos + 1) + die (pos + 2) ∧
    (3 ≤ (RoomDim die pos).1 ∧ (RoomDim die pos).1 ≤ 9) ∧
    (3 ≤ (GetRoom die pos x y).1.width ∧ (GetRoom die pos x y).1.width ≤ 9) ∧
    (3 ≤ (GetRoom die pos x y).1.height ∧ (GetRoom die pos x y).1.height ≤ 9) := by
  have h0 := hdie pos
  have h1 := hdie (pos + 1)
  have h2 := hdie (pos + 2)
  have h3 := hdie (pos + 3)
  have h4 := hdie (pos + 3 + 1)
  have h5 := hdie (pos + 3 + 2)
  simp only [ROOM_DIE_SIZE] at h0 h1 h2 h3 h4 h5
  simp only [GetRoom, RoomDim_eq]
  refine ⟨trivial, ?_, ?_, ?_⟩ <;> omega

/-- Witness for C17: the die `cyclicDie`, read from position 1, gives a room
of width `2 + 3 + 1` and height `2 + 3 + 1`. -/
theorem RoomDim_range_witness :
    (∀ n, 1 ≤ cyclicDie n ∧ cyclicDie n ≤ ROOM_DIE_SIZE) ∧
    (GetRoom cyclicDie 1 5 0).1 = ⟨5, 0, 6, 6⟩ ∧
    (3 ≤ (GetRoom cyclicDie 1 5 0).1.width ∧ (GetRoom cyclicDie 1 5 0).1.width ≤ 9) :=
  have hdie : ∀ n, 1 ≤ cyclicDie n ∧ cyclicDie n ≤ ROOM_DIE_SIZE := by
    intro n
    simp only [cyclicDie, ROOM_DIE_SIZE]
    omega
  ⟨hdie, by decide, (RoomDim_range cyclicDie hdie 1 5 0).2.2.1⟩

theorem reflectV_default (t : Nat) (h : 37 ≤ t) : reflectV t = t := by
  unfold reflectV
  iterate 12 rw [if_neg (ne_of_ge_37 t h _ (by decide))]

theorem reflectH_default (t : Nat) (h : 37 ≤ t) : reflectH t = t := by
  unfold reflectH
  iterate 12 rw [if_neg (ne_of_ge_37 t h _ (by decide))]

/-! ## Claims on the mirror symmetry of the rewrite rules -/

/-- C19: for every tile code `t` (every natural number, so each of the sixteen
codes), the bottom edge rule is the top edge rule conjugated by the reflection
`V`, and the right edge rule is the left edge rule conjugated by `H`. -/
theorem edge_rewrites_mirror (t : Nat) :
    CorridorBottomWallRewrite t = reflectV (CorridorTopWallRewrite (reflectV t)) ∧
    CorridorRightWallRewrite t = reflectH (CorridorLeftWallRewrite (reflectH t)) := by
  by_cases h : t < 37
  · revert t
    decide
  · have h37 : 37 ≤ t := Nat.le_of_not_lt h
    rw [reflectV_default t h37, reflectH_default t h37, CorridorBottomWallRewrite_default t h37,
      CorridorTopWallRewrite_default t h37, CorridorRightWallRewrite_default t h37,
      CorridorLeftWallRewrite_default t h37]
    decide

/-- C20 (counterexample): on `WALL_TOPLEFT` the bottom-left rule returns
`WALL_LEFT` where the reflected top-left rule returns a bowtie, and the
bottom-right rule returns the other bowtie than the reflected top-left rule. -/
theorem bottom_corner_rewrites_not_mirror :
    CorridorBottomLeftRewrite WALL_TOPLEFT ≠
      reflectV (CorridorTopLeftRewrite (reflectV WALL_TOPLEFT)) ∧
    CorridorBottomRightRewrite WALL_TOPLEFT ≠
      reflectV (reflectH (CorridorTopLeftRewrite (reflectH (reflectV WALL_TOPLEFT)))) := by
  decide

/-- C20 (amended): for every tile code `t`, the top-right rule is the top-left
rule conjugated by `H`; the bottom-left rule agrees with the top-left rule
conjugated by `V` exactly when `t` is none of `WALL_TOPLEFT`, `WALL_TOPRIGHT`,
`WALL_TL_CORNER`; the bottom-right rule agrees with the top-left rule
conjugated by `V` and `H` exactly when `t` is none of `WALL_TOPLEFT`,
`WALL_TOPRIGHT`, `WALL_TR_CORNER`. -/
theorem corner_rewrites_mirror_iff (t : Nat) :
    CorridorTopRightRewrite t = reflectH (CorridorTopLeftRewrite (reflectH t)) ∧
    (CorridorBottomLeftRewrite t = reflectV (CorridorTopLeftRewrite (reflectV t)) ↔
      t ≠ WALL_TOPLEFT ∧ t ≠ WALL_TOPRIGHT ∧ t ≠ WALL_TL_CORNER) ∧
    (CorridorBottomRightRewrite t =
        reflectV (reflectH (CorridorTopLeftRewrite (reflectH (reflectV t)))) ↔
      t ≠ WALL_TOPLEFT ∧ t ≠ WALL_TOPRIGHT ∧ t ≠ WALL_TR_CORNER) := by
  by_cases h : t < 37
  · revert t
    decide
  · have h37 : 37 ≤ t := Nat.le_of_not_lt h
    have hne := ne_of_ge_37 t h37
    rw [reflectV_default t h37, reflectH_default t h37,
      CorridorTopRightRewrite_default t h37, CorridorTopLeftRewrite_default t h37,
      CorridorBottomLeftRewrite_default t h37, CorridorBottomRightRewrite_default t h37]
    refine ⟨by decide,
      ⟨fun _ => ⟨hne _ (by decide), hne _ (by decide), hne _ (by decide)⟩, fun _ => by decide⟩,
      ⟨fun _ => ⟨hne _ (by decide), hne _ (by decide), hne _ (by decide)⟩, fun _ => by decide⟩⟩

/-! ## Every cell holds a tile code -/

theorem rewrite_mem_tileCodes (t : Nat) :
    ∀ f ∈ [CorridorTopWallRewrite, CorridorBottomWallRewrite, CorridorLeftWallRewrite,
        CorridorRightWallRewrite, CorridorTopLeftRewrite, CorridorTopRightRewrite,
        CorridorBottomLeftRewrite, CorridorBottomRightRewrite],
      f t ∈ tileCodes := by
  by_cases h : t < 37
  · revert t
    decide
  · have h37 : 37 ≤ t := Nat.le_of_not_lt h
    intro f hf
    simp only [List.mem_cons, List.mem_singleton, List.not_mem_nil, or_false] at hf
    rcases hf with rfl | rfl | rfl | rfl | rfl | rfl | rfl | rfl
    · rw [CorridorTopWallRewrite_default t h37]; decide
    · rw [CorridorBottomWallRewrite_default t h37]; decide
    · rw [CorridorLeftWallRewrite_default t h37]; decide
    · rw [CorridorRightWallRewrite_default t h37]; decide
    · rw [CorridorTopLeftRewrite_default t h37]; decide
    · rw [CorridorTopRightRewrite_default t h37]; decide
    · rw [CorridorBottomLeftRewrite_default t h37]; decide
    · rw [CorridorBottomRightRewrite_default t h37]; decide

theorem fillFloor_rewrite (existing : Nat) : (fillFloor 0 0).rewrite existing = FLOOR_TEXTURE := by
  simp only [fillFloor]
  split_ifs with h
  · rfl
  · exact not_not.mp h

theorem TileCorridorWrites_mem_tileCodes (left top : Int) (c : Corridor) :
    ∀ w ∈ TileCorridorWrites left top c, ∀ t, w.rewrite t ∈ tileCodes := by
  intro w hw t
  have hmem := TileCorridorWrites_rewrite left top c w hw
  rw [List.mem_cons] at hmem
  have h8 := rewrite_mem_tileCodes t
  simp only [List.mem_cons, List.mem_singleton, List.not_mem_nil, or_false] at hmem
  rcases hmem with h | h | h | h | h | h | h | h | h <;> rw [h]
  · exact h8 _ (by simp)
  · exact h8 _ (by simp)
  · exact h8 _ (by simp)
  · exact h8 _ (by simp)
  · exact h8 _ (by simp)
  · exact h8 _ (by simp)
  · exact h8 _ (by simp)
  · exact h8 _ (by simp)
  · rw [fillFloor_rewrite]; decide

theorem TileRoomWrites_mem_tileCodes (left top : Int) (r : Rect) :
    ∀ w ∈ TileRoomWrites left top r, ∀ t, w.rewrite t ∈ tileCodes := by
  intro w hmem t
  unfold TileRoomWrites at hmem
  simp only [List.mem_append, List.mem_flatMap, List.mem_map, List.mem_cons, List.mem_singleton,
    List.not_mem_nil, or_false] at hmem
  rcases hmem with ((⟨_, _, _, _, rfl⟩ | (rfl | rfl | rfl | rfl)) | ⟨_, _, (rfl | rfl)⟩) |
    ⟨_, _, (rfl | rfl)⟩ <;> simp only [putTile] <;> decide

theorem Stamp_writes_mem_tileCodes (left top : Int) (s : Stamp) :
    ∀ w ∈ s.writes left top, ∀ t, w.rewrite t ∈ tileCodes := by
  cases s with
  | room r => exact TileRoomWrites_mem_tileCodes left top r
  | corridor c => exact TileCorridorWrites_mem_tileCodes left top c

theorem Stamp_run_eq (left top : Int) (m : Map) (s : Stamp) :
    s.run left top m = applyWrites m (s.writes left top) := by
  cases s <;> rfl

/-- After the background fill every cell of the grid holds `WALL_TEXTURE`. -/
theorem backgroundWrites_fill (m : Map) (x y : Int) (hxy : InGrid m x y) :
    GetTileTypeAt (applyWrites m (backgroundWrites m.width_ m.height_)) x y = WALL_TEXTURE := by
  unfold GetTileTypeAt
  rw [applyWrites_width]
  refine applyWrites_constant _ _ m _ ?_ ?_
  · intro w hw _ t
    unfold backgroundWrites at hw
    simp only [List.mem_flatMap, List.mem_map] at hw
    obtain ⟨_, _, _, _, rfl⟩ := hw
    rfl
  · refine ⟨putTile x y WALL_TEXTURE, ?_, rfl⟩
    unfold backgroundWrites
    simp only [List.mem_flatMap, List.mem_map, mem_loop]
    exact ⟨y, ⟨hxy.2.2.1, hxy.2.2.2⟩, x, ⟨hxy.1, hxy.2.1⟩, rfl⟩

theorem stamps_keep_tileCodes (left top : Int) (stamps : List Stamp) :
    ∀ (m : Map) (i : Int), m.tiles_ i ∈ tileCodes →
      (stamps.foldl (Stamp.run left top) m).tiles_ i ∈ tileCodes := by
  induction stamps with
  | nil => intro m i h; exact h
  | cons s rest ih =>
    intro m i h
    rw [List.foldl_cons]
    refine ih _ i ?_
    rw [Stamp_run_eq]
    exact applyWrites_preserves (fun t => t ∈ tileCodes) _
      (fun w hw t _ => Stamp_writes_mem_tileCodes left top s w hw t) m i h

theorem stamps_width (left top : Int) (stamps : List Stamp) :
    ∀ m : Map, (stamps.foldl (Stamp.run left top) m).width_ = m.width_ := by
  induction stamps with
  | nil => intro m; rfl
  | cons s rest ih =>
    intro m
    rw [List.foldl_cons, ih, Stamp_run_eq, applyWrites_width]

/-- C18: each of the eight rewrite functions returns one of the sixteen tile
codes for every input, and after the background fill any sequence of
`TileRoom` and `TileCorridor` calls whose writes lie inside the grid leaves
every cell of the grid holding one of the sixteen codes. -/
theorem every_cell_holds_tileCode (width height : Int) (mem : Int → Nat) (left top : Int)
    (stamps : List Stamp)
    (_hin : ∀ s ∈ stamps, ∀ w ∈ s.writes left top, InGrid ⟨width, height, mem⟩ w.x w.y)
    (x y : Int) (hxy : InGrid ⟨width, height, mem⟩ x y) :
    (∀ t : Nat, ∀ f ∈ [CorridorTopWallRewrite, CorridorBottomWallRewrite,
        CorridorLeftWallRewrite, CorridorRightWallRewrite, CorridorTopLeftRewrite,
        CorridorTopRightRewrite, CorridorBottomLeftRewrite, CorridorBottomRightRewrite],
      f t ∈ tileCodes) ∧
    GetTileTypeAt
      (stamps.foldl (Stamp.run left top)
        (applyWrites ⟨width, height, mem⟩ (backgroundWrites width height))) x y ∈ tileCodes := by
  refine ⟨rewrite_mem_tileCodes, ?_⟩
  unfold GetTileTypeAt
  rw [stamps_width]
  refine stamps_keep_tileCodes left top stamps _ _ ?_
  have h := backgroundWrites_fill ⟨width, height, mem⟩ x y hxy
  unfold GetTileTypeAt at h
  rw [h]
  decide

/-- Witness for C18: the two rooms and the two corridors of `twoRooms` stamped
onto a background of 17 by 8 cells. -/
theorem every_cell_holds_tileCode_witness :
    GetTileTypeAt
      ([Stamp.room ⟨0, 0, 6, 6⟩, Stamp.room ⟨10, 2, 7, 6⟩, Stamp.corridor horizontalExample,
        Stamp.corridor verticalExample].foldl (Stamp.run 0 0)
        (applyWrites ⟨17, 8, fun _ => 0⟩ (backgroundWrites 17 8))) 5 2 ∈ tileCodes :=
  (every_cell_holds_tileCode 17 8 (fun _ => 0) 0 0
    [Stamp.room ⟨0, 0, 6, 6⟩, Stamp.room ⟨10, 2, 7, 6⟩, Stamp.corridor horizontalExample,
      Stamp.corridor verticalExample] (by decide) 5 2 (by decide)).2

/-! # Connectivity of the floor -/

/-! ## Lemmas on the roles -/

theorem CorridorTopWallRewrite_idem (t : Nat) :
    CorridorTopWallRewrite (CorridorTopWallRewrite t) = CorridorTopWallRewrite t := by
  by_cases h : t < 37
  · revert t
    decide
  · rw [CorridorTopWallRewrite_default t (Nat.le_of_not_lt h)]
    decide

theorem CorridorBottomWallRewrite_idem (t : Nat) :
    CorridorBottomWallRewrite (CorridorBottomWallRewrite t) = CorridorBottomWallRewrite t := by
  by_cases h : t < 37
  · revert t
    decide
  · rw [CorridorBottomWallRewrite_default t (Nat.le_of_not_lt h)]
    decide

theorem CorridorLeftWallRewrite_idem (t : Nat) :
    CorridorLeftWallRewrite (CorridorLeftWallRewrite t) = CorridorLeftWallRewrite t := by
  by_cases h : t < 37
  · revert t
    decide
  · rw [CorridorLeftWallRewrite_default t (Nat.le_of_not_lt h)]
    decide

theorem CorridorRightWallRewrite_idem (t : Nat) :
    CorridorRightWallRewrite (CorridorRightWallRewrite t) = CorridorRightWallRewrite t := by
  by_cases h : t < 37
  · revert t
    decide
  · rw [CorridorRightWallRewrite_default t (Nat.le_of_not_lt h)]
    decide

theorem Role.mem_all (k : Role) : k ∈ Role.all := by
  cases k <;> decide

theorem Role.apply_floor (k : Role) : k.apply FLOOR_TEXTURE = FLOOR_TEXTURE := by
  cases k <;> decide

/-- Every role maps each of the classes into itself. -/
theorem Role.apply_mem_class : ∀ C ∈ tileClasses, ∀ t ∈ C, ∀ k ∈ Role.all, Role.apply k t ∈ C := by
  decide

theorem Role.apply_mem (k : Role) (C : List Nat) (hC : C ∈ tileClasses) (t : Nat) (ht : t ∈ C) :
    k.apply t ∈ C :=
  Role.apply_mem_class C hC t ht k k.mem_all

/-- The top wall rule produces a code of the class of the top walls. -/
theorem Role.top_range : ∀ t ∈ tileCodes, Role.apply .top t ∈ topClass := by
  decide

/-- The edge rule of one side turns every code of the class of the opposite
side into floor. -/
theorem Role.opposite_floor :
    (∀ t ∈ topClass, Role.apply .bottom t = FLOOR_TEXTURE) ∧
    (∀ t ∈ bottomClass, Role.apply .top t = FLOOR_TEXTURE) ∧
    (∀ t ∈ leftClass, Role.apply .right t = FLOOR_TEXTURE) ∧
    (∀ t ∈ rightClass, Role.apply .left t = FLOOR_TEXTURE) := by
  decide

/-- A corner rule, applied once or twice, produces a straight wall or an inner
corner only from such a code, except that the bottom-left rule makes a left
wall of a top-left outer corner and the bottom-right rule a right wall of a
top-right outer corner. -/
theorem Role.corner_wall : ∀ t ∈ tileCodes, ∀ k ∈ Role.corners, ∀ k2 ∈ [k, Role.keep],
    Role.apply k2 (Role.apply k t) ∈ wallCodes →
      t ∈ wallCodes ∨ (k = .bottomLeft ∧ t = WALL_TOPLEFT) ∨
        (k = .bottomRight ∧ t = WALL_TOPRIGHT) := by
  decide

/-- A corner rule, applied once or twice, produces floor only from floor, a
straight wall or an inner corner. -/
theorem Role.corner_floor : ∀ t ∈ tileCodes, ∀ k ∈ Role.corners, ∀ k2 ∈ [k, Role.keep],
    Role.apply k2 (Role.apply k t) = FLOOR_TEXTURE → t = FLOOR_TEXTURE ∨ t ∈ wallCodes := by
  decide

/-- Only the top-left corner rule produces a top-left outer corner, and only
the top-right corner rule a top-right outer corner. -/
theorem Role.outer_corner : ∀ t ∈ tileCodes, ∀ k ∈ Role.all,
    (Role.apply k t = WALL_TOPLEFT → k = .topLeft ∨ (k = .keep ∧ t = WALL_TOPLEFT)) ∧
    (Role.apply k t = WALL_TOPRIGHT → k = .topRight ∨ (k = .keep ∧ t = WALL_TOPRIGHT)) := by
  decide

theorem floor_not_wallCode : FLOOR_TEXTURE ∉ wallCodes := by decide

theorem mem_floorClass : [FLOOR_TEXTURE] ∈ tileClasses := by decide
theorem mem_topClass : topClass ∈ tileClasses := by decide
theorem mem_bottomClass : bottomClass ∈ tileClasses := by decide
theorem mem_leftClass : leftClass ∈ tileClasses := by decide
theorem mem_rightClass : rightClass ∈ tileClasses := by decide
theorem mem_tileCodes : tileCodes ∈ tileClasses := by decide

/-! ## Reading one cell after a sequence of writes -/

theorem InGrid_applyWrites (m : Map) (ws : List TileWrite) (x y : Int) :
    InGrid (applyWrites m ws) x y ↔ InGrid m x y := by
  unfold InGrid
  rw [applyWrites_width, applyWrites_height]

theorem InGrid_applyWrite (m : Map) (w : TileWrite) (x y : Int) :
    InGrid (applyWrite m w) x y ↔ InGrid m x y := Iff.rfl

theorem cell_single (m : Map) (w : TileWrite) (x y : Int) (hw : InGrid m w.x w.y)
    (hxy : InGrid m x y) :
    GetTileTypeAt (applyWrite m w) x y =
      if x = w.x ∧ y = w.y then w.rewrite (GetTileTypeAt m x y) else GetTileTypeAt m x y := by
  unfold GetTileTypeAt
  rw [applyWrite_width, applyWrite_tiles]
  by_cases h : x = w.x ∧ y = w.y
  · rw [if_pos h, if_pos (by rw [h.1, h.2])]
  · rw [if_neg h, if_neg]
    intro heq
    exact h (index_injective m x y w.x w.y hxy hw heq)

theorem cell_untouched (m : Map) (ws : List TileWrite) (x y : Int)
    (hws : ∀ w ∈ ws, InGrid m w.x w.y) (hxy : InGrid m x y)
    (hno : ∀ w ∈ ws, ¬ (w.x = x ∧ w.y = y)) :
    GetTileTypeAt (applyWrites m ws) x y = GetTileTypeAt m x y := by
  unfold GetTileTypeAt
  rw [applyWrites_width]
  refine applyWrites_untouched ws m _ ?_
  intro w hw heq
  obtain ⟨h1, h2⟩ := index_injective m x y w.x w.y hxy (hws w hw) heq
  exact hno w hw ⟨h1.symm, h2.symm⟩

/-- When all writes that address a cell apply the same idempotent function and
at least one write addresses it, the cell holds the image of its old tile. -/
theorem cell_uniform (f : Nat → Nat) (hf : ∀ t, f (f t) = f t) (ws : List TileWrite) :
    ∀ (m : Map) (x y : Int), (∀ w ∈ ws, InGrid m w.x w.y) → InGrid m x y →
      (∀ w ∈ ws, w.x = x ∧ w.y = y → ∀ t, w.rewrite t = f t) →
      (∃ w ∈ ws, w.x = x ∧ w.y = y) →
      GetTileTypeAt (applyWrites m ws) x y = f (GetTileTypeAt m x y) := by
  induction ws with
  | nil => intro m x y _ _ _ h; simp at h
  | cons w t ih =>
    intro m x y hws hxy hall hex
    have hw : InGrid m w.x w.y := hws w (List.mem_cons_self _ _)
    have ht : ∀ u ∈ t, InGrid (applyWrite m w) u.x u.y := fun u hu =>
      hws u (List.mem_cons_of_mem _ hu)
    have hone := cell_single m w x y hw hxy
    show GetTileTypeAt (applyWrites (applyWrite m w) t) x y = _
    by_cases htar : ∃ u ∈ t, u.x = x ∧ u.y = y
    · rw [ih (applyWrite m w) x y ht hxy (fun u hu => hall u (List.mem_cons_of_mem _ hu)) htar,
        hone]
      split_ifs with h
      · rw [hall w (List.mem_cons_self _ _) ⟨h.1.symm, h.2.symm⟩, hf]
      · rfl
    · have hwt : w.x = x ∧ w.y = y := by
        obtain ⟨u, hu, hxy'⟩ := hex
        rcases List.mem_cons.mp hu with rfl | hu
        · exact hxy'
        · exact absurd ⟨u, hu, hxy'⟩ htar
      rw [cell_untouched (applyWrite m w) t x y ht hxy (fun u hu h => htar ⟨u, hu, h⟩), hone,
        if_pos ⟨hwt.1.symm, hwt.2.symm⟩]
      exact hall w (List.mem_cons_self _ _) hwt _

/-- The writes `fun k => (a + k, b, f)` for `k` in `lo .. hi - 1`: a run of a row. -/
theorem row_stage (f : Nat → Nat) (hf : ∀ t, f (f t) = f t) (m : Map) (a b lo hi x y : Int)
    (hin : ∀ k, lo ≤ k → k < hi → InGrid m (a + k) b) (hxy : InGrid m x y) :
    GetTileTypeAt (applyWrites m ((loop lo hi).map fun k => (⟨a + k, b, f⟩ : TileWrite))) x y =
      if y = b ∧ a + lo ≤ x ∧ x < a + hi then f (GetTileTypeAt m x y)
      else GetTileTypeAt m x y := by
  have hws : ∀ w ∈ (loop lo hi).map (fun k => (⟨a + k, b, f⟩ : TileWrite)), InGrid m w.x w.y := by
    intro w hw
    simp only [List.mem_map, mem_loop] at hw
    obtain ⟨k, hk, rfl⟩ := hw
    exact hin k hk.1 hk.2
  split_ifs with h
  · refine cell_uniform f hf _ m x y hws hxy ?_ ?_
    · intro w hw _ t
      simp only [List.mem_map] at hw
      obtain ⟨k, _, rfl⟩ := hw
      rfl
    · refine ⟨⟨a + (x - a), b, f⟩, ?_, by simp, h.1.symm⟩
      simp only [List.mem_map, mem_loop]
      exact ⟨x - a, by omega, rfl⟩
  · refine cell_untouched m _ x y hws hxy ?_
    intro w hw hxy'
    simp only [List.mem_map, mem_loop] at hw
    obtain ⟨k, hk, rfl⟩ := hw
    simp only at hxy'
    apply h
    omega

/-- The writes `fun k => (a, b + k, f)` for `k` in `lo .. hi - 1`: a run of a column. -/
theorem column_stage (f : Nat → Nat) (hf : ∀ t, f (f t) = f t) (m : Map) (a b lo hi x y : Int)
    (hin : ∀ k, lo ≤ k → k < hi → InGrid m a (b + k)) (hxy : InGrid m x y) :
    GetTileTypeAt (applyWrites m ((loop lo hi).map fun k => (⟨a, b + k, f⟩ : TileWrite))) x y =
      if x = a ∧ b + lo ≤ y ∧ y < b + hi then f (GetTileTypeAt m x y)
      else GetTileTypeAt m x y := by
  have hws : ∀ w ∈ (loop lo hi).map (fun k => (⟨a, b + k, f⟩ : TileWrite)), InGrid m w.x w.y := by
    intro w hw
    simp only [List.mem_map, mem_loop] at hw
    obtain ⟨k, hk, rfl⟩ := hw
    exact hin k hk.1 hk.2
  split_ifs with h
  · refine cell_uniform f hf _ m x y hws hxy ?_ ?_
    · intro w hw _ t
      simp only [List.mem_map] at hw
      obtain ⟨k, _, rfl⟩ := hw
      rfl
    · refine ⟨⟨a, b + (y - b), f⟩, ?_, h.1.symm, by simp⟩
      simp only [List.mem_map, mem_loop]
      exact ⟨y - b, by omega, rfl⟩
  · refine cell_untouched m _ x y hws hxy ?_
    intro w hw hxy'
    simp only [List.mem_map, mem_loop] at hw
    obtain ⟨k, hk, rfl⟩ := hw
    simp only at hxy'
    apply h
    omega

/-- Three single writes in a row. -/
theorem three_stage (m : Map) (w1 w2 w3 : TileWrite) (x y : Int)
    (h1 : InGrid m w1.x w1.y) (h2 : InGrid m w2.x w2.y) (h3 : InGrid m w3.x w3.y)
    (hxy : InGrid m x y)
    (d12 : ¬ (w1.x = w2.x ∧ w1.y = w2.y)) (d13 : ¬ (w1.x = w3.x ∧ w1.y = w3.y))
    (d23 : ¬ (w2.x = w3.x ∧ w2.y = w3.y)) :
    GetTileTypeAt (applyWrites m [w1, w2, w3]) x y =
      if x = w1.x ∧ y = w1.y then w1.rewrite (GetTileTypeAt m x y)
      else if x = w2.x ∧ y = w2.y then w2.rewrite (GetTileTypeAt m x y)
      else if x = w3.x ∧ y = w3.y then w3.rewrite (GetTileTypeAt m x y)
      else GetTileTypeAt m x y := by
  show GetTileTypeAt (applyWrite (applyWrite (applyWrite m w1) w2) w3) x y = _
  rw [cell_single (applyWrite (applyWrite m w1) w2) w3 x y h3 hxy,
    cell_single (applyWrite m w1) w2 x y h2 hxy, cell_single m w1 x y h1 hxy]
  by_cases c1 : x = w1.x ∧ y = w1.y
  · have c2 : ¬ (x = w2.x ∧ y = w2.y) := fun c => d12 ⟨c1.1 ▸ c.1, c1.2 ▸ c.2⟩
    have c3 : ¬ (x = w3.x ∧ y = w3.y) := fun c => d13 ⟨c1.1 ▸ c.1, c1.2 ▸ c.2⟩
    rw [if_neg c3, if_neg c2, if_pos c1, if_pos c1]
  · by_cases c2 : x = w2.x ∧ y = w2.y
    · have c3 : ¬ (x = w3.x ∧ y = w3.y) := fun c => d23 ⟨c2.1 ▸ c.1, c2.2 ▸ c.2⟩
      rw [if_neg c3, if_pos c2, if_neg c1, if_neg c1, if_pos c2]
    · rw [if_neg c1, if_neg c2, if_neg c1, if_neg c2]

/-! ## The role of a cell from its position -/

/-- The role of a cell and the position that gives it. -/
theorem hKind_cases (l t w x y : Int) :
    (hKind l t w x y = .topLeft ∧ x = l - 1 ∧ y = t) ∨
    (hKind l t w x y = .left ∧ x = l - 1 ∧ y = t + 1) ∨
    (hKind l t w x y = .bottomLeft ∧ x = l - 1 ∧ y = t + 2) ∨
    (hKind l t w x y = .top ∧ y = t ∧ l ≤ x ∧ x < l + w - 1) ∨
    (hKind l t w x y = .floor ∧ y = t + 1 ∧ l ≤ x ∧ x < l + w) ∨
    (hKind l t w x y = .bottom ∧ y = t + 2 ∧ l ≤ x ∧ x < l + w - 1) ∨
    (hKind l t w x y = .topRight ∧ x = l + w ∧ y = t) ∨
    (hKind l t w x y = .right ∧ x = l + w ∧ y = t + 1) ∨
    (hKind l t w x y = .bottomRight ∧ x = l + w ∧ y = t + 2) ∨
    (hKind l t w x y = .keep ∧ ¬ (x = l - 1 ∧ y = t) ∧ ¬ (x = l - 1 ∧ y = t + 1) ∧
      ¬ (x = l - 1 ∧ y = t + 2) ∧ ¬ (y = t ∧ l ≤ x ∧ x < l + w - 1) ∧
      ¬ (y = t + 1 ∧ l ≤ x ∧ x < l + w) ∧ ¬ (y = t + 2 ∧ l ≤ x ∧ x < l + w - 1) ∧
      ¬ (x = l + w ∧ y = t) ∧ ¬ (x = l + w ∧ y = t + 1) ∧ ¬ (x = l + w ∧ y = t + 2)) := by
  unfold hKind
  by_cases c1 : x = l - 1 ∧ y = t
  · rw [if_pos c1]
    exact Or.inl ⟨rfl, c1⟩
  · by_cases c2 : x = l - 1 ∧ y = t + 1
    · rw [if_neg c1, if_pos c2]
      exact Or.inr (Or.inl ⟨rfl, c2⟩)
    · by_cases c3 : x = l - 1 ∧ y = t + 2
      · rw [if_neg c1, if_neg c2, if_pos c3]
        exact Or.inr (Or.inr (Or.inl ⟨rfl, c3⟩))
      · by_cases c4 : y = t ∧ l ≤ x ∧ x < l + w - 1
        · rw [if_neg c1, if_neg c2, if_neg c3, if_pos c4]
          exact Or.inr (Or.inr (Or.inr (Or.inl ⟨rfl, c4⟩)))
        · by_cases c5 : y = t + 1 ∧ l ≤ x ∧ x < l + w
          · rw [if_neg c1, if_neg c2, if_neg c3, if_neg c4, if_pos c5]
            exact Or.inr (Or.inr (Or.inr (Or.inr (Or.inl ⟨rfl, c5⟩))))
          · by_cases c6 : y = t + 2 ∧ l ≤ x ∧ x < l + w - 1
            · rw [if_neg c1, if_neg c2, if_neg c3, if_neg c4, if_neg c5, if_pos c6]
              exact Or.inr (Or.inr (Or.inr (Or.inr (Or.inr (Or.inl ⟨rfl, c6⟩)))))
            · by_cases c7 : x = l + w ∧ y = t
              · rw [if_neg c1, if_neg c2, if_neg c3, if_neg c4, if_neg c5, if_neg c6, if_pos c7]
                exact Or.inr (Or.inr (Or.inr (Or.inr (Or.inr (Or.inr (Or.inl ⟨rfl, c7⟩))))))
              · by_cases c8 : x = l + w ∧ y = t + 1
                · rw [if_neg c1, if_neg c2, if_neg c3, if_neg c4, if_neg c5, if_neg c6, if_neg c7,
                    if_pos c8]
                  exact Or.inr (Or.inr (Or.inr (Or.inr (Or.inr (Or.inr (Or.inr (Or.inl ⟨rfl,
                    c8⟩)))))))
                · by_cases c9 : x = l + w ∧ y = t + 2
                  · rw [if_neg c1, if_neg c2, if_neg c3, if_neg c4, if_neg c5, if_neg c6,
                      if_neg c7, if_neg c8, if_pos c9]
                    exact Or.inr (Or.inr (Or.inr (Or.inr (Or.inr (Or.inr (Or.inr (Or.inr
                      (Or.inl ⟨rfl, c9⟩))))))))
                  · rw [if_neg c1, if_neg c2, if_neg c3, if_neg c4, if_neg c5, if_neg c6,
                      if_neg c7, if_neg c8, if_neg c9]
                    exact Or.inr (Or.inr (Or.inr (Or.inr (Or.inr (Or.inr (Or.inr (Or.inr (Or.inr
                      (⟨rfl, c1, c2, c3, c4, c5, c6, c7, c8, c9⟩)))))))))

theorem hKind_floor (l t w x y : Int) (_ : 1 ≤ w) (hc : y = t + 1 ∧ l ≤ x ∧ x < l + w) :
    hKind l t w x y = .floor := by
  have n1 : ¬ (x = l - 1 ∧ y = t) := by omega
  have n2 : ¬ (x = l - 1 ∧ y = t + 1) := by omega
  have n3 : ¬ (x = l - 1 ∧ y = t + 2) := by omega
  have n4 : ¬ (y = t ∧ l ≤ x ∧ x < l + w - 1) := by omega
  unfold hKind
  rw [if_neg n1, if_neg n2, if_neg n3, if_neg n4, if_pos hc]

/-- The role of a cell and the position that gives it. -/
theorem vKind_cases (l t h x y : Int) :
    (vKind l t h x y = .topLeft ∧ x = l ∧ y = t - 1) ∨
    (vKind l t h x y = .top ∧ x = l + 1 ∧ y = t - 1) ∨
    (vKind l t h x y = .topRight ∧ x = l + 2 ∧ y = t - 1) ∨
    (vKind l t h x y = .left ∧ x = l ∧ t ≤ y ∧ y < t + h - 1) ∨
    (vKind l t h x y = .floor ∧ x = l + 1 ∧ t ≤ y ∧ y < t + h) ∨
    (vKind l t h x y = .right ∧ x = l + 2 ∧ t ≤ y ∧ y < t + h - 1) ∨
    (vKind l t h x y = .bottomLeft ∧ x = l ∧ y = t + h) ∨
    (vKind l t h x y = .bottom ∧ x = l + 1 ∧ y = t + h) ∨
    (vKind l t h x y = .bottomRight ∧ x = l + 2 ∧ y = t + h) ∨
    (vKind l t h x y = .keep ∧ ¬ (x = l ∧ y = t - 1) ∧ ¬ (x = l + 1 ∧ y = t - 1) ∧
      ¬ (x = l + 2 ∧ y = t - 1) ∧ ¬ (x = l ∧ t ≤ y ∧ y < t + h - 1) ∧
      ¬ (x = l + 1 ∧ t ≤ y ∧ y < t + h) ∧ ¬ (x = l + 2 ∧ t ≤ y ∧ y < t + h - 1) ∧
      ¬ (x = l ∧ y = t + h) ∧ ¬ (x = l + 1 ∧ y = t + h) ∧ ¬ (x = l + 2 ∧ y = t + h)) := by
  unfold vKind
  by_cases c1 : x = l ∧ y = t - 1
  · rw [if_pos c1]
    exact Or.inl ⟨rfl, c1⟩
  · by_cases c2 : x = l + 1 ∧ y = t - 1
    · rw [if_neg c1, if_pos c2]
      exact Or.inr (Or.inl ⟨rfl, c2⟩)
    · by_cases c3 : x = l + 2 ∧ y = t - 1
      · rw [if_neg c1, if_neg c2, if_pos c3]
        exact Or.inr (Or.inr (Or.inl ⟨rfl, c3⟩))
      · by_cases c4 : x = l ∧ t ≤ y ∧ y < t + h - 1
        · rw [if_neg c1, if_neg c2, if_neg c3, if_pos c4]
          exact Or.inr (Or.inr (Or.inr (Or.inl ⟨rfl, c4⟩)))
        · by_cases c5 : x = l + 1 ∧ t ≤ y ∧ y < t + h
          · rw [if_neg c1, if_neg c2, if_neg c3, if_neg c4, if_pos c5]
            exact Or.inr (Or.inr (Or.inr (Or.inr (Or.inl ⟨rfl, c5⟩))))
          · by_cases c6 : x = l + 2 ∧ t ≤ y ∧ y < t + h - 1
            · rw [if_neg c1, if_neg c2, if_neg c3, if_neg c4, if_neg c5, if_pos c6]
              exact Or.inr (Or.inr (Or.inr (Or.inr (Or.inr (Or.inl ⟨rfl, c6⟩)))))
            · by_cases c7 : x = l ∧ y = t + h
              · rw [if_neg c1, if_neg c2, if_neg c3, if_neg c4, if_neg c5, if_neg c6, if_pos c7]
                exact Or.inr (Or.inr (Or.inr (Or.inr (Or.inr (Or.inr (Or.inl ⟨rfl, c7⟩))))))
              · by_cases c8 : x = l + 1 ∧ y = t + h
                · rw [if_neg c1, if_neg c2, if_neg c3, if_neg c4, if_neg c5, if_neg c6, if_neg c7,
                    if_pos c8]
                  exact Or.inr (Or.inr (Or.inr (Or.inr (Or.inr (Or.inr (Or.inr (Or.inl ⟨rfl,
                    c8⟩)))))))
                · by_cases c9 : x = l + 2 ∧ y = t + h
                  · rw [if_neg c1, if_neg c2, if_neg c3, if_neg c4, if_neg c5, if_neg c6,
                      if_neg c7, if_neg c8, if_pos c9]
                    exact Or.inr (Or.inr (Or.inr (Or.inr (Or.inr (Or.inr (Or.inr (Or.inr
                      (Or.inl ⟨rfl, c9⟩))))))))
                  · rw [if_neg c1, if_neg c2, if_neg c3, if_neg c4, if_neg c5, if_neg c6,
                      if_neg c7, if_neg c8, if_neg c9]
                    exact Or.inr (Or.inr (Or.inr (Or.inr (Or.inr (Or.inr (Or.inr (Or.inr (Or.inr
                      (⟨rfl, c1, c2, c3, c4, c5, c6, c7, c8, c9⟩)))))))))

theorem vKind_floor (l t h x y : Int) (_ : 1 ≤ h) (hc : x = l + 1 ∧ t ≤ y ∧ y < t + h) :
    vKind l t h x y = .floor := by
  have n1 : ¬ (x = l ∧ y = t - 1) := by omega
  have n2 : ¬ (x = l + 1 ∧ y = t - 1) := by omega
  have n3 : ¬ (x = l + 2 ∧ y = t - 1) := by omega
  have n4 : ¬ (x = l ∧ t ≤ y ∧ y < t + h - 1) := by omega
  unfold vKind
  rw [if_neg n1, if_neg n2, if_neg n3, if_neg n4, if_pos hc]

theorem fillFloor_rewrite_eq (a b : Int) (t : Nat) : (fillFloor a b).rewrite t = FLOOR_TEXTURE :=
  fillFloor_rewrite t

theorem fill_stage_horizontal (m : Map) (c : Corridor) (l t x y : Int)
    (hh : c.horizontal = true) (h3 : c.height = 3) (hw : 1 ≤ c.width)
    (hin : ∀ k, l ≤ k → k < l + c.width → InGrid m k (t + 1)) (hxy : InGrid m x y) :
    GetTileTypeAt (applyWrites m (FillWithFloorWrites c l t)) x y =
      if y = t + 1 ∧ l ≤ x ∧ x < l + c.width then FLOOR_TEXTURE else GetTileTypeAt m x y := by
  have hmem : ∀ w ∈ FillWithFloorWrites c l t,
      (w.y = t + 1 ∧ l ≤ w.x ∧ w.x < l + c.width) ∧ ∀ e, w.rewrite e = FLOOR_TEXTURE := by
    intro w hw'
    unfold FillWithFloorWrites at hw'
    simp only [hh, if_true, h3, List.mem_append, List.mem_flatMap, List.mem_map, mem_loop,
      List.mem_cons, List.mem_singleton, List.not_mem_nil, or_false] at hw'
    rcases hw' with ⟨a, ha, b, hb, rfl⟩ | rfl | rfl
    · exact ⟨by simp only [fillFloor]; omega, fillFloor_rewrite_eq _ _⟩
    · exact ⟨⟨rfl, by show l ≤ l; omega, by show l < l + c.width; omega⟩,
        fillFloor_rewrite_eq _ _⟩
    · exact ⟨⟨rfl, by show l ≤ l + c.width - 1; omega,
        by show l + c.width - 1 < l + c.width; omega⟩, fillFloor_rewrite_eq _ _⟩
  have hws : ∀ w ∈ FillWithFloorWrites c l t, InGrid m w.x w.y := by
    intro w hw'
    obtain ⟨⟨h1, h2, h3'⟩, _⟩ := hmem w hw'
    rw [h1]
    exact hin w.x h2 h3'
  split_ifs with h
  · have := cell_uniform (fun _ => FLOOR_TEXTURE) (fun _ => rfl) _ m x y hws hxy
      (fun w hw' _ e => (hmem w hw').2 e) ?_
    · exact this
    · by_cases hx : x = l
      · refine ⟨fillFloor l (t + 1), ?_, by simp [fillFloor, hx], by simp [fillFloor, h.1]⟩
        unfold FillWithFloorWrites
        simp [hh]
      · by_cases hx2 : x = l + c.width - 1
        · refine ⟨fillFloor (l + c.width - 1) (t + 1), ?_, by simp [fillFloor, hx2],
            by simp [fillFloor, h.1]⟩
          unfold FillWithFloorWrites
          simp [hh]
        · refine ⟨fillFloor (l + (x - l)) (t + 1), ?_, by simp [fillFloor],
            by simp [fillFloor, h.1]⟩
          unfold FillWithFloorWrites
          simp only [hh, if_true, h3, List.mem_append, List.mem_flatMap, List.mem_map, mem_loop]
          exact Or.inl ⟨x - l, by omega, 1, by omega, rfl⟩
  · refine cell_untouched m _ x y hws hxy ?_
    intro w hw' hxy'
    obtain ⟨⟨h1, h2, h3'⟩, _⟩ := hmem w hw'
    apply h
    omega

theorem fill_stage_vertical (m : Map) (c : Corridor) (l t x y : Int)
    (hh : c.horizontal = false) (h3 : c.width = 3) (hw : 1 ≤ c.height)
    (hin : ∀ k, t ≤ k → k < t + c.height → InGrid m (l + 1) k) (hxy : InGrid m x y) :
    GetTileTypeAt (applyWrites m (FillWithFloorWrites c l t)) x y =
      if x = l + 1 ∧ t ≤ y ∧ y < t + c.height then FLOOR_TEXTURE else GetTileTypeAt m x y := by
  have hmem : ∀ w ∈ FillWithFloorWrites c l t,
      (w.x = l + 1 ∧ t ≤ w.y ∧ w.y < t + c.height) ∧ ∀ e, w.rewrite e = FLOOR_TEXTURE := by
    intro w hw'
    unfold FillWithFloorWrites at hw'
    simp only [hh, Bool.false_eq_true, if_false, h3, List.mem_append, List.mem_flatMap,
      List.mem_map, mem_loop, List.mem_cons, List.mem_singleton, List.not_mem_nil,
      or_false] at hw'
    rcases hw' with ⟨a, ha, b, hb, rfl⟩ | rfl | rfl
    · exact ⟨by simp only [fillFloor]; omega, fillFloor_rewrite_eq _ _⟩
    · exact ⟨⟨rfl, by show t ≤ t; omega, by show t < t + c.height; omega⟩,
        fillFloor_rewrite_eq _ _⟩
    · exact ⟨⟨rfl, by show t ≤ t + c.height - 1; omega,
        by show t + c.height - 1 < t + c.height; omega⟩, fillFloor_rewrite_eq _ _⟩
  have hws : ∀ w ∈ FillWithFloorWrites c l t, InGrid m w.x w.y := by
    intro w hw'
    obtain ⟨⟨h1, h2, h3'⟩, _⟩ := hmem w hw'
    rw [h1]
    exact hin w.y h2 h3'
  split_ifs with h
  · have := cell_uniform (fun _ => FLOOR_TEXTURE) (fun _ => rfl) _ m x y hws hxy
      (fun w hw' _ e => (hmem w hw').2 e) ?_
    · exact this
    · by_cases hy : y = t
      · refine ⟨fillFloor (l + 1) t, ?_, by simp [fillFloor, h.1], by simp [fillFloor, hy]⟩
        unfold FillWithFloorWrites
        simp [hh]
      · by_cases hy2 : y = t + c.height - 1
        · refine ⟨fillFloor (l + 1) (t + c.height - 1), ?_, by simp [fillFloor, h.1],
            by simp [fillFloor, hy2]⟩
          unfold FillWithFloorWrites
          simp [hh]
        · refine ⟨fillFloor (l + 1) (t + (y - t)), ?_, by simp [fillFloor, h.1],
            by simp [fillFloor]⟩
          unfold FillWithFloorWrites
          simp only [hh, Bool.false_eq_true, if_false, h3, List.mem_append, List.mem_flatMap,
            List.mem_map, mem_loop]
          exact Or.inl ⟨1, by omega, y - t, by omega, rfl⟩
  · refine cell_untouched m _ x y hws hxy ?_
    intro w hw' hxy'
    obtain ⟨⟨h1, h2, h3'⟩, _⟩ := hmem w hw'
    apply h
    omega

/-- The tile at each cell of the grid after a horizontal corridor of height 3
has been stamped. -/
theorem TileCorridor_horizontal (m : Map) (left0 top0 : Int) (c : Corridor)
    (hh : c.horizontal = true) (h3 : c.height = 3) (hw : 1 ≤ c.width)
    (hin : ∀ w ∈ TileCorridorWrites left0 top0 c, InGrid m w.x w.y)
    (x y : Int) (hxy : InGrid m x y) :
    GetTileTypeAt (TileCorridor m left0 top0 c) x y =
      (hKind (c.left - left0) (c.top - top0) c.width x y).apply (GetTileTypeAt m x y) := by
  have hcapL : InGrid m (c.left - left0 - 1) (c.top - top0) :=
    hin ⟨c.left - left0 - 1, c.top - top0, CorridorTopLeftRewrite⟩
      (by unfold TileCorridorWrites; simp [hh])
  have hcapR : InGrid m (c.left - left0 + c.width) (c.top - top0 + 2) :=
    hin ⟨c.left - left0 + c.width, c.top - top0 + 2, CorridorBottomRightRewrite⟩
      (by unfold TileCorridorWrites; simp [hh])
  have hbox : ∀ (m' : Map), m'.width_ = m.width_ → m'.height_ = m.height_ → ∀ a b : Int,
      c.left - left0 - 1 ≤ a → a ≤ c.left - left0 + c.width →
      c.top - top0 ≤ b → b ≤ c.top - top0 + 2 → InGrid m' a b := by
    intro m' e1 e2 a b h1 h2 h3' h4
    unfold InGrid at hcapL hcapR ⊢
    rw [e1, e2]
    omega
  have hcell : ∀ (m' : Map), m'.width_ = m.width_ → m'.height_ = m.height_ → InGrid m' x y := by
    intro m' e1 e2
    unfold InGrid at hxy ⊢
    rw [e1, e2]
    exact hxy
  unfold TileCorridor TileCorridorWrites
  simp only [hh, if_true, applyWrites_append, h3]
  generalize hl : c.left - left0 = l at *
  generalize ht : c.top - top0 = t at *
  generalize hm1 : applyWrites m
    [(⟨l - 1, t, CorridorTopLeftRewrite⟩ : TileWrite), ⟨l - 1, t + 1, CorridorLeftWallRewrite⟩,
      ⟨l - 1, t + 2, CorridorBottomLeftRewrite⟩] = m1
  have w1 : m1.width_ = m.width_ := by rw [← hm1, applyWrites_width]
  have g1 : m1.height_ = m.height_ := by rw [← hm1, applyWrites_height]
  generalize hm2 : applyWrites m1
    (List.map (fun x => (⟨l + x, t, CorridorTopWallRewrite⟩ : TileWrite))
      (loop 0 (c.width - 1))) = m2
  have w2 : m2.width_ = m.width_ := by rw [← hm2, applyWrites_width, w1]
  have g2 : m2.height_ = m.height_ := by rw [← hm2, applyWrites_height, g1]
  generalize hm3 : applyWrites m2 (FillWithFloorWrites c l t) = m3
  have w3 : m3.width_ = m.width_ := by rw [← hm3, applyWrites_width, w2]
  have g3 : m3.height_ = m.height_ := by rw [← hm3, applyWrites_height, g2]
  generalize hm4 : applyWrites m3
    (List.map (fun x => (⟨l + x, t + 3 - 1, CorridorBottomWallRewrite⟩ : TileWrite))
      (loop 0 (c.width - 1))) = m4
  have w4 : m4.width_ = m.width_ := by rw [← hm4, applyWrites_width, w3]
  have g4 : m4.height_ = m.height_ := by rw [← hm4, applyWrites_height, g3]
  have e5 := three_stage m4 ⟨l + c.width, t, CorridorTopRightRewrite⟩
    ⟨l + c.width, t + 1, CorridorRightWallRewrite⟩ ⟨l + c.width, t + 2, CorridorBottomRightRewrite⟩
    x y (hbox m4 w4 g4 _ _ (by simp only; omega) (by simp) (by simp) (by simp))
    (hbox m4 w4 g4 _ _ (by simp only; omega) (by simp) (by simp) (by simp))
    (hbox m4 w4 g4 _ _ (by simp only; omega) (by simp) (by simp) (by simp)) (hcell m4 w4 g4)
    (by simp) (by simp) (by simp)
  have e4 := (row_stage CorridorBottomWallRewrite CorridorBottomWallRewrite_idem
    m3 l (t + 3 - 1) 0 (c.width - 1) x y
    (fun k hk1 hk2 => hbox m3 w3 g3 _ _ (by omega) (by omega) (by omega) (by omega))
    (hcell m3 w3 g3)).trans
    (if_congr (show _ ↔ (y = t + 2 ∧ l ≤ x ∧ x < l + c.width - 1) by
      constructor <;> intro h <;> omega) rfl rfl)
  have e3 := fill_stage_horizontal m2 c l t x y hh h3 hw
    (fun k hk1 hk2 => hbox m2 w2 g2 _ _ (by omega) (by omega) (by omega) (by omega))
    (hcell m2 w2 g2)
  have e2 := (row_stage CorridorTopWallRewrite CorridorTopWallRewrite_idem
    m1 l t 0 (c.width - 1) x y
    (fun k hk1 hk2 => hbox m1 w1 g1 _ _ (by omega) (by omega) (by omega) (by omega))
    (hcell m1 w1 g1)).trans
    (if_congr (show _ ↔ (y = t ∧ l ≤ x ∧ x < l + c.width - 1) by
      constructor <;> intro h <;> omega) rfl rfl)
  have e1 := three_stage m ⟨l - 1, t, CorridorTopLeftRewrite⟩
    ⟨l - 1, t + 1, CorridorLeftWallRewrite⟩ ⟨l - 1, t + 2, CorridorBottomLeftRewrite⟩
    x y (hbox m rfl rfl _ _ (by simp) (by simp only; omega) (by simp) (by simp))
    (hbox m rfl rfl _ _ (by simp) (by simp only; omega) (by simp) (by simp))
    (hbox m rfl rfl _ _ (by simp) (by simp only; omega) (by simp) (by simp)) hxy
    (by simp) (by simp) (by simp)
  rw [hm1] at e1
  rw [hm2] at e2
  rw [hm3] at e3
  rw [hm4] at e4
  rw [e5, e4, e3, e2, e1]
  unfold hKind
  simp only
  by_cases c1 : x = l - 1 ∧ y = t
  · have n2 : ¬ (x = l - 1 ∧ y = t + 1) := by omega
    have n3 : ¬ (x = l - 1 ∧ y = t + 2) := by omega
    have n4 : ¬ (y = t ∧ l ≤ x ∧ x < l + c.width - 1) := by omega
    have n5 : ¬ (y = t + 1 ∧ l ≤ x ∧ x < l + c.width) := by omega
    have n6 : ¬ (y = t + 2 ∧ l ≤ x ∧ x < l + c.width - 1) := by omega
    have n7 : ¬ (x = l + c.width ∧ y = t) := by omega
    have n8 : ¬ (x = l + c.width ∧ y = t + 1) := by omega
    have n9 : ¬ (x = l + c.width ∧ y = t + 2) := by omega
    simp only [if_pos c1, if_neg n2, if_neg n3, if_neg n4, if_neg n5, if_neg n6, if_neg n7,
      if_neg n8, if_neg n9, Role.apply]
  · by_cases c2 : x = l - 1 ∧ y = t + 1
    · have n3 : ¬ (x = l - 1 ∧ y = t + 2) := by omega
      have n4 : ¬ (y = t ∧ l ≤ x ∧ x < l + c.width - 1) := by omega
      have n5 : ¬ (y = t + 1 ∧ l ≤ x ∧ x < l + c.width) := by omega
      have n6 : ¬ (y = t + 2 ∧ l ≤ x ∧ x < l + c.width - 1) := by omega
      have n7 : ¬ (x = l + c.width ∧ y = t) := by omega
      have n8 : ¬ (x = l + c.width ∧ y = t + 1) := by omega
      have n9 : ¬ (x = l + c.width ∧ y = t + 2) := by omega
      simp only [if_neg c1, if_pos c2, if_neg n3, if_neg n4, if_neg n5, if_neg n6, if_neg n7,
        if_neg n8, if_neg n9, Role.apply]
    · by_cases c3 : x = l - 1 ∧ y = t + 2
      · have n4 : ¬ (y = t ∧ l ≤ x ∧ x < l + c.width - 1) := by omega
        have n5 : ¬ (y = t + 1 ∧ l ≤ x ∧ x < l + c.width) := by omega
        have n6 : ¬ (y = t + 2 ∧ l ≤ x ∧ x < l + c.width - 1) := by omega
        have n7 : ¬ (x = l + c.width ∧ y = t) := by omega
        have n8 : ¬ (x = l + c.width ∧ y = t + 1) := by omega
        have n9 : ¬ (x = l + c.width ∧ y = t + 2) := by omega
        simp only [if_neg c1, if_neg c2, if_pos c3, if_neg n4, if_neg n5, if_neg n6, if_neg n7,
          if_neg n8, if_neg n9, Role.apply]
      · by_cases c4 : y = t ∧ l ≤ x ∧ x < l + c.width - 1
        · have n5 : ¬ (y = t + 1 ∧ l ≤ x ∧ x < l + c.width) := by omega
          have n6 : ¬ (y = t + 2 ∧ l ≤ x ∧ x < l + c.width - 1) := by omega
          have n7 : ¬ (x = l + c.width ∧ y = t) := by omega
          have n8 : ¬ (x = l + c.width ∧ y = t + 1) := by omega
          have n9 : ¬ (x = l + c.width ∧ y = t + 2) := by omega
          simp only [if_neg c1, if_neg c2, if_neg c3, if_pos c4, if_neg n5, if_neg n6, if_neg n7,
            if_neg n8, if_neg n9, Role.apply]
        · by_cases c5 : y = t + 1 ∧ l ≤ x ∧ x < l + c.width
          · have n6 : ¬ (y = t + 2 ∧ l ≤ x ∧ x < l + c.width - 1) := by omega
            have n7 : ¬ (x = l + c.width ∧ y = t) := by omega
            have n8 : ¬ (x = l + c.width ∧ y = t + 1) := by omega
            have n9 : ¬ (x = l + c.width ∧ y = t + 2) := by omega
            simp only [if_neg c1, if_neg c2, if_neg c3, if_neg c4, if_pos c5, if_neg n6,
              if_neg n7, if_neg n8, if_neg n9, Role.apply]
          · by_cases c6 : y = t + 2 ∧ l ≤ x ∧ x < l + c.width - 1
            · have n7 : ¬ (x = l + c.width ∧ y = t) := by omega
              have n8 : ¬ (x = l + c.width ∧ y = t + 1) := by omega
              have n9 : ¬ (x = l + c.width ∧ y = t + 2) := by omega
              simp only [if_neg c1, if_neg c2, if_neg c3, if_neg c4, if_neg c5, if_pos c6,
                if_neg n7, if_neg n8, if_neg n9, Role.apply]
            · by_cases c7 : x = l + c.width ∧ y = t
              · have n8 : ¬ (x = l + c.width ∧ y = t + 1) := by omega
                have n9 : ¬ (x = l + c.width ∧ y = t + 2) := by omega
                simp only [if_neg c1, if_neg c2, if_neg c3, if_neg c4, if_neg c5, if_neg c6,
                  if_pos c7, if_neg n8, if_neg n9, Role.apply]
              · by_cases c8 : x = l + c.width ∧ y = t + 1
                · have n9 : ¬ (x = l + c.width ∧ y = t + 2) := by omega
                  simp only [if_neg c1, if_neg c2, if_neg c3, if_neg c4, if_neg c5, if_neg c6,
                    if_neg c7, if_pos c8, if_neg n9, Role.apply]
                · by_cases c9 : x = l + c.width ∧ y = t + 2
                  · simp only [if_neg c1, if_neg c2, if_neg c3, if_neg c4, if_neg c5, if_neg c6,
                      if_neg c7, if_neg c8, if_pos c9, Role.apply]
                  · simp only [if_neg c1, if_neg c2, if_neg c3, if_neg c4, if_neg c5, if_neg c6,
                      if_neg c7, if_neg c8, if_neg c9, Role.apply]

/-- The tile at each cell of the grid after a vertical corridor of width 3 has
been stamped. -/
theorem TileCorridor_vertical (m : Map) (left0 top0 : Int) (c : Corridor)
    (hh : c.horizontal = false) (h3 : c.width = 3) (hw : 1 ≤ c.height)
    (hin : ∀ w ∈ TileCorridorWrites left0 top0 c, InGrid m w.x w.y)
    (x y : Int) (hxy : InGrid m x y) :
    GetTileTypeAt (TileCorridor m left0 top0 c) x y =
      (vKind (c.left - left0) (c.top - top0) c.height x y).apply (GetTileTypeAt m x y) := by
  have hcapT : InGrid m (c.left - left0) (c.top - top0 - 1) :=
    hin ⟨c.left - left0, c.top - top0 - 1, CorridorTopLeftRewrite⟩
      (by unfold TileCorridorWrites; simp [hh])
  have hcapB : InGrid m (c.left - left0 + 2) (c.top - top0 + c.height) :=
    hin ⟨c.left - left0 + 2, c.top - top0 + c.height, CorridorBottomRightRewrite⟩
      (by unfold TileCorridorWrites; simp [hh])
  have hbox : ∀ (m' : Map), m'.width_ = m.width_ → m'.height_ = m.height_ → ∀ a b : Int,
      c.left - left0 ≤ a → a ≤ c.left - left0 + 2 →
      c.top - top0 - 1 ≤ b → b ≤ c.top - top0 + c.height → InGrid m' a b := by
    intro m' e1 e2 a b h1 h2 h3' h4
    unfold InGrid at hcapT hcapB ⊢
    rw [e1, e2]
    omega
  have hcell : ∀ (m' : Map), m'.width_ = m.width_ → m'.height_ = m.height_ → InGrid m' x y := by
    intro m' e1 e2
    unfold InGrid at hxy ⊢
    rw [e1, e2]
    exact hxy
  unfold TileCorridor TileCorridorWrites
  simp only [hh, Bool.false_eq_true, if_false, applyWrites_append, h3]
  generalize hl : c.left - left0 = l at *
  generalize ht : c.top - top0 = t at *
  generalize hm1 : applyWrites m
    [(⟨l, t - 1, CorridorTopLeftRewrite⟩ : TileWrite), ⟨l + 1, t - 1, CorridorTopWallRewrite⟩,
      ⟨l + 2, t - 1, CorridorTopRightRewrite⟩] = m1
  have w1 : m1.width_ = m.width_ := by rw [← hm1, applyWrites_width]
  have g1 : m1.height_ = m.height_ := by rw [← hm1, applyWrites_height]
  generalize hm2 : applyWrites m1
    (List.map (fun y => (⟨l, t + y, CorridorLeftWallRewrite⟩ : TileWrite))
      (loop 0 (c.height - 1))) = m2
  have w2 : m2.width_ = m.width_ := by rw [← hm2, applyWrites_width, w1]
  have g2 : m2.height_ = m.height_ := by rw [← hm2, applyWrites_height, g1]
  generalize hm3 : applyWrites m2 (FillWithFloorWrites c l t) = m3
  have w3 : m3.width_ = m.width_ := by rw [← hm3, applyWrites_width, w2]
  have g3 : m3.height_ = m.height_ := by rw [← hm3, applyWrites_height, g2]
  generalize hm4 : applyWrites m3
    (List.map (fun y => (⟨l + 3 - 1, t + y, CorridorRightWallRewrite⟩ : TileWrite))
      (loop 0 (c.height - 1))) = m4
  have w4 : m4.width_ = m.width_ := by rw [← hm4, applyWrites_width, w3]
  have g4 : m4.height_ = m.height_ := by rw [← hm4, applyWrites_height, g3]
  have e5 := three_stage m4 ⟨l, t + c.height, CorridorBottomLeftRewrite⟩
    ⟨l + 1, t + c.height, CorridorBottomWallRewrite⟩ ⟨l + 2, t + c.height, CorridorBottomRightRewrite⟩
    x y (hbox m4 w4 g4 _ _ (by simp) (by simp) (by simp only; omega) (by simp))
    (hbox m4 w4 g4 _ _ (by simp) (by simp) (by simp only; omega) (by simp))
    (hbox m4 w4 g4 _ _ (by simp) (by simp) (by simp only; omega) (by simp)) (hcell m4 w4 g4)
    (by simp) (by simp) (by simp)
  have e4 := (column_stage CorridorRightWallRewrite CorridorRightWallRewrite_idem
    m3 (l + 3 - 1) t 0 (c.height - 1) x y
    (fun k hk1 hk2 => hbox m3 w3 g3 _ _ (by omega) (by omega) (by omega) (by omega))
    (hcell m3 w3 g3)).trans
    (if_congr (show _ ↔ (x = l + 2 ∧ t ≤ y ∧ y < t + c.height - 1) by
      constructor <;> intro h <;> omega) rfl rfl)
  have e3 := fill_stage_vertical m2 c l t x y hh h3 hw
    (fun k hk1 hk2 => hbox m2 w2 g2 _ _ (by omega) (by omega) (by omega) (by omega))
    (hcell m2 w2 g2)
  have e2 := (column_stage CorridorLeftWallRewrite CorridorLeftWallRewrite_idem
    m1 l t 0 (c.height - 1) x y
    (fun k hk1 hk2 => hbox m1 w1 g1 _ _ (by omega) (by omega) (by omega) (by omega))
    (hcell m1 w1 g1)).trans
    (if_congr (show _ ↔ (x = l ∧ t ≤ y ∧ y < t + c.height - 1) by
      constructor <;> intro h <;> omega) rfl rfl)
  have e1 := three_stage m ⟨l, t - 1, CorridorTopLeftRewrite⟩
    ⟨l + 1, t - 1, CorridorTopWallRewrite⟩ ⟨l + 2, t - 1, CorridorTopRightRewrite⟩
    x y (hbox m rfl rfl _ _ (by simp) (by simp) (by simp) (by simp only; omega))
    (hbox m rfl rfl _ _ (by simp) (by simp) (by simp) (by simp only; omega))
    (hbox m rfl rfl _ _ (by simp) (by simp) (by simp) (by simp only; omega)) hxy
    (by simp) (by simp) (by simp)
  rw [hm1] at e1
  rw [hm2] at e2
  rw [hm3] at e3
  rw [hm4] at e4
  rw [e5, e4, e3, e2, e1]
  unfold vKind
  simp only
  by_cases c1 : x = l ∧ y = t - 1
  · have n2 : ¬ (x = l + 1 ∧ y = t - 1) := by omega
    have n3 : ¬ (x = l + 2 ∧ y = t - 1) := by omega
    have n4 : ¬ (x = l ∧ t ≤ y ∧ y < t + c.height - 1) := by omega
    have n5 : ¬ (x = l + 1 ∧ t ≤ y ∧ y < t + c.height) := by omega
    have n6 : ¬ (x = l + 2 ∧ t ≤ y ∧ y < t + c.height - 1) := by omega
    have n7 : ¬ (x = l ∧ y = t + c.height) := by omega
    have n8 : ¬ (x = l + 1 ∧ y = t + c.height) := by omega
    have n9 : ¬ (x = l + 2 ∧ y = t + c.height) := by omega
    simp only [if_pos c1, if_neg n2, if_neg n3, if_neg n4, if_neg n5, if_neg n6, if_neg n7,
      if_neg n8, if_neg n9, Role.apply]
  · by_cases c2 : x = l + 1 ∧ y = t - 1
    · have n3 : ¬ (x = l + 2 ∧ y = t - 1) := by omega
      have n4 : ¬ (x = l ∧ t ≤ y ∧ y < t + c.height - 1) := by omega
      have n5 : ¬ (x = l + 1 ∧ t ≤ y ∧ y < t + c.height) := by omega
      have n6 : ¬ (x = l + 2 ∧ t ≤ y ∧ y < t + c.height - 1) := by omega
      have n7 : ¬ (x = l ∧ y = t + c.height) := by omega
      have n8 : ¬ (x = l + 1 ∧ y = t + c.height) := by omega
      have n9 : ¬ (x = l + 2 ∧ y = t + c.height) := by omega
      simp only [if_neg c1, if_pos c2, if_neg n3, if_neg n4, if_neg n5, if_neg n6, if_neg n7,
        if_neg n8, if_neg n9, Role.apply]
    · by_cases c3 : x = l + 2 ∧ y = t - 1
      · have n4 : ¬ (x = l ∧ t ≤ y ∧ y < t + c.height - 1) := by omega
        have n5 : ¬ (x = l + 1 ∧ t ≤ y ∧ y < t + c.height) := by omega
        have n6 : ¬ (x = l + 2 ∧ t ≤ y ∧ y < t + c.height - 1) := by omega
        have n7 : ¬ (x = l ∧ y = t + c.height) := by omega
        have n8 : ¬ (x = l + 1 ∧ y = t + c.height) := by omega
        have n9 : ¬ (x = l + 2 ∧ y = t + c.height) := by omega
        simp only [if_neg c1, if_neg c2, if_pos c3, if_neg n4, if_neg n5, if_neg n6, if_neg n7,
          if_neg n8, if_neg n9, Role.apply]
      · by_cases c4 : x = l ∧ t ≤ y ∧ y < t + c.height - 1
        · have n5 : ¬ (x = l + 1 ∧ t ≤ y ∧ y < t + c.height) := by omega
          have n6 : ¬ (x = l + 2 ∧ t ≤ y ∧ y < t + c.height - 1) := by omega
          have n7 : ¬ (x = l ∧ y = t + c.height) := by omega
          have n8 : ¬ (x = l + 1 ∧ y = t + c.height) := by omega
          have n9 : ¬ (x = l + 2 ∧ y = t + c.height) := by omega
          simp only [if_neg c1, if_neg c2, if_neg c3, if_pos c4, if_neg n5, if_neg n6, if_neg n7,
            if_neg n8, if_neg n9, Role.apply]
        · by_cases c5 : x = l + 1 ∧ t ≤ y ∧ y < t + c.height
          · have n6 : ¬ (x = l + 2 ∧ t ≤ y ∧ y < t + c.height - 1) := by omega
            have n7 : ¬ (x = l ∧ y = t + c.height) := by omega
            have n8 : ¬ (x = l + 1 ∧ y = t + c.height) := by omega
            have n9 : ¬ (x = l + 2 ∧ y = t + c.height) := by omega
            simp only [if_neg c1, if_neg c2, if_neg c3, if_neg c4, if_pos c5, if_neg n6,
              if_neg n7, if_neg n8, if_neg n9, Role.apply]
          · by_cases c6 : x = l + 2 ∧ t ≤ y ∧ y < t + c.height - 1
            · have n7 : ¬ (x = l ∧ y = t + c.height) := by omega
              have n8 : ¬ (x = l + 1 ∧ y = t + c.height) := by omega
              have n9 : ¬ (x = l + 2 ∧ y = t + c.height) := by omega
              simp only [if_neg c1, if_neg c2, if_neg c3, if_neg c4, if_neg c5, if_pos c6,
                if_neg n7, if_neg n8, if_neg n9, Role.apply]
            · by_cases c7 : x = l ∧ y = t + c.height
              · have n8 : ¬ (x = l + 1 ∧ y = t + c.height) := by omega
                have n9 : ¬ (x = l + 2 ∧ y = t + c.height) := by omega
                simp only [if_neg c1, if_neg c2, if_neg c3, if_neg c4, if_neg c5, if_neg c6,
                  if_pos c7, if_neg n8, if_neg n9, Role.apply]
              · by_cases c8 : x = l + 1 ∧ y = t + c.height
                · have n9 : ¬ (x = l + 2 ∧ y = t + c.height) := by omega
                  simp only [if_neg c1, if_neg c2, if_neg c3, if_neg c4, if_neg c5, if_neg c6,
                    if_neg c7, if_pos c8, if_neg n9, Role.apply]
                · by_cases c9 : x = l + 2 ∧ y = t + c.height
                  · simp only [if_neg c1, if_neg c2, if_neg c3, if_neg c4, if_neg c5, if_neg c6,
                      if_neg c7, if_neg c8, if_pos c9, Role.apply]
                  · simp only [if_neg c1, if_neg c2, if_neg c3, if_neg c4, if_neg c5, if_neg c6,
                      if_neg c7, if_neg c8, if_neg c9, Role.apply]

/-! ## The two corridors of one edge -/

theorem edgeH_cases (x1 y1 x2 y2 x y : Int) :
    (edgeH x1 y1 x2 y2 x y = .topLeft ∧ x = min x1 x2 - 1 ∧ y = y1 - 1) ∨
    (edgeH x1 y1 x2 y2 x y = .left ∧ x = min x1 x2 - 1 ∧ y = y1) ∨
    (edgeH x1 y1 x2 y2 x y = .bottomLeft ∧ x = min x1 x2 - 1 ∧ y = y1 + 1) ∨
    (edgeH x1 y1 x2 y2 x y = .top ∧ y = y1 - 1 ∧ min x1 x2 ≤ x ∧ x < max x1 x2) ∨
    (edgeH x1 y1 x2 y2 x y = .floor ∧ y = y1 ∧ min x1 x2 ≤ x ∧ x ≤ max x1 x2) ∨
    (edgeH x1 y1 x2 y2 x y = .bottom ∧ y = y1 + 1 ∧ min x1 x2 ≤ x ∧ x < max x1 x2) ∨
    (edgeH x1 y1 x2 y2 x y = .topRight ∧ x = max x1 x2 + 1 ∧ y = y1 - 1) ∨
    (edgeH x1 y1 x2 y2 x y = .right ∧ x = max x1 x2 + 1 ∧ y = y1) ∨
    (edgeH x1 y1 x2 y2 x y = .bottomRight ∧ x = max x1 x2 + 1 ∧ y = y1 + 1) ∨
    (edgeH x1 y1 x2 y2 x y = .keep ∧
      (x < min x1 x2 - 1 ∨ max x1 x2 + 1 < x ∨ y < y1 - 1 ∨ y1 + 1 < y ∨
        (x = max x1 x2 ∧ y ≠ y1))) := by
  unfold edgeH
  rcases hKind_cases (min x1 x2) (y1 - 1) (max x1 x2 - min x1 x2 + 1) x y with
    ⟨hk, hc⟩ | ⟨hk, hc⟩ | ⟨hk, hc⟩ | ⟨hk, hc⟩ | ⟨hk, hc⟩ | ⟨hk, hc⟩ | ⟨hk, hc⟩ | ⟨hk, hc⟩ |
    ⟨hk, hc⟩ | ⟨hk, hc⟩
  · exact Or.inl ⟨hk, by omega⟩
  · exact Or.inr (Or.inl ⟨hk, by omega⟩)
  · exact Or.inr (Or.inr (Or.inl ⟨hk, by omega⟩))
  · exact Or.inr (Or.inr (Or.inr (Or.inl ⟨hk, by omega⟩)))
  · exact Or.inr (Or.inr (Or.inr (Or.inr (Or.inl ⟨hk, by omega⟩))))
  · exact Or.inr (Or.inr (Or.inr (Or.inr (Or.inr (Or.inl ⟨hk, by omega⟩)))))
  · exact Or.inr (Or.inr (Or.inr (Or.inr (Or.inr (Or.inr (Or.inl ⟨hk, by omega⟩))))))
  · exact Or.inr (Or.inr (Or.inr (Or.inr (Or.inr (Or.inr (Or.inr (Or.inl ⟨hk, by omega⟩)))))))
  · exact Or.inr (Or.inr (Or.inr (Or.inr (Or.inr (Or.inr (Or.inr (Or.inr
      (Or.inl ⟨hk, by omega⟩))))))))
  · exact Or.inr (Or.inr (Or.inr (Or.inr (Or.inr (Or.inr (Or.inr (Or.inr
      (Or.inr ⟨hk, by omega⟩))))))))

theorem edgeV_cases (x1 y1 x2 y2 x y : Int) :
    (edgeV x1 y1 x2 y2 x y = .topLeft ∧ x = x2 - 1 ∧ y = min y1 y2 - 1) ∨
    (edgeV x1 y1 x2 y2 x y = .top ∧ x = x2 ∧ y = min y1 y2 - 1) ∨
    (edgeV x1 y1 x2 y2 x y = .topRight ∧ x = x2 + 1 ∧ y = min y1 y2 - 1) ∨
    (edgeV x1 y1 x2 y2 x y = .left ∧ x = x2 - 1 ∧ min y1 y2 ≤ y ∧ y < max y1 y2) ∨
    (edgeV x1 y1 x2 y2 x y = .floor ∧ x = x2 ∧ min y1 y2 ≤ y ∧ y ≤ max y1 y2) ∨
    (edgeV x1 y1 x2 y2 x y = .right ∧ x = x2 + 1 ∧ min y1 y2 ≤ y ∧ y < max y1 y2) ∨
    (edgeV x1 y1 x2 y2 x y = .bottomLeft ∧ x = x2 - 1 ∧ y = max y1 y2 + 1) ∨
    (edgeV x1 y1 x2 y2 x y = .bottom ∧ x = x2 ∧ y = max y1 y2 + 1) ∨
    (edgeV x1 y1 x2 y2 x y = .bottomRight ∧ x = x2 + 1 ∧ y = max y1 y2 + 1) ∨
    (edgeV x1 y1 x2 y2 x y = .keep ∧
      (x < x2 - 1 ∨ x2 + 1 < x ∨ y < min y1 y2 - 1 ∨ max y1 y2 + 1 < y ∨
        (y = max y1 y2 ∧ x ≠ x2))) := by
  unfold edgeV
  rcases vKind_cases (x2 - 1) (min y1 y2) (max y1 y2 - min y1 y2 + 1) x y with
    ⟨hk, hc⟩ | ⟨hk, hc⟩ | ⟨hk, hc⟩ | ⟨hk, hc⟩ | ⟨hk, hc⟩ | ⟨hk, hc⟩ | ⟨hk, hc⟩ | ⟨hk, hc⟩ |
    ⟨hk, hc⟩ | ⟨hk, hc⟩
  · exact Or.inl ⟨hk, by omega⟩
  · exact Or.inr (Or.inl ⟨hk, by omega⟩)
  · exact Or.inr (Or.inr (Or.inl ⟨hk, by omega⟩))
  · exact Or.inr (Or.inr (Or.inr (Or.inl ⟨hk, by omega⟩)))
  · exact Or.inr (Or.inr (Or.inr (Or.inr (Or.inl ⟨hk, by omega⟩))))
  · exact Or.inr (Or.inr (Or.inr (Or.inr (Or.inr (Or.inl ⟨hk, by omega⟩)))))
  · exact Or.inr (Or.inr (Or.inr (Or.inr (Or.inr (Or.inr (Or.inl ⟨hk, by omega⟩))))))
  · exact Or.inr (Or.inr (Or.inr (Or.inr (Or.inr (Or.inr (Or.inr (Or.inl ⟨hk, by omega⟩)))))))
  · exact Or.inr (Or.inr (Or.inr (Or.inr (Or.inr (Or.inr (Or.inr (Or.inr
      (Or.inl ⟨hk, by omega⟩))))))))
  · exact Or.inr (Or.inr (Or.inr (Or.inr (Or.inr (Or.inr (Or.inr (Or.inr
      (Or.inr ⟨hk, by omega⟩))))))))

theorem OnLine.horizontal {x1 y1 x2 y2 x y : Int} (hy : y = y1) (h1 : min x1 x2 ≤ x)
    (h2 : x ≤ max x1 x2) : OnLine x1 y1 x2 y2 x y :=
  Or.inl ⟨hy, h1, h2⟩

theorem OnLine.vertical {x1 y1 x2 y2 x y : Int} (hx : x = x2) (h1 : min y1 y2 ≤ y)
    (h2 : y ≤ max y1 y2) : OnLine x1 y1 x2 y2 x y :=
  Or.inr ⟨hx, h1, h2⟩

/-- A cell the edge writes with the floor fill or with an edge rule lies on a
centre line or next to it. -/
theorem edgeV_straight (x1 y1 x2 y2 x y : Int)
    (h : edgeV x1 y1 x2 y2 x y ∈ Role.straight) :
    OnLine x1 y1 x2 y2 x y ∨ OnLine x1 y1 x2 y2 (x + 1) y ∨ OnLine x1 y1 x2 y2 (x - 1) y ∨
      OnLine x1 y1 x2 y2 x (y + 1) ∨ OnLine x1 y1 x2 y2 x (y - 1) := by
  rcases edgeV_cases x1 y1 x2 y2 x y with
    ⟨hk, hc⟩ | ⟨hk, hc⟩ | ⟨hk, hc⟩ | ⟨hk, hc⟩ | ⟨hk, hc⟩ | ⟨hk, hc⟩ | ⟨hk, hc⟩ | ⟨hk, hc⟩ |
    ⟨hk, hc⟩ | ⟨hk, hc⟩
  all_goals first
    | (rw [hk] at h; exact absurd h (by decide))
    | exact Or.inl (OnLine.vertical (by omega) (by omega) (by omega))
    | exact Or.inr (Or.inl (OnLine.vertical (by omega) (by omega) (by omega)))
    | exact Or.inr (Or.inr (Or.inl (OnLine.vertical (by omega) (by omega) (by omega))))
    | exact Or.inr (Or.inr (Or.inr (Or.inl (OnLine.vertical (by omega) (by omega) (by omega)))))
    | exact Or.inr (Or.inr (Or.inr (Or.inr (OnLine.vertical (by omega) (by omega) (by omega)))))

theorem edgeH_straight (x1 y1 x2 y2 x y : Int)
    (h : edgeH x1 y1 x2 y2 x y ∈ Role.straight) :
    OnLine x1 y1 x2 y2 x y ∨ OnLine x1 y1 x2 y2 (x + 1) y ∨ OnLine x1 y1 x2 y2 (x - 1) y ∨
      OnLine x1 y1 x2 y2 x (y + 1) ∨ OnLine x1 y1 x2 y2 x (y - 1) := by
  rcases edgeH_cases x1 y1 x2 y2 x y with
    ⟨hk, hc⟩ | ⟨hk, hc⟩ | ⟨hk, hc⟩ | ⟨hk, hc⟩ | ⟨hk, hc⟩ | ⟨hk, hc⟩ | ⟨hk, hc⟩ | ⟨hk, hc⟩ |
    ⟨hk, hc⟩ | ⟨hk, hc⟩
  all_goals first
    | (rw [hk] at h; exact absurd h (by decide))
    | exact Or.inl (OnLine.horizontal (by omega) (by omega) (by omega))
    | exact Or.inr (Or.inl (OnLine.horizontal (by omega) (by omega) (by omega)))
    | exact Or.inr (Or.inr (Or.inl (OnLine.horizontal (by omega) (by omega) (by omega))))
    | exact Or.inr (Or.inr (Or.inr (Or.inl (OnLine.horizontal (by omega) (by omega) (by omega)))))
    | exact Or.inr (Or.inr (Or.inr (Or.inr (OnLine.horizontal (by omega) (by omega) (by omega)))))

/-- A role is one of the five straight roles, one of the four corner roles, or
`keep`. -/
theorem Role.trichotomy (k : Role) : k ∈ Role.straight ∨ k ∈ Role.corners ∨ k = .keep := by
  cases k <;> decide

/-- A cell that is a corner of both corridors of an edge is the same corner of
both. -/
theorem edge_corners_agree (x1 y1 x2 y2 x y : Int)
    (hh : edgeH x1 y1 x2 y2 x y ∈ Role.corners) (hv : edgeV x1 y1 x2 y2 x y ∈ Role.corners) :
    edgeV x1 y1 x2 y2 x y = edgeH x1 y1 x2 y2 x y := by
  rcases edgeH_cases x1 y1 x2 y2 x y with
    ⟨hk, hc⟩ | ⟨hk, hc⟩ | ⟨hk, hc⟩ | ⟨hk, hc⟩ | ⟨hk, hc⟩ | ⟨hk, hc⟩ | ⟨hk, hc⟩ | ⟨hk, hc⟩ |
    ⟨hk, hc⟩ | ⟨hk, hc⟩
  all_goals first
    | (rw [hk] at hh; exact absurd hh (by decide))
    | (rcases edgeV_cases x1 y1 x2 y2 x y with
        ⟨vk, vc⟩ | ⟨vk, vc⟩ | ⟨vk, vc⟩ | ⟨vk, vc⟩ | ⟨vk, vc⟩ | ⟨vk, vc⟩ | ⟨vk, vc⟩ | ⟨vk, vc⟩ |
        ⟨vk, vc⟩ | ⟨vk, vc⟩
       all_goals first
         | (rw [vk] at hv; exact absurd hv (by decide))
         | exact vk.trans hk.symm
         | (exfalso; omega))

/-- The classification of what an edge does to a cell: the cell lies on a
centre line or next to one, or it keeps its tile, or a corner rule is applied
to it once or twice. -/
theorem edgeRole_cases (x1 y1 x2 y2 x y : Int) :
    (OnLine x1 y1 x2 y2 x y ∨ OnLine x1 y1 x2 y2 (x + 1) y ∨ OnLine x1 y1 x2 y2 (x - 1) y ∨
      OnLine x1 y1 x2 y2 x (y + 1) ∨ OnLine x1 y1 x2 y2 x (y - 1)) ∨
    (∀ e, edgeRole x1 y1 x2 y2 x y e = e) ∨
    (∃ k ∈ Role.corners, ∃ k2 ∈ [k, Role.keep],
      (∀ e, edgeRole x1 y1 x2 y2 x y e = Role.apply k2 (Role.apply k e)) ∧
      (edgeH x1 y1 x2 y2 x y = k ∨ edgeV x1 y1 x2 y2 x y = k)) := by
  rcases Role.trichotomy (edgeV x1 y1 x2 y2 x y) with hv | hv | hv
  · exact Or.inl (edgeV_straight x1 y1 x2 y2 x y hv)
  · rcases Role.trichotomy (edgeH x1 y1 x2 y2 x y) with hh | hh | hh
    · exact Or.inl (edgeH_straight x1 y1 x2 y2 x y hh)
    · refine Or.inr (Or.inr ⟨_, hh, _, List.mem_cons_self _ _, fun e => ?_, Or.inl rfl⟩)
      unfold edgeRole
      rw [edge_corners_agree x1 y1 x2 y2 x y hh hv]
    · refine Or.inr (Or.inr ⟨_, hv, Role.keep, by simp, fun e => ?_, Or.inr rfl⟩)
      unfold edgeRole
      rw [hh]
      rfl
  · rcases Role.trichotomy (edgeH x1 y1 x2 y2 x y) with hh | hh | hh
    · exact Or.inl (edgeH_straight x1 y1 x2 y2 x y hh)
    · refine Or.inr (Or.inr ⟨_, hh, Role.keep, by simp, fun e => ?_, Or.inl rfl⟩)
      unfold edgeRole
      rw [hv]
    · refine Or.inr (Or.inl fun e => ?_)
      unfold edgeRole
      rw [hv, hh]
      rfl

/-! ## One edge on the grid -/

theorem Adjacent.east (x y : Int) : Adjacent (x, y) (x + 1, y) :=
  Or.inl ⟨rfl, Or.inr rfl⟩

theorem Adjacent.west (x y : Int) : Adjacent (x, y) (x - 1, y) :=
  Or.inl ⟨rfl, Or.inl (by show x = x - 1 + 1; omega)⟩

theorem Adjacent.south (x y : Int) : Adjacent (x, y) (x, y + 1) :=
  Or.inr ⟨rfl, Or.inr rfl⟩

theorem Adjacent.north (x y : Int) : Adjacent (x, y) (x, y - 1) :=
  Or.inr ⟨rfl, Or.inl (by show y = y - 1 + 1; omega)⟩

theorem edgeH_floor (x1 y1 x2 y2 x y : Int) (hy : y = y1) (h1 : min x1 x2 ≤ x)
    (h2 : x ≤ max x1 x2) : edgeH x1 y1 x2 y2 x y = .floor := by
  rcases edgeH_cases x1 y1 x2 y2 x y with h | h | h | h | h | h | h | h | h | h <;>
    first | exact h.1 | (exfalso; omega)

theorem edgeH_top (x1 y1 x2 y2 x y : Int) (hy : y = y1 - 1) (h1 : min x1 x2 ≤ x)
    (h2 : x < max x1 x2) : edgeH x1 y1 x2 y2 x y = .top := by
  rcases edgeH_cases x1 y1 x2 y2 x y with h | h | h | h | h | h | h | h | h | h <;>
    first | exact h.1 | (exfalso; omega)

theorem edgeH_bottom (x1 y1 x2 y2 x y : Int) (hy : y = y1 + 1) (h1 : min x1 x2 ≤ x)
    (h2 : x < max x1 x2) : edgeH x1 y1 x2 y2 x y = .bottom := by
  rcases edgeH_cases x1 y1 x2 y2 x y with h | h | h | h | h | h | h | h | h | h <;>
    first | exact h.1 | (exfalso; omega)

theorem edgeV_floor (x1 y1 x2 y2 x y : Int) (hx : x = x2) (h1 : min y1 y2 ≤ y)
    (h2 : y ≤ max y1 y2) : edgeV x1 y1 x2 y2 x y = .floor := by
  rcases edgeV_cases x1 y1 x2 y2 x y with h | h | h | h | h | h | h | h | h | h <;>
    first | exact h.1 | (exfalso; omega)

theorem edgeV_top (x1 y1 x2 y2 x y : Int) (hx : x = x2) (hy : y = min y1 y2 - 1) :
    edgeV x1 y1 x2 y2 x y = .top := by
  rcases edgeV_cases x1 y1 x2 y2 x y with h | h | h | h | h | h | h | h | h | h <;>
    first | exact h.1 | (exfalso; omega)

theorem edgeV_bottom (x1 y1 x2 y2 x y : Int) (hx : x = x2) (hy : y = max y1 y2 + 1) :
    edgeV x1 y1 x2 y2 x y = .bottom := by
  rcases edgeV_cases x1 y1 x2 y2 x y with h | h | h | h | h | h | h | h | h | h <;>
    first | exact h.1 | (exfalso; omega)

theorem edgeV_left (x1 y1 x2 y2 x y : Int) (hx : x = x2 - 1) (h1 : min y1 y2 ≤ y)
    (h2 : y < max y1 y2) : edgeV x1 y1 x2 y2 x y = .left := by
  rcases edgeV_cases x1 y1 x2 y2 x y with h | h | h | h | h | h | h | h | h | h <;>
    first | exact h.1 | (exfalso; omega)

theorem edgeV_right (x1 y1 x2 y2 x y : Int) (hx : x = x2 + 1) (h1 : min y1 y2 ≤ y)
    (h2 : y < max y1 y2) : edgeV x1 y1 x2 y2 x y = .right := by
  rcases edgeV_cases x1 y1 x2 y2 x y with h | h | h | h | h | h | h | h | h | h <;>
    first | exact h.1 | (exfalso; omega)

/-- The position of the four corner cells of the horizontal corridor. -/
theorem edgeH_corner_pos (x1 y1 x2 y2 x y : Int) :
    (edgeH x1 y1 x2 y2 x y = .topLeft → x = min x1 x2 - 1 ∧ y = y1 - 1) ∧
    (edgeH x1 y1 x2 y2 x y = .topRight → x = max x1 x2 + 1 ∧ y = y1 - 1) ∧
    (edgeH x1 y1 x2 y2 x y = .bottomLeft → x = min x1 x2 - 1 ∧ y = y1 + 1) ∧
    (edgeH x1 y1 x2 y2 x y = .bottomRight → x = max x1 x2 + 1 ∧ y = y1 + 1) := by
  rcases edgeH_cases x1 y1 x2 y2 x y with h | h | h | h | h | h | h | h | h | h <;>
    rw [h.1] <;> simp <;> omega

/-- The position of the four corner cells of the vertical corridor. -/
theorem edgeV_corner_pos (x1 y1 x2 y2 x y : Int) :
    (edgeV x1 y1 x2 y2 x y = .topLeft → x = x2 - 1 ∧ y = min y1 y2 - 1) ∧
    (edgeV x1 y1 x2 y2 x y = .topRight → x = x2 + 1 ∧ y = min y1 y2 - 1) ∧
    (edgeV x1 y1 x2 y2 x y = .bottomLeft → x = x2 - 1 ∧ y = max y1 y2 + 1) ∧
    (edgeV x1 y1 x2 y2 x y = .bottomRight → x = x2 + 1 ∧ y = max y1 y2 + 1) := by
  rcases edgeV_cases x1 y1 x2 y2 x y with h | h | h | h | h | h | h | h | h | h <;>
    rw [h.1] <;> simp <;> omega

theorem EdgeStep.inGrid_iff {m m2 : Map} {x1 y1 x2 y2 : Int} (s : EdgeStep m m2 x1 y1 x2 y2)
    (x y : Int) : InGrid m2 x y ↔ InGrid m x y := by
  unfold InGrid
  rw [s.width_eq, s.height_eq]

theorem EdgeStep.box {m m2 : Map} {x1 y1 x2 y2 : Int} (s : EdgeStep m m2 x1 y1 x2 y2)
    (x y : Int) (hx1 : min x1 x2 - 1 ≤ x) (hx2 : x ≤ max x1 x2 + 1)
    (hy1 : min y1 y2 - 1 ≤ y) (hy2 : y ≤ max y1 y2 + 1) : InGrid m x y := by
  have h1 := s.low
  have h2 := s.high
  unfold InGrid at h1 h2 ⊢
  omega

/-- The two corridors of an edge keep every cell inside each class of codes. -/
theorem EdgeStep.class_mono {m m2 : Map} {x1 y1 x2 y2 : Int} (s : EdgeStep m m2 x1 y1 x2 y2)
    (C : List Nat) (hC : C ∈ tileClasses) (x y : Int) (hxy : InGrid m x y)
    (h : GetTileTypeAt m x y ∈ C) : GetTileTypeAt m2 x y ∈ C := by
  rw [s.cell x y hxy]
  exact Role.apply_mem _ C hC _ (Role.apply_mem _ C hC _ h)

theorem EdgeStep.floor_mono {m m2 : Map} {x1 y1 x2 y2 : Int} (s : EdgeStep m m2 x1 y1 x2 y2)
    (x y : Int) (h : IsFloor m x y) : IsFloor m2 x y := by
  refine ⟨(s.inGrid_iff x y).mpr h.1, ?_⟩
  have h2 := s.class_mono [FLOOR_TEXTURE] mem_floorClass x y h.1 (by rw [h.2]; simp)
  simpa using h2

/-- The centre lines of the two corridors of an edge hold floor. -/
theorem EdgeStep.line_floor {m m2 : Map} {x1 y1 x2 y2 : Int} (s : EdgeStep m m2 x1 y1 x2 y2)
    (a b : Int) (h : OnLine x1 y1 x2 y2 a b) : IsFloor m2 a b := by
  have hin : InGrid m a b := by
    unfold OnLine at h
    exact s.box a b (by omega) (by omega) (by omega) (by omega)
  refine ⟨(s.inGrid_iff a b).mpr hin, ?_⟩
  rw [s.cell a b hin]
  unfold edgeRole
  rcases h with ⟨hy, h1, h2⟩ | ⟨hx, h1, h2⟩
  · rw [edgeH_floor x1 y1 x2 y2 a b hy h1 h2]
    exact Role.apply_floor _
  · rw [edgeV_floor x1 y1 x2 y2 a b hx h1 h2]
    rfl

theorem EdgeStep.flank_topLeft {m m2 : Map} {x1 y1 x2 y2 : Int}
    (s : EdgeStep m m2 x1 y1 x2 y2) (x y : Int)
    (hk : edgeH x1 y1 x2 y2 x y = .topLeft ∨ edgeV x1 y1 x2 y2 x y = .topLeft) :
    GetTileTypeAt m x y = FLOOR_TEXTURE ∨
      (InGrid m (x + 1) y ∧ ∀ e ∈ tileCodes, edgeRole x1 y1 x2 y2 (x + 1) y e ∈ topClass) := by
  rcases hk with hk | hk
  · have hp := (edgeH_corner_pos x1 y1 x2 y2 x y).1 hk
    by_cases hle : x1 ≤ x2
    · exact Or.inl (s.origin x y (by omega) (by omega) (by omega) (by omega))
    · refine Or.inr ⟨s.box _ _ (by omega) (by omega) (by omega) (by omega), fun e he => ?_⟩
      unfold edgeRole
      rw [edgeH_top x1 y1 x2 y2 (x + 1) y (by omega) (by omega) (by omega)]
      exact Role.apply_mem _ topClass mem_topClass _ (Role.top_range e he)
  · have hp := (edgeV_corner_pos x1 y1 x2 y2 x y).1 hk
    refine Or.inr ⟨s.box _ _ (by omega) (by omega) (by omega) (by omega), fun e he => ?_⟩
    unfold edgeRole
    rw [edgeV_top x1 y1 x2 y2 (x + 1) y (by omega) (by omega)]
    exact Role.top_range _ (Role.apply_mem _ tileCodes mem_tileCodes e he)

theorem EdgeStep.flank_topRight {m m2 : Map} {x1 y1 x2 y2 : Int}
    (s : EdgeStep m m2 x1 y1 x2 y2) (x y : Int)
    (hk : edgeH x1 y1 x2 y2 x y = .topRight ∨ edgeV x1 y1 x2 y2 x y = .topRight) :
    GetTileTypeAt m x y = FLOOR_TEXTURE ∨
      (InGrid m (x - 1) y ∧ ∀ e ∈ tileCodes, edgeRole x1 y1 x2 y2 (x - 1) y e ∈ topClass) := by
  rcases hk with hk | hk
  · have hp := (edgeH_corner_pos x1 y1 x2 y2 x y).2.1 hk
    by_cases hle : x2 ≤ x1
    · exact Or.inl (s.origin x y (by omega) (by omega) (by omega) (by omega))
    · refine Or.inr ⟨s.box _ _ (by omega) (by omega) (by omega) (by omega), fun e he => ?_⟩
      unfold edgeRole
      have hc := Role.apply_mem (edgeH x1 y1 x2 y2 (x - 1) y) tileCodes mem_tileCodes e he
      by_cases hy : y1 ≤ y2
      · rw [edgeV_top x1 y1 x2 y2 (x - 1) y (by omega) (by omega)]
        exact Role.top_range _ hc
      · rw [edgeV_floor x1 y1 x2 y2 (x - 1) y (by omega) (by omega) (by omega)]
        show FLOOR_TEXTURE ∈ topClass
        decide
  · have hp := (edgeV_corner_pos x1 y1 x2 y2 x y).2.1 hk
    refine Or.inr ⟨s.box _ _ (by omega) (by omega) (by omega) (by omega), fun e he => ?_⟩
    unfold edgeRole
    rw [edgeV_top x1 y1 x2 y2 (x - 1) y (by omega) (by omega)]
    exact Role.top_range _ (Role.apply_mem _ tileCodes mem_tileCodes e he)

theorem EdgeStep.flank_bottomLeft {m m2 : Map} {x1 y1 x2 y2 : Int}
    (s : EdgeStep m m2 x1 y1 x2 y2) (x y : Int)
    (hk : edgeH x1 y1 x2 y2 x y = .bottomLeft ∨ edgeV x1 y1 x2 y2 x y = .bottomLeft) :
    GetTileTypeAt m x y = FLOOR_TEXTURE ∨
      (InGrid m (x + 1) y ∧
        ∀ e ∈ topClass, edgeRole x1 y1 x2 y2 (x + 1) y e = FLOOR_TEXTURE) := by
  rcases hk with hk | hk
  · have hp := (edgeH_corner_pos x1 y1 x2 y2 x y).2.2.1 hk
    by_cases hle : x1 ≤ x2
    · exact Or.inl (s.origin x y (by omega) (by omega) (by omega) (by omega))
    · refine Or.inr ⟨s.box _ _ (by omega) (by omega) (by omega) (by omega), fun e he => ?_⟩
      unfold edgeRole
      rw [edgeH_bottom x1 y1 x2 y2 (x + 1) y (by omega) (by omega) (by omega),
        Role.opposite_floor.1 e he]
      exact Role.apply_floor _
  · have hp := (edgeV_corner_pos x1 y1 x2 y2 x y).2.2.1 hk
    refine Or.inr ⟨s.box _ _ (by omega) (by omega) (by omega) (by omega), fun e he => ?_⟩
    unfold edgeRole
    rw [edgeV_bottom x1 y1 x2 y2 (x + 1) y (by omega) (by omega)]
    exact Role.opposite_floor.1 _ (Role.apply_mem _ topClass mem_topClass e he)

theorem EdgeStep.flank_bottomRight {m m2 : Map} {x1 y1 x2 y2 : Int}
    (s : EdgeStep m m2 x1 y1 x2 y2) (x y : Int)
    (hk : edgeH x1 y1 x2 y2 x y = .bottomRight ∨ edgeV x1 y1 x2 y2 x y = .bottomRight) :
    GetTileTypeAt m x y = FLOOR_TEXTURE ∨
      (InGrid m (x - 1) y ∧
        ∀ e ∈ topClass, edgeRole x1 y1 x2 y2 (x - 1) y e = FLOOR_TEXTURE) := by
  rcases hk with hk | hk
  · have hp := (edgeH_corner_pos x1 y1 x2 y2 x y).2.2.2 hk
    by_cases hle : x2 ≤ x1
    · exact Or.inl (s.origin x y (by omega) (by omega) (by omega) (by omega))
    · refine Or.inr ⟨s.box _ _ (by omega) (by omega) (by omega) (by omega), fun e he => ?_⟩
      unfold edgeRole
      have hc := Role.apply_mem (edgeH x1 y1 x2 y2 (x - 1) y) topClass mem_topClass e he
      by_cases hy : y2 ≤ y1
      · rw [edgeV_bottom x1 y1 x2 y2 (x - 1) y (by omega) (by omega)]
        exact Role.opposite_floor.1 _ hc
      · rw [edgeV_floor x1 y1 x2 y2 (x - 1) y (by omega) (by omega) (by omega)]
        rfl
  · have hp := (edgeV_corner_pos x1 y1 x2 y2 x y).2.2.2 hk
    refine Or.inr ⟨s.box _ _ (by omega) (by omega) (by omega) (by omega), fun e he => ?_⟩
    unfold edgeRole
    rw [edgeV_bottom x1 y1 x2 y2 (x - 1) y (by omega) (by omega)]
    exact Role.opposite_floor.1 _ (Role.apply_mem _ topClass mem_topClass e he)

/-! ## What one edge keeps true of the grid -/

/-- After the two corridors of an edge every straight wall and every inner
corner still has a floor cell next to it. -/
theorem EdgeStep.wallsBacked {m m2 : Map} {x1 y1 x2 y2 : Int}
    (s : EdgeStep m m2 x1 y1 x2 y2) (hJ : WallsBacked m) (hJ2 : CornersFlanked m) :
    WallsBacked m2 := by
  intro x y hxy2 hw
  have hxy := (s.inGrid_iff x y).mp hxy2
  have old : GetTileTypeAt m x y ∈ wallCodes →
      IsFloor m2 (x + 1) y ∨ IsFloor m2 (x - 1) y ∨ IsFloor m2 x (y + 1) ∨
        IsFloor m2 x (y - 1) := by
    intro h
    rcases hJ x y hxy h with h | h | h | h
    · exact Or.inl (s.floor_mono _ _ h)
    · exact Or.inr (Or.inl (s.floor_mono _ _ h))
    · exact Or.inr (Or.inr (Or.inl (s.floor_mono _ _ h)))
    · exact Or.inr (Or.inr (Or.inr (s.floor_mono _ _ h)))
  rcases edgeRole_cases x1 y1 x2 y2 x y with hl | hid | ⟨k, hk, k2, hk2, hval, hpos⟩
  · rcases hl with h | h | h | h | h
    · rw [(s.line_floor x y h).2] at hw
      exact absurd hw floor_not_wallCode
    · exact Or.inl (s.line_floor _ _ h)
    · exact Or.inr (Or.inl (s.line_floor _ _ h))
    · exact Or.inr (Or.inr (Or.inl (s.line_floor _ _ h)))
    · exact Or.inr (Or.inr (Or.inr (s.line_floor _ _ h)))
  · rw [s.cell x y hxy, hid] at hw
    exact old hw
  · rw [s.cell x y hxy, hval] at hw
    rcases Role.corner_wall _ (s.codes x y hxy) k hk k2 hk2 hw with h | ⟨rfl, ht⟩ | ⟨rfl, ht⟩
    · exact old h
    · rcases s.flank_bottomLeft x y hpos with hf | ⟨hq, hfl⟩
      · rw [hf] at ht
        exact absurd ht (by decide)
      · refine Or.inl ⟨(s.inGrid_iff _ _).mpr hq, ?_⟩
        rw [s.cell _ _ hq]
        exact hfl _ ((hJ2 x y hxy).1 ht).2
    · rcases s.flank_bottomRight x y hpos with hf | ⟨hq, hfl⟩
      · rw [hf] at ht
        exact absurd ht (by decide)
      · refine Or.inr (Or.inl ⟨(s.inGrid_iff _ _).mpr hq, ?_⟩)
        rw [s.cell _ _ hq]
        exact hfl _ ((hJ2 x y hxy).2 ht).2

/-- After the two corridors of an edge every top-left and every top-right
outer corner still has a cell of the class of the top walls beside it. -/
theorem EdgeStep.cornersFlanked {m m2 : Map} {x1 y1 x2 y2 : Int}
    (s : EdgeStep m m2 x1 y1 x2 y2) (hJ2 : CornersFlanked m) : CornersFlanked m2 := by
  intro x y hxy2
  have hxy := (s.inGrid_iff x y).mp hxy2
  have hc1 := s.codes x y hxy
  have hc2 : (edgeH x1 y1 x2 y2 x y).apply (GetTileTypeAt m x y) ∈ tileCodes :=
    Role.apply_mem _ _ mem_tileCodes _ hc1
  have hfloor : GetTileTypeAt m x y = FLOOR_TEXTURE → GetTileTypeAt m2 x y = FLOOR_TEXTURE :=
    fun h => (s.floor_mono x y ⟨hxy, h⟩).2
  constructor
  · intro ht
    have flank : (edgeH x1 y1 x2 y2 x y = .topLeft ∨ edgeV x1 y1 x2 y2 x y = .topLeft) →
        InGrid m2 (x + 1) y ∧ GetTileTypeAt m2 (x + 1) y ∈ topClass := by
      intro hk
      rcases s.flank_topLeft x y hk with hf | ⟨hq, hfl⟩
      · rw [hfloor hf] at ht
        exact absurd ht (by decide)
      · refine ⟨(s.inGrid_iff _ _).mpr hq, ?_⟩
        rw [s.cell _ _ hq]
        exact hfl _ (s.codes _ _ hq)
    have ht' := ht
    rw [s.cell x y hxy] at ht'
    unfold edgeRole at ht'
    rcases (Role.outer_corner _ hc2 _ (Role.mem_all _)).1 ht' with hv | ⟨_, ht2⟩
    · exact flank (Or.inr hv)
    · rcases (Role.outer_corner _ hc1 _ (Role.mem_all _)).1 ht2 with hh | ⟨_, ht3⟩
      · exact flank (Or.inl hh)
      · obtain ⟨hq, hcls⟩ := (hJ2 x y hxy).1 ht3
        exact ⟨(s.inGrid_iff _ _).mpr hq, s.class_mono topClass mem_topClass _ _ hq hcls⟩
  · intro ht
    have flank : (edgeH x1 y1 x2 y2 x y = .topRight ∨ edgeV x1 y1 x2 y2 x y = .topRight) →
        InGrid m2 (x - 1) y ∧ GetTileTypeAt m2 (x - 1) y ∈ topClass := by
      intro hk
      rcases s.flank_topRight x y hk with hf | ⟨hq, hfl⟩
      · rw [hfloor hf] at ht
        exact absurd ht (by decide)
      · refine ⟨(s.inGrid_iff _ _).mpr hq, ?_⟩
        rw [s.cell _ _ hq]
        exact hfl _ (s.codes _ _ hq)
    have ht' := ht
    rw [s.cell x y hxy] at ht'
    unfold edgeRole at ht'
    rcases (Role.outer_corner _ hc2 _ (Role.mem_all _)).2 ht' with hv | ⟨_, ht2⟩
    · exact flank (Or.inr hv)
    · rcases (Role.outer_corner _ hc1 _ (Role.mem_all _)).2 ht2 with hh | ⟨_, ht3⟩
      · exact flank (Or.inl hh)
      · obtain ⟨hq, hcls⟩ := (hJ2 x y hxy).2 ht3
        exact ⟨(s.inGrid_iff _ _).mpr hq, s.class_mono topClass mem_topClass _ _ hq hcls⟩

/-- A cell that the two corridors of an edge turn into floor lies on a centre
line, or next to a centre line, or next to a cell that held floor before. -/
theorem EdgeStep.new_floor {m m2 : Map} {x1 y1 x2 y2 : Int}
    (s : EdgeStep m m2 x1 y1 x2 y2) (hJ : WallsBacked m) (x y : Int)
    (h2 : IsFloor m2 x y) (h1 : ¬ IsFloor m x y) :
    OnLine x1 y1 x2 y2 x y ∨
      ∃ a b : Int, Adjacent (x, y) (a, b) ∧ IsFloor m2 a b ∧
        (OnLine x1 y1 x2 y2 a b ∨ IsFloor m a b) := by
  have hxy := (s.inGrid_iff x y).mp h2.1
  have old : GetTileTypeAt m x y ∈ wallCodes →
      ∃ a b : Int, Adjacent (x, y) (a, b) ∧ IsFloor m2 a b ∧
        (OnLine x1 y1 x2 y2 a b ∨ IsFloor m a b) := by
    intro h
    rcases hJ x y hxy h with h | h | h | h
    · exact ⟨_, _, Adjacent.east x y, s.floor_mono _ _ h, Or.inr h⟩
    · exact ⟨_, _, Adjacent.west x y, s.floor_mono _ _ h, Or.inr h⟩
    · exact ⟨_, _, Adjacent.south x y, s.floor_mono _ _ h, Or.inr h⟩
    · exact ⟨_, _, Adjacent.north x y, s.floor_mono _ _ h, Or.inr h⟩
  have hval := h2.2
  rcases edgeRole_cases x1 y1 x2 y2 x y with hl | hid | ⟨k, hk, k2, hk2, hrole, _⟩
  · rcases hl with h | h | h | h | h
    · exact Or.inl h
    · exact Or.inr ⟨_, _, Adjacent.east x y, s.line_floor _ _ h, Or.inl h⟩
    · exact Or.inr ⟨_, _, Adjacent.west x y, s.line_floor _ _ h, Or.inl h⟩
    · exact Or.inr ⟨_, _, Adjacent.south x y, s.line_floor _ _ h, Or.inl h⟩
    · exact Or.inr ⟨_, _, Adjacent.north x y, s.line_floor _ _ h, Or.inl h⟩
  · rw [s.cell x y hxy, hid] at hval
    exact absurd ⟨hxy, hval⟩ h1
  · rw [s.cell x y hxy, hrole] at hval
    rcases Role.corner_floor _ (s.codes x y hxy) k hk k2 hk2 hval with h | h
    · exact absurd ⟨hxy, h⟩ h1
    · exact Or.inr (old h)

/-! ## Paths of floor cells -/

theorem Adjacent.swap {p q : Int × Int} (h : Adjacent p q) : Adjacent q p := by
  unfold Adjacent at h ⊢
  omega

theorem FloorConnected.trans {m : Map} {p q r : Int × Int} (h1 : FloorConnected m p q)
    (h2 : FloorConnected m q r) : FloorConnected m p r :=
  Relation.ReflTransGen.trans h1 h2

theorem FloorConnected.symm {m : Map} {p q : Int × Int} (h : FloorConnected m p q) :
    FloorConnected m q p := by
  induction h with
  | refl => exact Relation.ReflTransGen.refl
  | tail _ hbc ih =>
    exact Relation.ReflTransGen.head ⟨hbc.2.1, hbc.1, hbc.2.2.swap⟩ ih

theorem FloorConnected.single {m : Map} {a b c d : Int} (h1 : IsFloor m a b)
    (h2 : IsFloor m c d) (hadj : Adjacent (a, b) (c, d)) : FloorConnected m (a, b) (c, d) :=
  Relation.ReflTransGen.single ⟨h1, h2, hadj⟩

theorem FloorConnected.mono {m m2 : Map} (h : ∀ x y, IsFloor m x y → IsFloor m2 x y)
    {p q : Int × Int} (hc : FloorConnected m p q) : FloorConnected m2 p q :=
  Relation.ReflTransGen.mono (fun _ _ hab => ⟨h _ _ hab.1, h _ _ hab.2.1, hab.2.2⟩) hc

theorem floor_row (m : Map) (y : Int) : ∀ (n : Nat) (x : Int),
    (∀ k : Int, 0 ≤ k → k ≤ n → IsFloor m (x + k) y) →
      FloorConnected m (x, y) (x + n, y) := by
  intro n
  induction n with
  | zero =>
    intro x _
    simp only [Nat.cast_zero, add_zero]
    exact Relation.ReflTransGen.refl
  | succ n ih =>
    intro x h
    have h1 := ih x (fun k hk0 hk1 => h k hk0 (by push_cast; omega))
    have h2 : IsFloor m (x + n) y := h n (by omega) (by push_cast; omega)
    have h3 : IsFloor m (x + n + 1) y := by
      have := h (n + 1) (by omega) (by push_cast; omega)
      rwa [← add_assoc] at this
    have h4 := FloorConnected.single h2 h3 (Adjacent.east _ _)
    have h5 := h1.trans h4
    have e : x + ((n + 1 : Nat) : Int) = x + n + 1 := by push_cast; ring
    rw [e]
    exact h5

theorem floor_column (m : Map) (x : Int) : ∀ (n : Nat) (y : Int),
    (∀ k : Int, 0 ≤ k → k ≤ n → IsFloor m x (y + k)) →
      FloorConnected m (x, y) (x, y + n) := by
  intro n
  induction n with
  | zero =>
    intro y _
    simp only [Nat.cast_zero, add_zero]
    exact Relation.ReflTransGen.refl
  | succ n ih =>
    intro y h
    have h1 := ih y (fun k hk0 hk1 => h k hk0 (by push_cast; omega))
    have h2 : IsFloor m x (y + n) := h n (by omega) (by push_cast; omega)
    have h3 : IsFloor m x (y + n + 1) := by
      have := h (n + 1) (by omega) (by push_cast; omega)
      rwa [← add_assoc] at this
    have h4 := FloorConnected.single h2 h3 (Adjacent.south _ _)
    have h5 := h1.trans h4
    have e : y + ((n + 1 : Nat) : Int) = y + n + 1 := by push_cast; ring
    rw [e]
    exact h5

/-- A run of floor cells in a row is connected, in either direction. -/
theorem floor_row_segment (m : Map) (a b y : Int)
    (h : ∀ x, min a b ≤ x → x ≤ max a b → IsFloor m x y) : FloorConnected m (a, y) (b, y) := by
  have key : ∀ a b : Int, a ≤ b → (∀ x, a ≤ x → x ≤ b → IsFloor m x y) →
      FloorConnected m (a, y) (b, y) := by
    intro a b hab h
    have h1 := floor_row m y (b - a).toNat a (fun k hk0 hk1 => h _ (by omega) (by
      rw [Int.toNat_of_nonneg (by omega)] at hk1
      omega))
    rw [Int.toNat_of_nonneg (by omega)] at h1
    have e : a + (b - a) = b := by ring
    rwa [e] at h1
  rcases le_total a b with hab | hab
  · exact key a b hab (fun x h1 h2 => h x (by omega) (by omega))
  · exact (key b a hab (fun x h1 h2 => h x (by omega) (by omega))).symm

/-- A run of floor cells in a column is connected, in either direction. -/
theorem floor_column_segment (m : Map) (x a b : Int)
    (h : ∀ y, min a b ≤ y → y ≤ max a b → IsFloor m x y) : FloorConnected m (x, a) (x, b) := by
  have key : ∀ a b : Int, a ≤ b → (∀ y, a ≤ y → y ≤ b → IsFloor m x y) →
      FloorConnected m (x, a) (x, b) := by
    intro a b hab h
    have h1 := floor_column m x (b - a).toNat a (fun k hk0 hk1 => h _ (by omega) (by
      rw [Int.toNat_of_nonneg (by omega)] at hk1
      omega))
    rw [Int.toNat_of_nonneg (by omega)] at h1
    have e : a + (b - a) = b := by ring
    rwa [e] at h1
  rcases le_total a b with hab | hab
  · exact key a b hab (fun y h1 h2 => h y (by omega) (by omega))
  · exact (key b a hab (fun y h1 h2 => h y (by omega) (by omega))).symm

/-- A rectangle of floor cells is connected. -/
theorem floor_rect (m : Map) (a b c d : Int)
    (h : ∀ x y, a ≤ x → x ≤ b → c ≤ y → y ≤ d → IsFloor m x y) (x y x' y' : Int)
    (hx : a ≤ x ∧ x ≤ b) (hy : c ≤ y ∧ y ≤ d) (hx' : a ≤ x' ∧ x' ≤ b) (hy' : c ≤ y' ∧ y' ≤ d) :
    FloorConnected m (x, y) (x', y') :=
  (floor_row_segment m x x' y (fun u h1 h2 => h u y (by omega) (by omega) hy.1 hy.2)).trans
    (floor_column_segment m x' y y' (fun v h1 h2 => h x' v hx'.1 hx'.2 (by omega) (by omega)))

/-- The cells of the two centre lines of an edge are connected with each other
once all of them hold floor. -/
theorem line_connected (m : Map) (x1 y1 x2 y2 : Int)
    (h : ∀ a b, OnLine x1 y1 x2 y2 a b → IsFloor m a b) (a b c d : Int)
    (hab : OnLine x1 y1 x2 y2 a b) (hcd : OnLine x1 y1 x2 y2 c d) :
    FloorConnected m (a, b) (c, d) := by
  have elbow : ∀ a b, OnLine x1 y1 x2 y2 a b → FloorConnected m (a, b) (x2, y1) := by
    intro a b hab
    rcases hab with ⟨hy, h1, h2⟩ | ⟨hx, h1, h2⟩
    · rw [hy]
      exact floor_row_segment m a x2 y1 (fun x h3 h4 =>
        h x y1 (OnLine.horizontal rfl (by omega) (by omega)))
    · rw [hx]
      exact floor_column_segment m x2 b y1 (fun y h3 h4 =>
        h x2 y (OnLine.vertical rfl (by omega) (by omega)))
  exact (elbow a b hab).trans (elbow c d hcd).symm

theorem OnLine.origin (x1 y1 x2 y2 : Int) : OnLine x1 y1 x2 y2 x1 y1 :=
  OnLine.horizontal rfl (by omega) (by omega)

theorem OnLine.destination (x1 y1 x2 y2 : Int) : OnLine x1 y1 x2 y2 x2 y2 :=
  OnLine.vertical rfl (by omega) (by omega)

/-! ## Rooms that a corridor meets -/

theorem adjacent_iff (a b c d : Int) :
    Adjacent (a, b) (c, d) ↔
      (b = d ∧ (a = c + 1 ∨ c = a + 1)) ∨ (a = c ∧ (b = d + 1 ∨ d = b + 1)) :=
  Iff.rfl

theorem roomTileAt_interior (r : Rect) (i j : Int) (hi : 0 < i ∧ i < r.width - 1)
    (hj : 0 < j ∧ j < r.height - 1) : roomTileAt r i j = FLOOR_TEXTURE := by
  unfold roomTileAt
  split_ifs <;> first | rfl | omega

theorem roomTileAt_top (r : Rect) (i : Int) (hi : 0 < i ∧ i < r.width - 1)
    (hh : 2 ≤ r.height) : roomTileAt r i 0 = WALL_TOP := by
  unfold roomTileAt
  split_ifs <;> first | rfl | omega

theorem roomTileAt_bottom (r : Rect) (i : Int) (hi : 0 < i ∧ i < r.width - 1)
    (hh : 2 ≤ r.height) : roomTileAt r i (r.height - 1) = WALL_BOTTOM := by
  unfold roomTileAt
  split_ifs <;> first | rfl | omega

theorem roomTileAt_left (r : Rect) (j : Int) (hj : 0 < j ∧ j < r.height - 1)
    (hw : 2 ≤ r.width) : roomTileAt r 0 j = WALL_LEFT := by
  unfold roomTileAt
  split_ifs <;> first | rfl | omega

theorem roomTileAt_right (r : Rect) (j : Int) (hj : 0 < j ∧ j < r.height - 1)
    (hw : 2 ≤ r.width) : roomTileAt r (r.width - 1) j = WALL_RIGHT := by
  unfold roomTileAt
  split_ifs <;> first | rfl | omega

theorem RoomKept.interior {m : Map} {l0 t0 : Int} {r : Rect} (h : RoomKept m l0 t0 r)
    (i j : Int) (hi : 0 < i ∧ i < r.width - 1) (hj : 0 < j ∧ j < r.height - 1) :
    IsFloor m (r.left - l0 + i) (r.top - t0 + j) := by
  obtain ⟨h1, h2⟩ := h i j (by omega) (by omega) (by omega) (by omega)
  have h3 := h2 [FLOOR_TEXTURE] mem_floorClass (by rw [roomTileAt_interior r i j hi hj]; simp)
  exact ⟨h1, by simpa using h3⟩

theorem RoomKept.top {m : Map} {l0 t0 : Int} {r : Rect} (h : RoomKept m l0 t0 r)
    (i : Int) (hi : 0 < i ∧ i < r.width - 1) (hh : 2 ≤ r.height) :
    InGrid m (r.left - l0 + i) (r.top - t0) ∧
      GetTileTypeAt m (r.left - l0 + i) (r.top - t0) ∈ topClass := by
  obtain ⟨h1, h2⟩ := h i 0 (by omega) (by omega) (by omega) (by omega)
  rw [add_zero] at h1 h2
  exact ⟨h1, h2 topClass mem_topClass (by rw [roomTileAt_top r i hi hh]; decide)⟩

theorem RoomKept.bottom {m : Map} {l0 t0 : Int} {r : Rect} (h : RoomKept m l0 t0 r)
    (i : Int) (hi : 0 < i ∧ i < r.width - 1) (hh : 2 ≤ r.height) :
    InGrid m (r.left - l0 + i) (r.top - t0 + (r.height - 1)) ∧
      GetTileTypeAt m (r.left - l0 + i) (r.top - t0 + (r.height - 1)) ∈ bottomClass := by
  obtain ⟨h1, h2⟩ := h i (r.height - 1) (by omega) (by omega) (by omega) (by omega)
  exact ⟨h1, h2 bottomClass mem_bottomClass (by rw [roomTileAt_bottom r i hi hh]; decide)⟩

theorem RoomKept.left {m : Map} {l0 t0 : Int} {r : Rect} (h : RoomKept m l0 t0 r)
    (j : Int) (hj : 0 < j ∧ j < r.height - 1) (hw : 2 ≤ r.width) :
    InGrid m (r.left - l0) (r.top - t0 + j) ∧
      GetTileTypeAt m (r.left - l0) (r.top - t0 + j) ∈ leftClass := by
  obtain ⟨h1, h2⟩ := h 0 j (by omega) (by omega) (by omega) (by omega)
  rw [add_zero] at h1 h2
  exact ⟨h1, h2 leftClass mem_leftClass (by rw [roomTileAt_left r j hj hw]; decide)⟩

theorem RoomKept.right {m : Map} {l0 t0 : Int} {r : Rect} (h : RoomKept m l0 t0 r)
    (j : Int) (hj : 0 < j ∧ j < r.height - 1) (hw : 2 ≤ r.width) :
    InGrid m (r.left - l0 + (r.width - 1)) (r.top - t0 + j) ∧
      GetTileTypeAt m (r.left - l0 + (r.width - 1)) (r.top - t0 + j) ∈ rightClass := by
  obtain ⟨h1, h2⟩ := h (r.width - 1) j (by omega) (by omega) (by omega) (by omega)
  exact ⟨h1, h2 rightClass mem_rightClass (by rw [roomTileAt_right r j hj hw]; decide)⟩

/-- The two corridors of an edge keep a stamped room. -/
theorem EdgeStep.roomKept {m m2 : Map} {x1 y1 x2 y2 : Int} (s : EdgeStep m m2 x1 y1 x2 y2)
    {l0 t0 : Int} {r : Rect} (h : RoomKept m l0 t0 r) : RoomKept m2 l0 t0 r := by
  intro i j hi0 hi1 hj0 hj1
  obtain ⟨h1, h2⟩ := h i j hi0 hi1 hj0 hj1
  exact ⟨(s.inGrid_iff _ _).mpr h1, fun C hC hmem => s.class_mono C hC _ _ h1 (h2 C hC hmem)⟩

/-- A room of width and height at least 3 that the horizontal segment of an
edge meets has, after the two corridors of the edge, an interior cell that is
connected with the centre line of the corridor. -/
theorem EdgeStep.hit_horizontal {m m2 : Map} {x1 y1 x2 y2 : Int}
    (s : EdgeStep m m2 x1 y1 x2 y2) (l0 t0 : Int) (r : Rect) (hk : RoomKept m l0 t0 r)
    (hw : 3 ≤ r.width) (hh : 3 ≤ r.height)
    (hhit : (r.top - t0 < y1 + 2 ∧ r.top - t0 + r.height > y1 - 1) ∧
      min x1 x2 < r.left - l0 ∧ r.left - l0 + r.width < max x1 x2) :
    ∃ i j c d : Int, (0 < i ∧ i < r.width - 1) ∧ (0 < j ∧ j < r.height - 1) ∧
      OnLine x1 y1 x2 y2 c d ∧
      FloorConnected m2 (r.left - l0 + i, r.top - t0 + j) (c, d) := by
  have hline : OnLine x1 y1 x2 y2 (r.left - l0 + 1) y1 :=
    OnLine.horizontal rfl (by omega) (by omega)
  have hq := s.line_floor _ _ hline
  have hint : ∀ j, 0 < j ∧ j < r.height - 1 → IsFloor m2 (r.left - l0 + 1) (r.top - t0 + j) :=
    fun j hj => s.floor_mono _ _ (hk.interior 1 j (by omega) hj)
  by_cases c1 : y1 = r.top - t0 - 1
  · -- the bottom wall of the corridor runs along the top wall of the room
    obtain ⟨hin, hcls⟩ := hk.top 1 (by omega) (by omega)
    have hwall : IsFloor m2 (r.left - l0 + 1) (r.top - t0) := by
      refine ⟨(s.inGrid_iff _ _).mpr hin, ?_⟩
      rw [s.cell _ _ hin]
      unfold edgeRole
      rw [edgeH_bottom x1 y1 x2 y2 _ _ (by omega) (by omega) (by omega),
        Role.opposite_floor.1 _ hcls]
      exact Role.apply_floor _
    refine ⟨1, 1, _, _, by omega, by omega, hline, ?_⟩
    have p1 := FloorConnected.single (hint 1 (by omega)) hwall
      ((adjacent_iff _ _ _ _).mpr (by omega))
    have p2 := FloorConnected.single hwall hq
      ((adjacent_iff _ _ _ _).mpr (by omega))
    exact p1.trans p2
  · by_cases c2 : y1 = r.top - t0
    · refine ⟨1, 1, _, _, by omega, by omega, hline, ?_⟩
      exact FloorConnected.single (hint 1 (by omega)) hq
        ((adjacent_iff _ _ _ _).mpr (by omega))
    · by_cases c3 : y1 = r.top - t0 + r.height
      · -- the top wall of the corridor runs along the bottom wall of the room
        obtain ⟨hin, hcls⟩ := hk.bottom 1 (by omega) (by omega)
        have hwall : IsFloor m2 (r.left - l0 + 1) (r.top - t0 + (r.height - 1)) := by
          refine ⟨(s.inGrid_iff _ _).mpr hin, ?_⟩
          rw [s.cell _ _ hin]
          unfold edgeRole
          rw [edgeH_top x1 y1 x2 y2 _ _ (by omega) (by omega) (by omega),
            Role.opposite_floor.2.1 _ hcls]
          exact Role.apply_floor _
        refine ⟨1, r.height - 2, _, _, by omega, by omega, hline, ?_⟩
        have p1 := FloorConnected.single (hint (r.height - 2) (by omega)) hwall
          ((adjacent_iff _ _ _ _).mpr (by omega))
        have p2 := FloorConnected.single hwall hq
          ((adjacent_iff _ _ _ _).mpr (by omega))
        exact p1.trans p2
      · by_cases c4 : y1 = r.top - t0 + (r.height - 1)
        · refine ⟨1, r.height - 2, _, _, by omega, by omega, hline, ?_⟩
          exact FloorConnected.single (hint (r.height - 2) (by omega)) hq
            ((adjacent_iff _ _ _ _).mpr (by omega))
        · refine ⟨1, y1 - (r.top - t0), _, _, by omega, by omega, hline, ?_⟩
          have e : r.top - t0 + (y1 - (r.top - t0)) = y1 := by ring
          rw [e]
          exact Relation.ReflTransGen.refl

/-- A room of width and height at least 3 that the vertical segment of an edge
meets has, after the two corridors of the edge, an interior cell that is
connected with the centre line of the corridor. -/
theorem EdgeStep.hit_vertical {m m2 : Map} {x1 y1 x2 y2 : Int}
    (s : EdgeStep m m2 x1 y1 x2 y2) (l0 t0 : Int) (r : Rect) (hk : RoomKept m l0 t0 r)
    (hw : 3 ≤ r.width) (hh : 3 ≤ r.height)
    (hhit : (r.left - l0 < x2 + 2 ∧ r.left - l0 + r.width > x2 - 1) ∧
      min y1 y2 < r.top - t0 ∧ r.top - t0 + r.height < max y1 y2) :
    ∃ i j c d : Int, (0 < i ∧ i < r.width - 1) ∧ (0 < j ∧ j < r.height - 1) ∧
      OnLine x1 y1 x2 y2 c d ∧
      FloorConnected m2 (r.left - l0 + i, r.top - t0 + j) (c, d) := by
  have hline : OnLine x1 y1 x2 y2 x2 (r.top - t0 + 1) :=
    OnLine.vertical rfl (by omega) (by omega)
  have hq := s.line_floor _ _ hline
  have hint : ∀ i, 0 < i ∧ i < r.width - 1 → IsFloor m2 (r.left - l0 + i) (r.top - t0 + 1) :=
    fun i hi => s.floor_mono _ _ (hk.interior i 1 hi (by omega))
  by_cases c1 : x2 = r.left - l0 - 1
  · -- the right wall of the corridor runs along the left wall of the room
    obtain ⟨hin, hcls⟩ := hk.left 1 (by omega) (by omega)
    have hwall : IsFloor m2 (r.left - l0) (r.top - t0 + 1) := by
      refine ⟨(s.inGrid_iff _ _).mpr hin, ?_⟩
      rw [s.cell _ _ hin]
      unfold edgeRole
      rw [edgeV_right x1 y1 x2 y2 _ _ (by omega) (by omega) (by omega)]
      exact Role.opposite_floor.2.2.1 _ (Role.apply_mem _ leftClass mem_leftClass _ hcls)
    refine ⟨1, 1, _, _, by omega, by omega, hline, ?_⟩
    have p1 := FloorConnected.single (hint 1 (by omega)) hwall
      ((adjacent_iff _ _ _ _).mpr (by omega))
    have p2 := FloorConnected.single hwall hq
      ((adjacent_iff _ _ _ _).mpr (by omega))
    exact p1.trans p2
  · by_cases c2 : x2 = r.left - l0
    · refine ⟨1, 1, _, _, by omega, by omega, hline, ?_⟩
      exact FloorConnected.single (hint 1 (by omega)) hq
        ((adjacent_iff _ _ _ _).mpr (by omega))
    · by_cases c3 : x2 = r.left - l0 + r.width
      · -- the left wall of the corridor runs along the right wall of the room
        obtain ⟨hin, hcls⟩ := hk.right 1 (by omega) (by omega)
        have hwall : IsFloor m2 (r.left - l0 + (r.width - 1)) (r.top - t0 + 1) := by
          refine ⟨(s.inGrid_iff _ _).mpr hin, ?_⟩
          rw [s.cell _ _ hin]
          unfold edgeRole
          rw [edgeV_left x1 y1 x2 y2 _ _ (by omega) (by omega) (by omega)]
          exact Role.opposite_floor.2.2.2 _ (Role.apply_mem _ rightClass mem_rightClass _ hcls)
        refine ⟨r.width - 2, 1, _, _, by omega, by omega, hline, ?_⟩
        have p1 := FloorConnected.single (hint (r.width - 2) (by omega)) hwall
          ((adjacent_iff _ _ _ _).mpr (by omega))
        have p2 := FloorConnected.single hwall hq
          ((adjacent_iff _ _ _ _).mpr (by omega))
        exact p1.trans p2
      · by_cases c4 : x2 = r.left - l0 + (r.width - 1)
        · refine ⟨r.width - 2, 1, _, _, by omega, by omega, hline, ?_⟩
          exact FloorConnected.single (hint (r.width - 2) (by omega)) hq
            ((adjacent_iff _ _ _ _).mpr (by omega))
        · refine ⟨x2 - (r.left - l0), 1, _, _, by omega, by omega, hline, ?_⟩
          have e : r.left - l0 + (x2 - (r.left - l0)) = x2 := by ring
          rw [e]
          exact Relation.ReflTransGen.refl

/-! ## The grid after the rooms -/

/-- Two rooms of positive extent that do not intersect share no cell. -/
theorem rooms_disjoint (r s : Rect) (hr : 0 < r.width ∧ 0 < r.height)
    (hs : 0 < s.width ∧ 0 < s.height) (h : r.intersects s = false) (x y : Int)
    (hx : r.left ≤ x ∧ x < r.left + r.width) (hy : r.top ≤ y ∧ y < r.top + r.height)
    (hx2 : s.left ≤ x ∧ x < s.left + s.width) (hy2 : s.top ≤ y ∧ y < s.top + s.height) :
    False := by
  have h2 : r.intersects s = true := by
    rw [Rect.intersects_iff]
    omega
  rw [h] at h2
  exact Bool.false_ne_true h2

/-- Stamping a list of rooms that pairwise do not intersect leaves every room
of the list as `roomTileAt` describes it and keeps the cells outside them. -/
theorem rooms_stage (l0 t0 : Int) (all : List Rect)
    (hdim : ∀ r ∈ all, 3 ≤ r.width ∧ 3 ≤ r.height)
    (hsep : ∀ r ∈ all, ∀ s ∈ all, r ≠ s → r.intersects s = false) :
    ∀ (rs done : List Rect) (m : Map), (∀ r ∈ rs, r ∈ all) → (∀ r ∈ done, r ∈ all) →
      (∀ r ∈ all, 0 ≤ r.left - l0 ∧ r.left - l0 + r.width ≤ m.width_ ∧
        0 ≤ r.top - t0 ∧ r.top - t0 + r.height ≤ m.height_) →
      (∀ r ∈ done, ∀ i j : Int, 0 ≤ i → i < r.width → 0 ≤ j → j < r.height →
        GetTileTypeAt m (r.left - l0 + i) (r.top - t0 + j) = roomTileAt r i j) →
      (rs.foldl (fun m r => TileRoom m l0 t0 r) m).width_ = m.width_ ∧
      (rs.foldl (fun m r => TileRoom m l0 t0 r) m).height_ = m.height_ ∧
      (∀ r ∈ done ++ rs, ∀ i j : Int, 0 ≤ i → i < r.width → 0 ≤ j → j < r.height →
        GetTileTypeAt (rs.foldl (fun m r => TileRoom m l0 t0 r) m)
          (r.left - l0 + i) (r.top - t0 + j) = roomTileAt r i j) ∧
      (∀ x y : Int, InGrid m x y →
        (∀ r ∈ rs, ¬ (r.left - l0 ≤ x ∧ x < r.left - l0 + r.width ∧
          r.top - t0 ≤ y ∧ y < r.top - t0 + r.height)) →
        GetTileTypeAt (rs.foldl (fun m r => TileRoom m l0 t0 r) m) x y =
          GetTileTypeAt m x y) := by
  intro rs
  induction rs with
  | nil =>
    intro done m _ _ _ hcells
    refine ⟨rfl, rfl, ?_, fun _ _ _ _ => rfl⟩
    intro r hr
    rw [List.append_nil] at hr
    exact hcells r hr
  | cons r rs ih =>
    intro done m hrs hdone hfit hcells
    have hr : r ∈ all := hrs r (List.mem_cons_self _ _)
    have hT := TileRoom_cells m l0 t0 r (by have := hdim r hr; omega)
      (by have := hdim r hr; omega) (hfit r hr)
    have hw1 : (TileRoom m l0 t0 r).width_ = m.width_ := applyWrites_width _ _
    have hh1 : (TileRoom m l0 t0 r).height_ = m.height_ := applyWrites_height _ _
    have ih2 := ih (done ++ [r]) (TileRoom m l0 t0 r)
      (fun q hq => hrs q (List.mem_cons_of_mem _ hq))
      (fun q hq => by
        rcases List.mem_append.mp hq with hq | hq
        · exact hdone q hq
        · rw [List.mem_singleton] at hq
          rw [hq]
          exact hr)
      (fun q hq => by rw [hw1, hh1]; exact hfit q hq)
      (fun q hq i j hi0 hi1 hj0 hj1 => by
        by_cases hqr : q = r
        · rw [hqr] at hi1 hj1 ⊢
          exact hT.1 i j hi0 hi1 hj0 hj1
        · have hqd : q ∈ done := by
            rcases List.mem_append.mp hq with hq | hq
            · exact hq
            · exact absurd (List.mem_singleton.mp hq) hqr
          have hqa := hdone q hqd
          have hfq := hfit q hqa
          rw [hT.2 _ _ (by unfold InGrid; omega) ?_]
          · exact hcells q hqd i j hi0 hi1 hj0 hj1
          · intro hc
            exact rooms_disjoint q r (by have := hdim q hqa; omega)
              (by have := hdim r hr; omega) (hsep q hqa r hr hqr)
              (q.left + i) (q.top + j) (by omega) (by omega) (by omega) (by omega))
    rw [List.foldl_cons]
    refine ⟨ih2.1.trans hw1, ih2.2.1.trans hh1, ?_, ?_⟩
    · intro q hq
      refine ih2.2.2.1 q ?_
      rw [List.append_assoc]
      exact hq
    · intro x y hxy hout
      rw [ih2.2.2.2 x y (by unfold InGrid at hxy ⊢; rw [hw1, hh1]; exact hxy)
        (fun q hq => hout q (List.mem_cons_of_mem _ hq))]
      exact hT.2 x y hxy (hout r (List.mem_cons_self _ _))

/-- The tile of room stamping is one of the sixteen codes. -/
theorem roomTileAt_mem_tileCodes (r : Rect) (i j : Int) : roomTileAt r i j ∈ tileCodes := by
  unfold roomTileAt
  split_ifs <;> decide

/-- A straight wall of a stamped room of width and height at least 3 lies next
to the interior. -/
theorem roomTileAt_wall (r : Rect) (i j : Int) (hw : 3 ≤ r.width) (hh : 3 ≤ r.height)
    (hi : 0 ≤ i ∧ i < r.width) (hj : 0 ≤ j ∧ j < r.height)
    (h : roomTileAt r i j ∈ wallCodes) :
    ((0 < i + 1 ∧ i + 1 < r.width - 1) ∧ (0 < j ∧ j < r.height - 1)) ∨
    ((0 < i - 1 ∧ i - 1 < r.width - 1) ∧ (0 < j ∧ j < r.height - 1)) ∨
    ((0 < i ∧ i < r.width - 1) ∧ (0 < j + 1 ∧ j + 1 < r.height - 1)) ∨
    ((0 < i ∧ i < r.width - 1) ∧ (0 < j - 1 ∧ j - 1 < r.height - 1)) := by
  unfold roomTileAt at h
  split_ifs at h <;> first | exact absurd h (by decide) | omega

theorem roomTileAt_floor (r : Rect) (i j : Int) (hi : 0 ≤ i ∧ i < r.width)
    (hj : 0 ≤ j ∧ j < r.height) (h : roomTileAt r i j = FLOOR_TEXTURE) :
    (0 < i ∧ i < r.width - 1) ∧ (0 < j ∧ j < r.height - 1) := by
  unfold roomTileAt at h
  split_ifs at h <;> first | exact absurd h (by decide) | omega

theorem roomTileAt_topLeft (r : Rect) (i j : Int) (h : roomTileAt r i j = WALL_TOPLEFT) :
    i = 0 ∧ j = 0 := by
  unfold roomTileAt at h
  split_ifs at h <;> first | exact absurd h (by decide) | omega

theorem roomTileAt_topRight (r : Rect) (i j : Int) (h : roomTileAt r i j = WALL_TOPRIGHT) :
    i = r.width - 1 ∧ j = 0 := by
  unfold roomTileAt at h
  split_ifs at h <;> first | exact absurd h (by decide) | omega

/-! ## From the corridors of an edge to the cells -/

theorem TileCorridorWrites_box_horizontal (l0 t0 : Int) (c : Corridor)
    (hh : c.horizontal = true) (h3 : c.height = 3) (hw : 1 ≤ c.width) :
    ∀ w ∈ TileCorridorWrites l0 t0 c,
      c.left - l0 - 1 ≤ w.x ∧ w.x ≤ c.left - l0 + c.width ∧
      c.top - t0 ≤ w.y ∧ w.y ≤ c.top - t0 + 2 := by
  intro w hmem
  simp only [TileCorridorWrites, FillWithFloorWrites, hh, h3, if_true, List.mem_append,
    List.mem_cons, List.mem_singleton, List.not_mem_nil, or_false, List.mem_map,
    List.mem_flatMap, mem_loop] at hmem
  rcases hmem with (((((rfl | rfl | rfl) | ⟨k, hk, rfl⟩) |
    (⟨a, ha, b, hb, rfl⟩ | rfl | rfl)) | ⟨k, hk, rfl⟩) | (rfl | rfl | rfl))
  all_goals
    simp only [fillFloor]
    omega

theorem TileCorridorWrites_box_vertical (l0 t0 : Int) (c : Corridor)
    (hh : c.horizontal = false) (h3 : c.width = 3) (hw : 1 ≤ c.height) :
    ∀ w ∈ TileCorridorWrites l0 t0 c,
      c.left - l0 ≤ w.x ∧ w.x ≤ c.left - l0 + 2 ∧
      c.top - t0 - 1 ≤ w.y ∧ w.y ≤ c.top - t0 + c.height := by
  intro w hmem
  simp only [TileCorridorWrites, FillWithFloorWrites, hh, h3, Bool.false_eq_true, if_false,
    List.mem_append, List.mem_cons, List.mem_singleton, List.not_mem_nil, or_false,
    List.mem_map, List.mem_flatMap, mem_loop] at hmem
  rcases hmem with (((((rfl | rfl | rfl) | ⟨k, hk, rfl⟩) |
    (⟨a, ha, b, hb, rfl⟩ | rfl | rfl)) | ⟨k, hk, rfl⟩) | (rfl | rfl | rfl))
  all_goals
    simp only [fillFloor]
    omega

/-- Stamping the two corridors of an edge whose surroundings lie inside the
grid rewrites every cell by `edgeRole`. -/
theorem stamp_edge (m : Map) (l0 t0 : Int) (e : Edge)
    (hlow : InGrid m (min (e.origin.x - l0) (e.destination.x - l0) - 1)
      (min (e.origin.y - t0) (e.destination.y - t0) - 1))
    (hhigh : InGrid m (max (e.origin.x - l0) (e.destination.x - l0) + 1)
      (max (e.origin.y - t0) (e.destination.y - t0) + 1))
    (horigin : ∀ x y : Int, e.origin.x - l0 - 1 ≤ x → x ≤ e.origin.x - l0 + 1 →
      e.origin.y - t0 - 1 ≤ y → y ≤ e.origin.y - t0 + 1 →
      GetTileTypeAt m x y = FLOOR_TEXTURE)
    (hcodes : ∀ x y : Int, InGrid m x y → GetTileTypeAt m x y ∈ tileCodes) :
    EdgeStep m ((edgeCorridors e).foldl (fun m c => TileCorridor m l0 t0 c) m)
      (e.origin.x - l0) (e.origin.y - t0) (e.destination.x - l0) (e.destination.y - t0) := by
  rw [edgeCorridors_eq]
  simp only [List.foldl_cons, List.foldl_nil]
  have hwx : |e.origin.x - e.destination.x| + 1 =
      max (e.origin.x - l0) (e.destination.x - l0) -
        min (e.origin.x - l0) (e.destination.x - l0) + 1 := by
    rcases abs_cases (e.origin.x - e.destination.x) with ⟨h1, _⟩ | ⟨h1, _⟩ <;> rw [h1] <;> omega
  have hwy : |e.origin.y - e.destination.y| + 1 =
      max (e.origin.y - t0) (e.destination.y - t0) -
        min (e.origin.y - t0) (e.destination.y - t0) + 1 := by
    rcases abs_cases (e.origin.y - e.destination.y) with ⟨h1, _⟩ | ⟨h1, _⟩ <;> rw [h1] <;> omega
  have hminx : min e.origin.x e.destination.x - l0 =
      min (e.origin.x - l0) (e.destination.x - l0) := by omega
  have hminy : min e.origin.y e.destination.y - t0 =
      min (e.origin.y - t0) (e.destination.y - t0) := by omega
  have hinh : ∀ w ∈ TileCorridorWrites l0 t0
      (Corridor.new (min e.origin.x e.destination.x) (e.origin.y - 1)
        (|e.origin.x - e.destination.x| + 1) 3 true), InGrid m w.x w.y := by
    intro w hw
    have hb := TileCorridorWrites_box_horizontal l0 t0
      (Corridor.new (min e.origin.x e.destination.x) (e.origin.y - 1)
        (|e.origin.x - e.destination.x| + 1) 3 true) rfl rfl
      (by show 1 ≤ |e.origin.x - e.destination.x| + 1; omega) w hw
    have e1 : (Corridor.new (min e.origin.x e.destination.x) (e.origin.y - 1)
        (|e.origin.x - e.destination.x| + 1) 3 true).left =
        min e.origin.x e.destination.x := rfl
    have e2 : (Corridor.new (min e.origin.x e.destination.x) (e.origin.y - 1)
        (|e.origin.x - e.destination.x| + 1) 3 true).top = e.origin.y - 1 := rfl
    have e3 : (Corridor.new (min e.origin.x e.destination.x) (e.origin.y - 1)
        (|e.origin.x - e.destination.x| + 1) 3 true).width =
        |e.origin.x - e.destination.x| + 1 := rfl
    rw [e1, e2, e3, hwx] at hb
    unfold InGrid at hlow hhigh ⊢
    omega
  have hinv : ∀ w ∈ TileCorridorWrites l0 t0
      (Corridor.new (e.destination.x - 1) (min e.origin.y e.destination.y) 3
        (|e.origin.y - e.destination.y| + 1) false),
      InGrid (TileCorridor m l0 t0
        (Corridor.new (min e.origin.x e.destination.x) (e.origin.y - 1)
          (|e.origin.x - e.destination.x| + 1) 3 true)) w.x w.y := by
    intro w hw
    have hb := TileCorridorWrites_box_vertical l0 t0
      (Corridor.new (e.destination.x - 1) (min e.origin.y e.destination.y) 3
        (|e.origin.y - e.destination.y| + 1) false) rfl rfl
      (by show 1 ≤ |e.origin.y - e.destination.y| + 1; omega) w hw
    have e1 : (Corridor.new (e.destination.x - 1) (min e.origin.y e.destination.y) 3
        (|e.origin.y - e.destination.y| + 1) false).left = e.destination.x - 1 := rfl
    have e2 : (Corridor.new (e.destination.x - 1) (min e.origin.y e.destination.y) 3
        (|e.origin.y - e.destination.y| + 1) false).top =
        min e.origin.y e.destination.y := rfl
    have e3 : (Corridor.new (e.destination.x - 1) (min e.origin.y e.destination.y) 3
        (|e.origin.y - e.destination.y| + 1) false).height =
        |e.origin.y - e.destination.y| + 1 := rfl
    rw [e1, e2, e3, hwy] at hb
    rw [TileCorridor, InGrid_applyWrites]
    unfold InGrid at hlow hhigh ⊢
    omega
  refine ⟨?_, ?_, ?_, hlow, hhigh, horigin, hcodes⟩
  · simp only [TileCorridor, applyWrites_width]
  · simp only [TileCorridor, applyWrites_height]
  · intro x y hxy
    have h1 : GetTileTypeAt (TileCorridor m l0 t0
        (Corridor.new (min e.origin.x e.destination.x) (e.origin.y - 1)
          (|e.origin.x - e.destination.x| + 1) 3 true)) x y =
        (hKind (min e.origin.x e.destination.x - l0) (e.origin.y - 1 - t0)
          (|e.origin.x - e.destination.x| + 1) x y).apply (GetTileTypeAt m x y) :=
      TileCorridor_horizontal m l0 t0
      (Corridor.new (min e.origin.x e.destination.x) (e.origin.y - 1)
        (|e.origin.x - e.destination.x| + 1) 3 true) rfl rfl
        (by show 1 ≤ |e.origin.x - e.destination.x| + 1; omega) hinh x y hxy
    have h2 : GetTileTypeAt (TileCorridor (TileCorridor m l0 t0
        (Corridor.new (min e.origin.x e.destination.x) (e.origin.y - 1)
          (|e.origin.x - e.destination.x| + 1) 3 true)) l0 t0
        (Corridor.new (e.destination.x - 1) (min e.origin.y e.destination.y) 3
          (|e.origin.y - e.destination.y| + 1) false)) x y =
        (vKind (e.destination.x - 1 - l0) (min e.origin.y e.destination.y - t0)
          (|e.origin.y - e.destination.y| + 1) x y).apply
          (GetTileTypeAt (TileCorridor m l0 t0
            (Corridor.new (min e.origin.x e.destination.x) (e.origin.y - 1)
              (|e.origin.x - e.destination.x| + 1) 3 true)) x y) :=
      TileCorridor_vertical _ l0 t0
      (Corridor.new (e.destination.x - 1) (min e.origin.y e.destination.y) 3
        (|e.origin.y - e.destination.y| + 1) false) rfl rfl
        (by show 1 ≤ |e.origin.y - e.destination.y| + 1; omega) hinv x y
        (by rw [TileCorridor, InGrid_applyWrites]; exact hxy)
    rw [h2, h1, hwx, hwy, hminx, hminy]
    have e1 : e.origin.y - 1 - t0 = e.origin.y - t0 - 1 := by ring
    have e2 : e.destination.x - 1 - l0 = e.destination.x - l0 - 1 := by ring
    rw [e1, e2]
    rfl

/-! ## The invariant of the corridor loop -/

/-- The two corridors of one more edge keep the invariant. -/
theorem FloorInv.step {m0 m m2 : Map} {l0 t0 : Int} {rooms : List Rect} {done : List Edge}
    (inv : FloorInv m0 m l0 t0 rooms done) (e : Edge)
    (s : EdgeStep m m2 (e.origin.x - l0) (e.origin.y - t0) (e.destination.x - l0)
      (e.destination.y - t0))
    (hdim : ∀ r ∈ rooms, 3 ≤ r.width ∧ 3 ≤ r.height) :
    FloorInv m0 m2 l0 t0 rooms (done ++ [e]) := by
  have hmem : ∀ c : Edge, c ∈ done ++ [e] → c ∈ done ∨ c = e := by
    intro c hc
    rcases List.mem_append.mp hc with h | h
    · exact Or.inl h
    · exact Or.inr (List.mem_singleton.mp h)
  refine ⟨s.width_eq.trans inv.width_eq, s.height_eq.trans inv.height_eq,
    fun r hr => s.roomKept (inv.kept r hr), ?_, s.wallsBacked inv.backed inv.flanked,
    s.cornersFlanked inv.flanked, fun x y h => s.floor_mono x y (inv.mono x y h), ?_, ?_, ?_⟩
  · intro x y hxy
    have hxy1 := (s.inGrid_iff x y).mp hxy
    exact s.class_mono tileCodes mem_tileCodes x y hxy1 (inv.codes x y hxy1)
  · intro c hc a b hab
    rcases hmem c hc with h | h
    · exact s.floor_mono a b (inv.lines c h a b hab)
    · rw [h] at hab
      exact s.line_floor a b hab
  · intro x y h2
    by_cases h1 : IsFloor m x y
    · obtain ⟨a, b, hconn, hanc⟩ := inv.anchored x y h1
      refine ⟨a, b, hconn.mono s.floor_mono, ?_⟩
      rcases hanc with h | ⟨c, hc, h⟩
      · exact Or.inl h
      · exact Or.inr ⟨c, List.mem_append_left _ hc, h⟩
    · rcases s.new_floor inv.backed x y h2 h1 with h | ⟨a, b, hadj, hfl, h | h⟩
      · exact ⟨x, y, Relation.ReflTransGen.refl, Or.inr ⟨e, by simp, h⟩⟩
      · exact ⟨a, b, FloorConnected.single h2 hfl hadj, Or.inr ⟨e, by simp, h⟩⟩
      · obtain ⟨a2, b2, hconn, hanc⟩ := inv.anchored a b h
        refine ⟨a2, b2, (FloorConnected.single h2 hfl hadj).trans (hconn.mono s.floor_mono), ?_⟩
        rcases hanc with h | ⟨c, hc, h⟩
        · exact Or.inl h
        · exact Or.inr ⟨c, List.mem_append_left _ hc, h⟩
  · intro c hc r hr hhit
    rcases hmem c hc with h | h
    · obtain ⟨i, j, a, b, hi, hj, hab, hconn⟩ := inv.hits c h r hr hhit
      exact ⟨i, j, a, b, hi, hj, hab, hconn.mono s.floor_mono⟩
    · rw [h] at hhit ⊢
      have hd := hdim r hr
      rcases hhit with hhit | hhit
      · rw [hitsHorizontal_iff] at hhit
        exact s.hit_horizontal l0 t0 r (inv.kept r hr) hd.1 hd.2 (by omega)
      · rw [hitsVertical_iff] at hhit
        exact s.hit_vertical l0 t0 r (inv.kept r hr) hd.1 hd.2 (by omega)

theorem IsLarge_dims (r : Rect) (h : IsLarge r = true) : 6 ≤ r.width ∧ 6 ≤ r.height := by
  unfold IsLarge ROOM_DIE_SIZE ROOM_DICE at h
  simp only [Bool.and_eq_true, decide_eq_true_eq] at h
  omega

/-- The centroid of a large room lies at least three cells inside each of its
four sides. -/
theorem large_centroid (r : Rect) (h : IsLarge r = true) :
    r.left + 3 ≤ r.centroid.x ∧ r.centroid.x + 3 ≤ r.left + r.width ∧
    r.top + 3 ≤ r.centroid.y ∧ r.centroid.y + 3 ≤ r.top + r.height := by
  have hd := IsLarge_dims r h
  unfold Rect.centroid
  simp only
  rw [Int.tdiv_eq_ediv (by omega) (by decide), Int.tdiv_eq_ediv (by omega) (by decide)]
  omega

theorem RoomKept.fits {m : Map} {l0 t0 : Int} {r : Rect} (h : RoomKept m l0 t0 r)
    (hw : 1 ≤ r.width) (hh : 1 ≤ r.height) :
    0 ≤ r.left - l0 ∧ r.left - l0 + r.width ≤ m.width_ ∧
      0 ≤ r.top - t0 ∧ r.top - t0 + r.height ≤ m.height_ := by
  have h1 := (h 0 0 (by omega) (by omega) (by omega) (by omega)).1
  have h2 := (h (r.width - 1) (r.height - 1) (by omega) (by omega) (by omega) (by omega)).1
  unfold InGrid at h1 h2
  omega

/-- The corridors of a list of edges between centroids of large rooms keep the
invariant. -/
theorem FloorInv.fold (m0 : Map) (l0 t0 : Int) (rooms : List Rect)
    (hdim : ∀ r ∈ rooms, 3 ≤ r.width ∧ 3 ≤ r.height) :
    ∀ (rest done : List Edge) (m : Map), FloorInv m0 m l0 t0 rooms done →
      (∀ e ∈ rest, e.JoinsLarge rooms) →
      FloorInv m0 ((rest.flatMap edgeCorridors).foldl (fun m c => TileCorridor m l0 t0 c) m)
        l0 t0 rooms (done ++ rest) := by
  intro rest
  induction rest with
  | nil =>
    intro done m inv _
    rw [List.append_nil]
    exact inv
  | cons e rest ih =>
    intro done m inv hjoin
    obtain ⟨⟨A, hA, hAl, hAc⟩, ⟨B, hB, hBl, hBc⟩⟩ := hjoin e (List.mem_cons_self _ _)
    have cA := large_centroid A hAl
    have cB := large_centroid B hBl
    have dA := IsLarge_dims A hAl
    have dB := IsLarge_dims B hBl
    have fA := (inv.kept A hA).fits (by omega) (by omega)
    have fB := (inv.kept B hB).fits (by omega) (by omega)
    rw [hAc] at cA
    rw [hBc] at cB
    have s := stamp_edge m l0 t0 e (by unfold InGrid; omega) (by unfold InGrid; omega)
      (fun x y hx1 hx2 hy1 hy2 => by
        have h := (inv.kept A hA).interior (x - (A.left - l0)) (y - (A.top - t0))
          (by omega) (by omega)
        have e1 : A.left - l0 + (x - (A.left - l0)) = x := by ring
        have e2 : A.top - t0 + (y - (A.top - t0)) = y := by ring
        rw [e1, e2] at h
        exact h.2)
      inv.codes
    have inv2 := inv.step e s hdim
    have h := ih (done ++ [e]) _ inv2 (fun c hc => hjoin c (List.mem_cons_of_mem _ hc))
    rw [List.flatMap_cons, List.foldl_append]
    rw [List.append_assoc] at h
    exact h

/-! ## The grid after the rooms satisfies the invariant -/

/-- After the rooms every cell of the grid lies in a room and holds its
`roomTileAt`, or holds the background. -/
theorem rooms_cells (m1 : Map) (l0 t0 : Int) (rooms : List Rect)
    (hbg : ∀ x y : Int, InGrid m1 x y → GetTileTypeAt m1 x y = WALL_TEXTURE)
    (hdim : ∀ r ∈ rooms, 3 ≤ r.width ∧ 3 ≤ r.height)
    (hsep : ∀ r ∈ rooms, ∀ s ∈ rooms, r ≠ s → r.intersects s = false)
    (hfit : ∀ r ∈ rooms, 0 ≤ r.left - l0 ∧ r.left - l0 + r.width ≤ m1.width_ ∧
      0 ≤ r.top - t0 ∧ r.top - t0 + r.height ≤ m1.height_) (x y : Int)
    (hxy : InGrid (rooms.foldl (fun m r => TileRoom m l0 t0 r) m1) x y) :
    (∃ r ∈ rooms, ∃ i j : Int, (0 ≤ i ∧ i < r.width) ∧ (0 ≤ j ∧ j < r.height) ∧
      x = r.left - l0 + i ∧ y = r.top - t0 + j ∧
      GetTileTypeAt (rooms.foldl (fun m r => TileRoom m l0 t0 r) m1) x y = roomTileAt r i j) ∨
    GetTileTypeAt (rooms.foldl (fun m r => TileRoom m l0 t0 r) m1) x y = WALL_TEXTURE := by
  obtain ⟨hw, hh, hin, hout⟩ := rooms_stage l0 t0 rooms hdim hsep rooms [] m1
    (fun _ h => h) (fun _ h => absurd h (List.not_mem_nil _)) hfit
    (fun _ h => absurd h (List.not_mem_nil _))
  have hxy1 : InGrid m1 x y := by
    unfold InGrid at hxy ⊢
    rw [hw, hh] at hxy
    exact hxy
  by_cases hex : ∃ r ∈ rooms, r.left - l0 ≤ x ∧ x < r.left - l0 + r.width ∧
      r.top - t0 ≤ y ∧ y < r.top - t0 + r.height
  · obtain ⟨r, hr, hpos⟩ := hex
    refine Or.inl ⟨r, hr, x - (r.left - l0), y - (r.top - t0), by omega, by omega, by ring,
      by ring, ?_⟩
    have h := hin r (by simpa using hr) (x - (r.left - l0)) (y - (r.top - t0)) (by omega)
      (by omega) (by omega) (by omega)
    have e1 : r.left - l0 + (x - (r.left - l0)) = x := by ring
    have e2 : r.top - t0 + (y - (r.top - t0)) = y := by ring
    rw [e1, e2] at h
    exact h
  · refine Or.inr ?_
    rw [hout x y hxy1 (fun r hr hpos => hex ⟨r, hr, hpos⟩)]
    exact hbg x y hxy1

/-- The grid after the rooms satisfies the invariant of the corridor loop. -/
theorem FloorInv.base (m1 : Map) (l0 t0 : Int) (rooms : List Rect)
    (hbg : ∀ x y : Int, InGrid m1 x y → GetTileTypeAt m1 x y = WALL_TEXTURE)
    (hdim : ∀ r ∈ rooms, 3 ≤ r.width ∧ 3 ≤ r.height)
    (hsep : ∀ r ∈ rooms, ∀ s ∈ rooms, r ≠ s → r.intersects s = false)
    (hfit : ∀ r ∈ rooms, 0 ≤ r.left - l0 ∧ r.left - l0 + r.width ≤ m1.width_ ∧
      0 ≤ r.top - t0 ∧ r.top - t0 + r.height ≤ m1.height_) :
    FloorInv (rooms.foldl (fun m r => TileRoom m l0 t0 r) m1)
      (rooms.foldl (fun m r => TileRoom m l0 t0 r) m1) l0 t0 rooms [] := by
  obtain ⟨hw, hh, hin, _⟩ := rooms_stage l0 t0 rooms hdim hsep rooms [] m1
    (fun _ h => h) (fun _ h => absurd h (List.not_mem_nil _)) hfit
    (fun _ h => absurd h (List.not_mem_nil _))
  have hcells := rooms_cells m1 l0 t0 rooms hbg hdim hsep hfit
  have hkept : ∀ r ∈ rooms,
      RoomKept (rooms.foldl (fun m r => TileRoom m l0 t0 r) m1) l0 t0 r := by
    intro r hr i j hi0 hi1 hj0 hj1
    have hf := hfit r hr
    refine ⟨by unfold InGrid; rw [hw, hh]; omega, fun C _ hmem => ?_⟩
    rw [hin r (by simpa using hr) i j hi0 hi1 hj0 hj1]
    exact hmem
  refine ⟨rfl, rfl, hkept, ?_, ?_, ?_, fun _ _ h => h,
    fun _ h => absurd h (List.not_mem_nil _),
    fun x y h => ⟨x, y, Relation.ReflTransGen.refl, Or.inl h⟩,
    fun _ h => absurd h (List.not_mem_nil _)⟩
  · intro x y hxy
    rcases hcells x y hxy with ⟨r, _, i, j, _, _, _, _, hv⟩ | hv
    · rw [hv]
      exact roomTileAt_mem_tileCodes r i j
    · rw [hv]
      decide
  · intro x y hxy hwall
    rcases hcells x y hxy with ⟨r, hr, i, j, hi, hj, hx, hy, hv⟩ | hv
    · rw [hv] at hwall
      have hd := hdim r hr
      rcases roomTileAt_wall r i j hd.1 hd.2 hi hj hwall with h | h | h | h
      · have hf := (hkept r hr).interior (i + 1) j h.1 h.2
        rw [← add_assoc, ← hx, ← hy] at hf
        exact Or.inl hf
      · have hf := (hkept r hr).interior (i - 1) j h.1 h.2
        rw [← add_sub_assoc, ← hx, ← hy] at hf
        exact Or.inr (Or.inl hf)
      · have hf := (hkept r hr).interior i (j + 1) h.1 h.2
        rw [← add_assoc, ← hx, ← hy] at hf
        exact Or.inr (Or.inr (Or.inl hf))
      · have hf := (hkept r hr).interior i (j - 1) h.1 h.2
        rw [← add_sub_assoc, ← hx, ← hy] at hf
        exact Or.inr (Or.inr (Or.inr hf))
    · rw [hv] at hwall
      exact absurd hwall (by decide)
  · intro x y hxy
    constructor
    · intro ht
      rcases hcells x y hxy with ⟨r, hr, i, j, hi, hj, hx, hy, hv⟩ | hv
      · rw [hv] at ht
        have hp := roomTileAt_topLeft r i j ht
        have hd := hdim r hr
        have hf := (hkept r hr).top 1 (by omega) (by omega)
        have ex : x + 1 = r.left - l0 + 1 := by omega
        have ey : y = r.top - t0 := by omega
        rw [ex, ey]
        exact hf
      · rw [hv] at ht
        exact absurd ht (by decide)
    · intro ht
      rcases hcells x y hxy with ⟨r, hr, i, j, hi, hj, hx, hy, hv⟩ | hv
      · rw [hv] at ht
        have hp := roomTileAt_topRight r i j ht
        have hd := hdim r hr
        have hf := (hkept r hr).top (r.width - 2) (by omega) (by omega)
        have ex : x - 1 = r.left - l0 + (r.width - 2) := by omega
        have ey : y = r.top - t0 := by omega
        rw [ex, ey]
        exact hf
      · rw [hv] at ht
        exact absurd ht (by decide)

/-- A floor cell of the grid after the rooms is an interior cell of a room. -/
theorem rooms_floor (m1 : Map) (l0 t0 : Int) (rooms : List Rect)
    (hbg : ∀ x y : Int, InGrid m1 x y → GetTileTypeAt m1 x y = WALL_TEXTURE)
    (hdim : ∀ r ∈ rooms, 3 ≤ r.width ∧ 3 ≤ r.height)
    (hsep : ∀ r ∈ rooms, ∀ s ∈ rooms, r ≠ s → r.intersects s = false)
    (hfit : ∀ r ∈ rooms, 0 ≤ r.left - l0 ∧ r.left - l0 + r.width ≤ m1.width_ ∧
      0 ≤ r.top - t0 ∧ r.top - t0 + r.height ≤ m1.height_) (x y : Int)
    (h : IsFloor (rooms.foldl (fun m r => TileRoom m l0 t0 r) m1) x y) :
    ∃ r ∈ rooms, ∃ i j : Int, (0 < i ∧ i < r.width - 1) ∧ (0 < j ∧ j < r.height - 1) ∧
      x = r.left - l0 + i ∧ y = r.top - t0 + j := by
  rcases rooms_cells m1 l0 t0 rooms hbg hdim hsep hfit x y h.1 with
    ⟨r, hr, i, j, hi, hj, hx, hy, hv⟩ | hv
  · rw [h.2] at hv
    obtain ⟨h1, h2⟩ := roomTileAt_floor r i j hi hj hv.symm
    exact ⟨r, hr, i, j, h1, h2, hx, hy⟩
  · rw [h.2] at hv
    exact absurd hv (by decide)

/-! ## The point set of the spanning tree -/

theorem mem_unique : ∀ (l : List Vert) (a : Vert), a ∈ unique l ↔ a ∈ l
  | [], _ => Iff.rfl
  | [_], _ => Iff.rfl
  | b :: c :: t, a => by
    have ih := mem_unique (c :: t) a
    unfold unique
    split_ifs with h
    · rw [ih, h]
      simp
    · rw [List.mem_cons, ih]
      exact List.mem_cons.symm

/-- The points of `CreateCorridors` are the centroids of the large rooms. -/
theorem mem_centroidBuffer (rooms : List Rect) (p : Vert) :
    p ∈ centroidBuffer rooms ↔ ∃ r ∈ rooms, IsLarge r = true ∧ r.centroid = p := by
  unfold centroidBuffer
  rw [mem_unique, (List.perm_insertionSort _ _).mem_iff, List.mem_map]
  constructor
  · rintro ⟨r, hr, rfl⟩
    rw [List.mem_filter] at hr
    exact ⟨r, hr.1, hr.2, rfl⟩
  · rintro ⟨r, hr, hl, rfl⟩
    exact ⟨r, List.mem_filter.mpr ⟨hr, hl⟩, rfl⟩

/-! ## Connectivity of the floor of the finished grid -/

/-- The floor of the grid made of a background, a list of rooms and the
corridors of a list of edges is connected, when the rooms lie inside the grid,
pairwise do not intersect and are at least 3 wide and high, every edge joins
the centroids of two large rooms, those centroids are joined with each other by
chains of edges, and every room that is not large is met by an edge. -/
theorem grid_floor_connected (W H : Int) (mem : Int → Nat) (l0 t0 : Int) (rooms : List Rect)
    (mst : List Edge) (pts : List Vert)
    (hdim : ∀ r ∈ rooms, 3 ≤ r.width ∧ 3 ≤ r.height)
    (hsep : ∀ r ∈ rooms, ∀ s ∈ rooms, r ≠ s → r.intersects s = false)
    (hfit : ∀ r ∈ rooms, 0 ≤ r.left - l0 ∧ r.left - l0 + r.width ≤ W ∧
      0 ≤ r.top - t0 ∧ r.top - t0 + r.height ≤ H)
    (hjoin : ∀ e ∈ mst, e.JoinsLarge rooms)
    (hends : ∀ e ∈ mst, e.origin ∈ pts)
    (hconn : ∀ p ∈ pts, ∀ q ∈ pts,
      Relation.ReflTransGen
        (fun a b => ∃ e ∈ mst, (e.origin = a ∧ e.destination = b) ∨
          (e.origin = b ∧ e.destination = a)) p q)
    (hlarge : ∀ r ∈ rooms, IsLarge r = true → r.centroid ∈ pts)
    (hmet : ∀ r ∈ rooms, IsLarge r = true ∨
      ∃ e ∈ mst, hitsHorizontal e r = true ∨ hitsVertical e r = true)
    (p q : Int × Int)
    (hp : IsFloor ((mst.flatMap edgeCorridors).foldl (fun m c => TileCorridor m l0 t0 c)
      (rooms.foldl (fun m r => TileRoom m l0 t0 r)
        (applyWrites ⟨W, H, mem⟩ (backgroundWrites W H)))) p.1 p.2)
    (hq : IsFloor ((mst.flatMap edgeCorridors).foldl (fun m c => TileCorridor m l0 t0 c)
      (rooms.foldl (fun m r => TileRoom m l0 t0 r)
        (applyWrites ⟨W, H, mem⟩ (backgroundWrites W H)))) q.1 q.2) :
    FloorConnected ((mst.flatMap edgeCorridors).foldl (fun m c => TileCorridor m l0 t0 c)
      (rooms.foldl (fun m r => TileRoom m l0 t0 r)
        (applyWrites ⟨W, H, mem⟩ (backgroundWrites W H)))) p q := by
  have hbg : ∀ x y : Int, InGrid (applyWrites ⟨W, H, mem⟩ (backgroundWrites W H)) x y →
      GetTileTypeAt (applyWrites ⟨W, H, mem⟩ (backgroundWrites W H)) x y = WALL_TEXTURE :=
    fun x y hxy => backgroundWrites_fill ⟨W, H, mem⟩ x y ((InGrid_applyWrites _ _ x y).mp hxy)
  have hfit1 : ∀ r ∈ rooms, 0 ≤ r.left - l0 ∧
      r.left - l0 + r.width ≤ (applyWrites ⟨W, H, mem⟩ (backgroundWrites W H)).width_ ∧
      0 ≤ r.top - t0 ∧
      r.top - t0 + r.height ≤ (applyWrites ⟨W, H, mem⟩ (backgroundWrites W H)).height_ := by
    intro r hr
    rw [applyWrites_width, applyWrites_height]
    exact hfit r hr
  have base := FloorInv.base _ l0 t0 rooms hbg hdim hsep hfit1
  have hfloor0 := rooms_floor _ l0 t0 rooms hbg hdim hsep hfit1
  have inv := FloorInv.fold _ l0 t0 rooms hdim mst [] _ base hjoin
  rw [List.nil_append] at inv
  generalize (rooms.foldl (fun m r => TileRoom m l0 t0 r)
    (applyWrites ⟨W, H, mem⟩ (backgroundWrites W H))) = m0 at *
  generalize ((mst.flatMap edgeCorridors).foldl (fun m c => TileCorridor m l0 t0 c) m0) = m at *
  -- the centre lines of one edge
  have key1 : ∀ e ∈ mst, ∀ a b c d : Int, e.Covers l0 t0 a b → e.Covers l0 t0 c d →
      FloorConnected m (a, b) (c, d) :=
    fun e he a b c d hab hcd => line_connected m _ _ _ _ (inv.lines e he) a b c d hab hcd
  -- the points of the tree
  have key2 : ∀ a b : Vert,
      Relation.ReflTransGen
        (fun a b => ∃ e ∈ mst, (e.origin = a ∧ e.destination = b) ∨
          (e.origin = b ∧ e.destination = a)) a b →
      FloorConnected m (a.x - l0, a.y - t0) (b.x - l0, b.y - t0) := by
    intro a b hab
    induction hab with
    | refl => exact Relation.ReflTransGen.refl
    | tail _ hstep ih =>
      refine ih.trans ?_
      obtain ⟨e, he, ⟨h1, h2⟩ | ⟨h1, h2⟩⟩ := hstep
      · rw [← h1, ← h2]
        exact key1 e he _ _ _ _ (OnLine.origin _ _ _ _) (OnLine.destination _ _ _ _)
      · rw [← h1, ← h2]
        exact key1 e he _ _ _ _ (OnLine.destination _ _ _ _) (OnLine.origin _ _ _ _)
  -- every anchor is joined to a point of the tree
  have key3 : ∀ a b : Int, (IsFloor m0 a b ∨ ∃ e ∈ mst, e.Covers l0 t0 a b) →
      ∃ v ∈ pts, FloorConnected m (a, b) (v.x - l0, v.y - t0) := by
    intro a b hanc
    rcases hanc with h0 | ⟨e, he, hcov⟩
    · obtain ⟨r, hr, i, j, hi, hj, hx, hy⟩ := hfloor0 a b h0
      have hint : ∀ x y : Int, r.left - l0 + 1 ≤ x → x ≤ r.left - l0 + (r.width - 2) →
          r.top - t0 + 1 ≤ y → y ≤ r.top - t0 + (r.height - 2) → IsFloor m x y := by
        intro x y hx1 hx2 hy1 hy2
        have h := (inv.kept r hr).interior (x - (r.left - l0)) (y - (r.top - t0))
          (by omega) (by omega)
        have e1 : r.left - l0 + (x - (r.left - l0)) = x := by ring
        have e2 : r.top - t0 + (y - (r.top - t0)) = y := by ring
        rw [e1, e2] at h
        exact h
      rcases hmet r hr with hl | ⟨e, he, hhit⟩
      · have hc := large_centroid r hl
        exact ⟨r.centroid, hlarge r hr hl,
          floor_rect m _ _ _ _ hint a b _ _ (by omega) (by omega) (by omega) (by omega)⟩
      · obtain ⟨i2, j2, c, d, hi2, hj2, hcov, hconn2⟩ := inv.hits e he r hr hhit
        refine ⟨e.origin, hends e he, ?_⟩
        exact ((floor_rect m _ _ _ _ hint a b _ _ (by omega) (by omega) (by omega)
          (by omega)).trans hconn2).trans (key1 e he _ _ _ _ hcov (OnLine.origin _ _ _ _))
    · exact ⟨e.origin, hends e he, key1 e he _ _ _ _ hcov (OnLine.origin _ _ _ _)⟩
  obtain ⟨a, b, hpa, hanc⟩ := inv.anchored p.1 p.2 hp
  obtain ⟨a2, b2, hqa, hanc2⟩ := inv.anchored q.1 q.2 hq
  obtain ⟨v, hv, hav⟩ := key3 a b hanc
  obtain ⟨v2, hv2, hav2⟩ := key3 a2 b2 hanc2
  exact ((hpa.trans hav).trans (key2 v v2 (hconn v hv v2 hv2))).trans (hqa.trans hav2).symm

theorem threeRooms_tree : IsSpanningTree (centroidBuffer threeRooms.rooms_) threeRoomsMST := by
  have hpts : centroidBuffer threeRooms.rooms_ = [⟨3, 3⟩, ⟨13, 5⟩] := by decide
  rw [hpts]
  refine ⟨by decide, ?_, by decide⟩
  intro p hp q hq
  simp only [List.mem_cons, List.mem_singleton, List.not_mem_nil, or_false] at hp hq
  have hmem : (⟨⟨3, 3⟩, ⟨13, 5⟩⟩ : Edge) ∈ threeRoomsMST := by decide
  rcases hp with rfl | rfl <;> rcases hq with rfl | rfl
  · exact Relation.ReflTransGen.refl
  · exact Relation.ReflTransGen.single ⟨_, hmem, Or.inl ⟨rfl, rfl⟩⟩
  · exact Relation.ReflTransGen.single ⟨_, hmem, Or.inr ⟨rfl, rfl⟩⟩
  · exact Relation.ReflTransGen.refl

/-- C14: when the rooms pairwise do not intersect and are at least 3 wide and
high, no corridor exists yet, the edges form a spanning tree over the centroids
of the large rooms, and the bounds enclose the rooms that `CreateCorridors`
leaves, then in the grid that `Map::Map` builds from the result (background
fill, `TileRoom` for each room, `TileCorridor` for each corridor in order) any
two cells holding `FLOOR_TEXTURE` are joined by a path of horizontally or
vertically adjacent floor cells.  The corridors then lie inside the bounds as
well, so that no separate hypothesis on them is needed. -/
theorem floor_cells_connected (d : Dungeon) (mst : List Edge) (mem : Int → Nat)
    (hsep : ∀ r ∈ d.rooms_, ∀ s ∈ d.rooms_, r ≠ s → r.intersects s = false)
    (hdim : ∀ r ∈ d.rooms_, 3 ≤ r.width ∧ 3 ≤ r.height)
    (hcor : d.corridors_ = [])
    (htree : IsSpanningTree (centroidBuffer d.rooms_) mst)
    (henc : ∀ r ∈ (CreateCorridorsFrom d mst).rooms_, (CreateCorridorsFrom d mst).Encloses r)
    (p q : Int × Int)
    (hp : IsFloor (Map.new (CreateCorridorsFrom d mst) mem) p.1 p.2)
    (hq : IsFloor (Map.new (CreateCorridorsFrom d mst) mem) q.1 q.2) :
    FloorConnected (Map.new (CreateCorridorsFrom d mst) mem) p q := by
  have hmap : Map.new (CreateCorridorsFrom d mst) mem =
      (mst.flatMap edgeCorridors).foldl (fun m c => TileCorridor m d.left d.top c)
        ((CreateCorridorsFrom d mst).rooms_.foldl (fun m r => TileRoom m d.left d.top r)
          (applyWrites ⟨d.right - d.left, d.bottom - d.top, mem⟩
            (backgroundWrites (d.right - d.left) (d.bottom - d.top)))) := by
    have hc := CreateCorridorsFrom_corridors d mst
    rw [hcor, List.nil_append] at hc
    unfold Map.new
    simp only
    rw [hc]
    rfl
  rw [hmap] at hp hq ⊢
  have hsub := mem_CreateCorridorsFrom_rooms d mst
  have hpt := mem_centroidBuffer d.rooms_
  have hlargeIn : ∀ v ∈ centroidBuffer d.rooms_, ∀ e ∈ mst,
      ∃ r ∈ (CreateCorridorsFrom d mst).rooms_, IsLarge r = true ∧ r.centroid = v := by
    intro v hv e he
    obtain ⟨r, hr, hl, hc⟩ := (hpt v).mp hv
    exact ⟨r, (hsub r).mpr ⟨hr, e, he, Or.inl hl⟩, hl, hc⟩
  refine grid_floor_connected _ _ mem d.left d.top (CreateCorridorsFrom d mst).rooms_ mst
    (centroidBuffer d.rooms_) (fun r hr => hdim r ((hsub r).mp hr).1)
    (fun r hr s hs hne => hsep r ((hsub r).mp hr).1 s ((hsub s).mp hs).1 hne) ?_ ?_
    (fun e he => (htree.1 e he).1) htree.2.1
    (fun r hr hl => (hpt _).mpr ⟨r, ((hsub r).mp hr).1, hl, rfl⟩) ?_ p q hp hq
  · intro r hr
    have h := henc r hr
    unfold Dungeon.Encloses at h
    have e1 : (CreateCorridorsFrom d mst).left = d.left := rfl
    have e2 : (CreateCorridorsFrom d mst).right = d.right := rfl
    have e3 : (CreateCorridorsFrom d mst).top = d.top := rfl
    have e4 : (CreateCorridorsFrom d mst).bottom = d.bottom := rfl
    rw [e1, e2, e3, e4] at h
    omega
  · intro e he
    exact ⟨hlargeIn _ (htree.1 e he).1 e he, hlargeIn _ (htree.1 e he).2 e he⟩
  · intro r hr
    obtain ⟨_, e, he, h | h⟩ := (hsub r).mp hr
    · exact Or.inl h
    · exact Or.inr ⟨e, he, h⟩

/-- Witness for C14: in the grid of `threeRooms` the interior cell `(1,1)` of
the first large room, the interior cell `(15,6)` of the second and the interior
cell `(7,5)` of the small room are floor, and the first is joined with each of
the two others. -/
theorem floor_cells_connected_witness :
    IsFloor (Map.new (CreateCorridorsFrom threeRooms threeRoomsMST) (fun _ => 0)) 1 1 ∧
    IsFloor (Map.new (CreateCorridorsFrom threeRooms threeRoomsMST) (fun _ => 0)) 15 6 ∧
    IsFloor (Map.new (CreateCorridorsFrom threeRooms threeRoomsMST) (fun _ => 0)) 7 5 ∧
    FloorConnected (Map.new (CreateCorridorsFrom threeRooms threeRoomsMST) (fun _ => 0))
      (1, 1) (15, 6) ∧
    FloorConnected (Map.new (CreateCorridorsFrom threeRooms threeRoomsMST) (fun _ => 0))
      (1, 1) (7, 5) :=
  ⟨by decide, by decide, by decide,
   floor_cells_connected threeRooms threeRoomsMST (fun _ => 0) (by decide) (by decide) rfl
     threeRooms_tree (by decide) (1, 1) (15, 6) (by decide) (by decide),
   floor_cells_connected threeRooms threeRoomsMST (fun _ => 0) (by decide) (by decide) rfl
     threeRooms_tree (by decide) (1, 1) (7, 5) (by decide) (by decide)⟩

/-! # The drift vector, one iteration of the drift, and the corridor stamps -/

/-! ## Lemmas on the drift vector -/

/-- The overlap that `intersects` writes for two intersecting rectangles has
positive width and height. -/
theorem intersection_pos (a b : Rect) (h : a.intersects b = true) :
    0 < (a.intersection b).2.width ∧ 0 < (a.intersection b).2.height := by
  unfold Rect.intersects at h
  unfold Rect.intersection at h ⊢
  simp only at h ⊢
  split_ifs at h ⊢ with hc
  obtain ⟨h1, h2⟩ := hc
  exact ⟨sub_pos.mpr h1, sub_pos.mpr h2⟩

theorem ceilHalf_bounds (b : Bool) (n : Int) (hn : 0 < n) :
    (ceilHalf b n = n ∨ ceilHalf b n = (n + 1) / 2) ∧
    1 ≤ ceilHalf b n ∧ ceilHalf b n ≤ n := by
  unfold ceilHalf
  split_ifs <;> omega

/-- The value of `DriftVector` by the eight ways through its comparisons: the
extent `hor` or `ver` of the overlap, halved or not, with the sign of the
direction chosen. -/
theorem DriftVector_cases (e c : Rect) :
    ∃ bh bv : Bool,
      DriftVector e c =
        if c.centroid.x > e.centroid.x then
          if c.centroid.y > e.centroid.y then
            if e.left - c.left < e.top - c.top then
              ⟨-ceilHalf bh (e.intersection c).2.width, 0⟩
            else ⟨0, -ceilHalf bv (e.intersection c).2.height⟩
          else
            if e.left - c.left < (c.top + c.height) - (e.top + e.height) then
              ⟨-ceilHalf bh (e.intersection c).2.width, 0⟩
            else ⟨0, ceilHalf bv (e.intersection c).2.height⟩
        else
          if c.centroid.y > e.centroid.y then
            if (c.left + c.width) - (e.left + e.width) < e.top - c.top then
              ⟨ceilHalf bh (e.intersection c).2.width, 0⟩
            else ⟨0, -ceilHalf bv (e.intersection c).2.height⟩
          else
            if (c.left + c.width) - (e.left + e.width) <
                (c.top + c.height) - (e.top + e.height) then
              ⟨ceilHalf bh (e.intersection c).2.width, 0⟩
            else ⟨0, ceilHalf bv (e.intersection c).2.height⟩ := by
  unfold DriftVector
  simp only
  split_ifs <;> first | exact ⟨_, true, rfl⟩ | exact ⟨true, _, rfl⟩

/-- C22: for intersecting rectangles `DriftVector` has exactly one non-zero
component, and neither component points towards the centroid of the
collider. -/
theorem DriftVector_points_away (e c : Rect) (h : e.intersects c = true) :
    (((DriftVector e c).x ≠ 0 ∧ (DriftVector e c).y = 0) ∨
      ((DriftVector e c).x = 0 ∧ (DriftVector e c).y ≠ 0)) ∧
    (DriftVector e c).x * (c.centroid.x - e.centroid.x) ≤ 0 ∧
    (DriftVector e c).y * (c.centroid.y - e.centroid.y) ≤ 0 := by
  obtain ⟨bh, bv, hv⟩ := DriftVector_cases e c
  obtain ⟨hw, hh⟩ := intersection_pos e c h
  have bw := (ceilHalf_bounds bh _ hw).2.1
  have bv2 := (ceilHalf_bounds bv _ hh).2.1
  rw [hv]
  split_ifs with h1 h2 h3 h3 h2 h3 h3
  all_goals
    simp only
    refine ⟨?_, ?_, ?_⟩
  all_goals first
    | exact Or.inl ⟨by omega, trivial⟩
    | exact Or.inr ⟨trivial, by omega⟩
    | exact le_of_eq (zero_mul _)
    | nlinarith

/-- Witness for C22: `eastRoom` escapes upwards from `southRoom`, whose
centroid lies below and to the left. -/
theorem DriftVector_points_away_witness :
    eastRoom.intersects southRoom = true ∧
    DriftVector eastRoom southRoom = ⟨0, -1⟩ ∧
    (DriftVector eastRoom southRoom).y * (southRoom.centroid.y - eastRoom.centroid.y) ≤ 0 :=
  ⟨by decide, by decide, (DriftVector_points_away eastRoom southRoom (by decide)).2.2⟩

/-- C23: for intersecting rectangles the non-zero component of `DriftVector`
has as magnitude the extent of the overlap on its axis or that extent halved
and rounded up, `(extent + 1) / 2`; the magnitude is at least 1 and at most the
extent. -/
theorem DriftVector_magnitude (e c : Rect) (h : e.intersects c = true) :
    ((DriftVector e c).y = 0 ∧
      (|(DriftVector e c).x| = (e.intersection c).2.width ∨
        |(DriftVector e c).x| = ((e.intersection c).2.width + 1) / 2) ∧
      1 ≤ |(DriftVector e c).x| ∧ |(DriftVector e c).x| ≤ (e.intersection c).2.width) ∨
    ((DriftVector e c).x = 0 ∧
      (|(DriftVector e c).y| = (e.intersection c).2.height ∨
        |(DriftVector e c).y| = ((e.intersection c).2.height + 1) / 2) ∧
      1 ≤ |(DriftVector e c).y| ∧ |(DriftVector e c).y| ≤ (e.intersection c).2.height) := by
  obtain ⟨bh, bv, hv⟩ := DriftVector_cases e c
  obtain ⟨hw, hh⟩ := intersection_pos e c h
  have bw := ceilHalf_bounds bh _ hw
  have bv2 := ceilHalf_bounds bv _ hh
  have aw : |ceilHalf bh (e.intersection c).2.width| = ceilHalf bh (e.intersection c).2.width :=
    abs_of_pos (by omega)
  have ah : |ceilHalf bv (e.intersection c).2.height| =
      ceilHalf bv (e.intersection c).2.height := abs_of_pos (by omega)
  rw [hv]
  split_ifs with h1 h2 h3 h3 h2 h3 h3
  all_goals
    simp only [abs_neg, aw, ah]
    first
      | exact Or.inl ⟨trivial, bw⟩
      | exact Or.inr ⟨trivial, bv2⟩

/-- Witness for C23: `eastRoom` and `lowerRoom` overlap in a rectangle 5 wide
and 4 high; `eastRoom` escapes upwards by half the height, 2, and `lowerRoom`
downwards by the full height, 4. -/
theorem DriftVector_magnitude_witness :
    eastRoom.intersects lowerRoom = true ∧
    (eastRoom.intersection lowerRoom).2 = ⟨5, 2, 5, 4⟩ ∧
    DriftVector eastRoom lowerRoom = ⟨0, -2⟩ ∧ DriftVector lowerRoom eastRoom = ⟨0, 4⟩ ∧
    (((DriftVector eastRoom lowerRoom).y = 0 ∧
      (|(DriftVector eastRoom lowerRoom).x| = (eastRoom.intersection lowerRoom).2.width ∨
        |(DriftVector eastRoom lowerRoom).x| =
          ((eastRoom.intersection lowerRoom).2.width + 1) / 2) ∧
      1 ≤ |(DriftVector eastRoom lowerRoom).x| ∧
      |(DriftVector eastRoom lowerRoom).x| ≤ (eastRoom.intersection lowerRoom).2.width) ∨
    ((DriftVector eastRoom lowerRoom).x = 0 ∧
      (|(DriftVector eastRoom lowerRoom).y| = (eastRoom.intersection lowerRoom).2.height ∨
        |(DriftVector eastRoom lowerRoom).y| =
          ((eastRoom.intersection lowerRoom).2.height + 1) / 2) ∧
      1 ≤ |(DriftVector eastRoom lowerRoom).y| ∧
      |(DriftVector eastRoom lowerRoom).y| ≤ (eastRoom.intersection lowerRoom).2.height)) :=
  ⟨by decide, by decide, by decide, by decide,
    DriftVector_magnitude eastRoom lowerRoom (by decide)⟩

/-- C24 (counterexample): `eastRoom` and `southRoom` intersect and their
centroids `(8, 3)` and `(3, 6)` are 5 apart horizontally and 3 apart
vertically, yet the vector of `eastRoom` is the vertical `(0, -1)`. -/
theorem DriftVector_not_along_centroid_axis :
    eastRoom.intersects southRoom = true ∧
    eastRoom.centroid = ⟨8, 3⟩ ∧ southRoom.centroid = ⟨3, 6⟩ ∧
    DriftVector eastRoom southRoom = ⟨0, -1⟩ ∧
    ¬ (|southRoom.centroid.x - eastRoom.centroid.x| >
        |southRoom.centroid.y - eastRoom.centroid.y| →
      (DriftVector eastRoom southRoom).y = 0) := by
  decide

/-- C24 (amended): for intersecting rectangles the centroids choose the side
of the escapee that is measured on each axis, the left side when the centroid
of the collider lies further right and the right side otherwise, the upper side
when it lies further down and the lower side otherwise, and the vector is
horizontal exactly when the distance measured on the horizontal axis is the
smaller one, vertical otherwise.  For two rectangles of the same width and the
same height this is the axis with the larger centroid separation. -/
theorem DriftVector_axis (e c : Rect) (h : e.intersects c = true) :
    ((DriftVector e c).y = 0 ↔
      (if c.centroid.x > e.centroid.x then e.left - c.left
        else (c.left + c.width) - (e.left + e.width)) <
      (if c.centroid.y > e.centroid.y then e.top - c.top
        else (c.top + c.height) - (e.top + e.height))) ∧
    ((DriftVector e c).x = 0 ↔
      ¬ ((if c.centroid.x > e.centroid.x then e.left - c.left
          else (c.left + c.width) - (e.left + e.width)) <
        (if c.centroid.y > e.centroid.y then e.top - c.top
          else (c.top + c.height) - (e.top + e.height)))) ∧
    (e.width = c.width → e.height = c.height →
      (|c.centroid.x - e.centroid.x| > |c.centroid.y - e.centroid.y| →
        (DriftVector e c).y = 0) ∧
      (|c.centroid.y - e.centroid.y| > |c.centroid.x - e.centroid.x| →
        (DriftVector e c).x = 0)) := by
  obtain ⟨bh, bv, hv⟩ := DriftVector_cases e c
  obtain ⟨hw, hh⟩ := intersection_pos e c h
  have bw := (ceilHalf_bounds bh _ hw).2.1
  have bv2 := (ceilHalf_bounds bv _ hh).2.1
  have key : ((DriftVector e c).y = 0 ↔
      (if c.centroid.x > e.centroid.x then e.left - c.left
        else (c.left + c.width) - (e.left + e.width)) <
      (if c.centroid.y > e.centroid.y then e.top - c.top
        else (c.top + c.height) - (e.top + e.height))) ∧
    ((DriftVector e c).x = 0 ↔
      ¬ ((if c.centroid.x > e.centroid.x then e.left - c.left
          else (c.left + c.width) - (e.left + e.width)) <
        (if c.centroid.y > e.centroid.y then e.top - c.top
          else (c.top + c.height) - (e.top + e.height)))) := by
    rw [hv]
    split_ifs with h1 h2 h3 h3 h2 h3 h3
    all_goals
      simp only
      constructor <;> constructor <;> intro hx <;> first | trivial | omega
  refine ⟨key.1, key.2, ?_⟩
  intro ew eh
  have cx : c.centroid.x - e.centroid.x = c.left - e.left := by
    unfold Rect.centroid
    simp only
    rw [ew]
    ring
  have cy : c.centroid.y - e.centroid.y = c.top - e.top := by
    unfold Rect.centroid
    simp only
    rw [eh]
    ring
  rw [key.1, key.2, cx, cy]
  have gx : c.centroid.x > e.centroid.x ↔ c.left - e.left > 0 := by
    rw [← cx]
    omega
  have gy : c.centroid.y > e.centroid.y ↔ c.top - e.top > 0 := by
    rw [← cy]
    omega
  constructor
  · intro habs
    rcases abs_cases (c.left - e.left) with ⟨a1, _⟩ | ⟨a1, _⟩ <;>
      rcases abs_cases (c.top - e.top) with ⟨a2, _⟩ | ⟨a2, _⟩ <;>
      rw [a1, a2] at habs <;> split_ifs <;> omega
  · intro habs
    rcases abs_cases (c.left - e.left) with ⟨a1, _⟩ | ⟨a1, _⟩ <;>
      rcases abs_cases (c.top - e.top) with ⟨a2, _⟩ | ⟨a2, _⟩ <;>
      rw [a1, a2] at habs <;> split_ifs <;> omega

/-- Witness for C24: `eastRoom` and `lowerRoom` of `driftExample`; the vector
of `eastRoom` is vertical. -/
theorem DriftVector_axis_witness :
    eastRoom.intersects lowerRoom = true ∧
    ((DriftVector eastRoom lowerRoom).x = 0 ↔
      ¬ ((if lowerRoom.centroid.x > eastRoom.centroid.x then eastRoom.left - lowerRoom.left
          else (lowerRoom.left + lowerRoom.width) - (eastRoom.left + eastRoom.width)) <
        (if lowerRoom.centroid.y > eastRoom.centroid.y then eastRoom.top - lowerRoom.top
          else (lowerRoom.top + lowerRoom.height) - (eastRoom.top + eastRoom.height)))) :=
  ⟨by decide, (DriftVector_axis eastRoom lowerRoom (by decide)).2.1⟩

/-! ## The top-left rule on the corners of the other diagonal -/

/-- C21 (counterexample): among the four codes named as corners of the other
diagonal only `WALL_BOTTOMLEFT` is sent to a bowtie code by
`CorridorTopLeftRewrite`; `WALL_TOPRIGHT` is sent to `WALL_TOPLEFT`,
`WALL_TR_CORNER` is kept and `WALL_BL_CORNER` becomes floor. -/
theorem CorridorTopLeftRewrite_other_diagonal_not_bowtie :
    ¬ (∀ t ∈ [WALL_TOPRIGHT, WALL_BOTTOMLEFT, WALL_TR_CORNER, WALL_BL_CORNER],
        CorridorTopLeftRewrite t = WALL_TR_BL ∨ CorridorTopLeftRewrite t = WALL_TL_BR) := by
  decide

/-- C21 (amended): `CorridorTopLeftRewrite` returns a bowtie code exactly on
the two bottom corners of a room, `WALL_TL_BR` exactly for `WALL_BOTTOMLEFT` and
`WALL_TR_BL` exactly for `WALL_BOTTOMRIGHT`; it sends `WALL_TOPRIGHT` to
`WALL_TOPLEFT`, keeps `WALL_TR_CORNER` and sends `WALL_BL_CORNER` to floor. -/
theorem CorridorTopLeftRewrite_bowtie_iff (t : Nat) :
    (CorridorTopLeftRewrite t = WALL_TL_BR ↔ t = WALL_BOTTOMLEFT) ∧
    (CorridorTopLeftRewrite t = WALL_TR_BL ↔ t = WALL_BOTTOMRIGHT) ∧
    CorridorTopLeftRewrite WALL_TOPRIGHT = WALL_TOPLEFT ∧
    CorridorTopLeftRewrite WALL_TR_CORNER = WALL_TR_CORNER ∧
    CorridorTopLeftRewrite WALL_BL_CORNER = FLOOR_TEXTURE := by
  by_cases h : t < 37
  · revert t
    decide
  · have h37 : 37 ≤ t := Nat.le_of_not_lt h
    have hne := ne_of_ge_37 t h37
    rw [CorridorTopLeftRewrite_default t h37]
    refine ⟨⟨fun hx => absurd hx (by decide), fun hx => absurd hx (hne _ (by decide))⟩,
      ⟨fun hx => absurd hx (by decide), fun hx => absurd hx (hne _ (by decide))⟩,
      by decide, by decide, by decide⟩

/-! ## One iteration of the drift -/

theorem Rect.intersects_comm (a b : Rect) : a.intersects b = b.intersects a := by
  rw [Bool.eq_iff_iff, Rect.intersects_iff, Rect.intersects_iff]
  constructor <;> intro h <;> omega

theorem Vectors.set_ne (vs : Vectors) (k q : Rect) (v : List Vert) (h : q ≠ k) :
    vs.set k v q = vs q := by
  unfold Vectors.set
  exact if_neg h

theorem Vectors.set_self (vs : Vectors) (k : Rect) (v : List Vert) : vs.set k v k = v := by
  unfold Vectors.set
  exact if_pos rfl

theorem Vectors.push_ne (vs : Vectors) (k q : Rect) (v : Vert) (h : q ≠ k) :
    vs.push k v q = vs q := by
  unfold Vectors.push
  exact Vectors.set_ne vs k q _ h

/-- The inner loop leaves the entry of a room alone that is neither the
visited room nor one colliding with it. -/
theorem pushCollisions_untouched (rooms : List Rect) (i : Nat) (x r : Rect) (vs : Vectors)
    (h : ∀ js ∈ rooms.enum, x.intersects js.2 = true → i ≠ js.1 → r ≠ x ∧ r ≠ js.2) :
    pushCollisions rooms i x vs r = vs r := by
  unfold pushCollisions
  generalize rooms.enum = l at h
  induction l generalizing vs with
  | nil => rfl
  | cons a t ih =>
    rw [List.foldl_cons]
    rw [ih _ (fun js hjs => h js (List.mem_cons_of_mem _ hjs))]
    split_ifs with hc
    · simp only [Bool.and_eq_true, decide_eq_true_eq] at hc
      obtain ⟨h1, h2⟩ := h a (List.mem_cons_self _ _) hc.1 hc.2
      simp only
      rw [Vectors.push_ne _ _ _ _ h2, Vectors.push_ne _ _ _ _ h1]
    · rfl

/-- A room that takes part in no collision has no vector collected. -/
theorem collectVectors_untouched (rooms : List Rect) (r : Rect)
    (h : ∀ ir ∈ rooms.enum, ∀ js ∈ rooms.enum, ir.2.intersects js.2 = true → ir.1 ≠ js.1 →
      r ≠ ir.2 ∧ r ≠ js.2) :
    collectVectors rooms r = [] := by
  unfold collectVectors
  suffices key : ∀ (l : List (Nat × Rect)) (acc : Vectors), (∀ ir ∈ l, ir ∈ rooms.enum) →
      acc r = [] →
      (l.foldl (fun acc ir => pushCollisions rooms ir.1 ir.2 (acc.set ir.2 [])) acc) r = [] from
    key rooms.enum _ (fun _ hir => hir) rfl
  intro l
  induction l with
  | nil => intro acc _ hacc; exact hacc
  | cons a t ih =>
    intro acc hl hacc
    rw [List.foldl_cons]
    refine ih _ (fun ir hir => hl ir (List.mem_cons_of_mem _ hir)) ?_
    rw [pushCollisions_untouched rooms a.1 a.2 r _
      (fun js hjs hint hne => h a (hl a (List.mem_cons_self _ _)) js hjs hint hne)]
    by_cases hra : r = a.2
    · rw [hra]
      exact Vectors.set_self _ _ _
    · rw [Vectors.set_ne _ _ _ _ hra]
      exact hacc

/-- On a duplicate-free room set a room that intersects no other room takes
part in no collision. -/
theorem collectVectors_isolated (rooms : List Rect) (hnd : rooms.Nodup) (r : Rect)
    (hr : ∀ s ∈ rooms, s ≠ r → r.intersects s = false) :
    collectVectors rooms r = [] := by
  apply collectVectors_untouched
  rintro ⟨i, a⟩ hia ⟨j, b⟩ hjb hint hne
  rw [List.mk_mem_enum_iff_getElem?] at hia hjb
  simp only at hint hne ⊢
  have ha : a ∈ rooms := List.mem_iff_getElem?.mpr ⟨i, hia⟩
  have hb : b ∈ rooms := List.mem_iff_getElem?.mpr ⟨j, hjb⟩
  have hab : a ≠ b := by
    rintro rfl
    obtain ⟨hi1, hi2⟩ := List.getElem?_eq_some.mp hia
    obtain ⟨hj1, hj2⟩ := List.getElem?_eq_some.mp hjb
    exact hne ((List.Nodup.getElem_inj_iff hnd).mp (hi2.trans hj2.symm))
  constructor
  · rintro rfl
    rw [hr b hb (fun e => hab e.symm)] at hint
    exact Bool.false_ne_true hint
  · rintro rfl
    rw [Rect.intersects_comm, hr a ha hab] at hint
    exact Bool.false_ne_true hint

theorem sgn_range (x : Int) : sgn x = -1 ∨ sgn x = 0 ∨ sgn x = 1 := by
  unfold sgn
  rcases lt_trichotomy x 0 with h | h | h
  · exact Or.inl (Int.sign_eq_neg_one_of_neg h)
  · rw [h]
    exact Or.inr (Or.inl rfl)
  · exact Or.inr (Or.inr (Int.sign_eq_one_of_pos h))

/-- The velocity of a room is the pair of signs of its summed components, also
when no vector was collected for it. -/
theorem velocityOf_eq (vs : Vectors) (r : Rect) :
    velocityOf vs r =
      ⟨sgn ((vs r).foldl (fun x f => x + f.x) 0), sgn ((vs r).foldl (fun y f => y + f.y) 0)⟩ := by
  unfold velocityOf
  split_ifs with h
  · rfl
  · have h0 : vs r = [] := List.length_eq_zero.mp (by omega)
    rw [h0]
    rfl

/-- The new room set holds exactly the images of the old rooms. -/
theorem mem_DriftIterate_rooms (d : Dungeon) (q : Rect) :
    q ∈ (DriftIterate d).rooms_ ↔ ∃ r ∈ d.rooms_,
      q = ⟨r.left + (velocityOf (collectVectors d.rooms_) r).x,
        r.top + (velocityOf (collectVectors d.rooms_) r).y, r.width, r.height⟩ := by
  unfold DriftIterate
  simp only
  generalize collectVectors d.rooms_ = vs
  suffices key : ∀ (l : List Rect) (acc : List Rect × Dungeon),
      q ∈ (l.foldl (fun (acc : List Rect × Dungeon) r =>
        (setInsert ⟨r.left + (velocityOf vs r).x, r.top + (velocityOf vs r).y, r.width,
          r.height⟩ acc.1, UpdateBounds acc.2 r)) acc).1 ↔
      q ∈ acc.1 ∨ ∃ r ∈ l, q = ⟨r.left + (velocityOf vs r).x, r.top + (velocityOf vs r).y,
        r.width, r.height⟩ by
    rw [key d.rooms_ ([], d)]
    simp
  intro l
  induction l with
  | nil => intro acc; simp
  | cons a t ih =>
    intro acc
    rw [List.foldl_cons, ih]
    simp only [mem_setInsert, List.mem_cons, exists_eq_or_imp]
    tauto

/-- The bounds after the iteration are the old bounds updated with every old
room in turn. -/
theorem DriftIterate_bounds_eq (d : Dungeon) :
    (DriftIterate d).top_ = (d.rooms_.foldl UpdateBounds d).top_ ∧
    (DriftIterate d).bottom_ = (d.rooms_.foldl UpdateBounds d).bottom_ ∧
    (DriftIterate d).left_ = (d.rooms_.foldl UpdateBounds d).left_ ∧
    (DriftIterate d).right_ = (d.rooms_.foldl UpdateBounds d).right_ := by
  unfold DriftIterate
  simp only
  generalize collectVectors d.rooms_ = vs
  suffices key : ∀ (l : List Rect) (acc : List Rect × Dungeon),
      (l.foldl (fun (acc : List Rect × Dungeon) r =>
        (setInsert ⟨r.left + (velocityOf vs r).x, r.top + (velocityOf vs r).y, r.width,
          r.height⟩ acc.1, UpdateBounds acc.2 r)) acc).2 = l.foldl UpdateBounds acc.2 by
    rw [key d.rooms_ ([], d)]
    exact ⟨rfl, rfl, rfl, rfl⟩
  intro l
  induction l with
  | nil => intro acc; rfl
  | cons a t ih =>
    intro acc
    rw [List.foldl_cons, ih, List.foldl_cons]

/-- Folding `UpdateBounds` over a list of rooms takes the minimum of the tops
and lefts and the maximum of the bottoms and rights. -/
theorem foldl_UpdateBounds (l : List Rect) : ∀ b : Dungeon,
    ((l.foldl UpdateBounds b).top_ ≤ b.top_ ∧
      (∀ r ∈ l, (l.foldl UpdateBounds b).top_ ≤ r.top) ∧
      ((l.foldl UpdateBounds b).top_ = b.top_ ∨
        ∃ r ∈ l, (l.foldl UpdateBounds b).top_ = r.top)) ∧
    ((l.foldl UpdateBounds b).left_ ≤ b.left_ ∧
      (∀ r ∈ l, (l.foldl UpdateBounds b).left_ ≤ r.left) ∧
      ((l.foldl UpdateBounds b).left_ = b.left_ ∨
        ∃ r ∈ l, (l.foldl UpdateBounds b).left_ = r.left)) ∧
    (b.bottom_ ≤ (l.foldl UpdateBounds b).bottom_ ∧
      (∀ r ∈ l, r.top + r.height ≤ (l.foldl UpdateBounds b).bottom_) ∧
      ((l.foldl UpdateBounds b).bottom_ = b.bottom_ ∨
        ∃ r ∈ l, (l.foldl UpdateBounds b).bottom_ = r.top + r.height)) ∧
    (b.right_ ≤ (l.foldl UpdateBounds b).right_ ∧
      (∀ r ∈ l, r.left + r.width ≤ (l.foldl UpdateBounds b).right_) ∧
      ((l.foldl UpdateBounds b).right_ = b.right_ ∨
        ∃ r ∈ l, (l.foldl UpdateBounds b).right_ = r.left + r.width)) := by
  induction l with
  | nil =>
    intro b
    simp
  | cons a t ih =>
    intro b
    rw [List.foldl_cons]
    obtain ⟨⟨t1, t2, t3⟩, ⟨l1, l2, l3⟩, ⟨b1, b2, b3⟩, ⟨r1, r2, r3⟩⟩ := ih (UpdateBounds b a)
    have et : (UpdateBounds b a).top_ = if b.top_ > a.top then a.top else b.top_ := rfl
    have el : (UpdateBounds b a).left_ = if b.left_ > a.left then a.left else b.left_ := rfl
    have eb : (UpdateBounds b a).bottom_ =
        if b.bottom_ < a.top + a.height then a.top + a.height else b.bottom_ := rfl
    have er : (UpdateBounds b a).right_ =
        if b.right_ < a.left + a.width then a.left + a.width else b.right_ := rfl
    refine ⟨⟨?_, ?_, ?_⟩, ⟨?_, ?_, ?_⟩, ⟨?_, ?_, ?_⟩, ⟨?_, ?_, ?_⟩⟩
    · rw [et] at t1; split_ifs at t1 <;> omega
    · intro r hr
      rcases List.mem_cons.mp hr with rfl | hr
      · rw [et] at t1; split_ifs at t1 <;> omega
      · exact t2 r hr
    · rcases t3 with h | ⟨r, hr, h⟩
      · rw [et] at h
        split_ifs at h
        · exact Or.inr ⟨a, List.mem_cons_self _ _, h⟩
        · exact Or.inl h
      · exact Or.inr ⟨r, List.mem_cons_of_mem _ hr, h⟩
    · rw [el] at l1; split_ifs at l1 <;> omega
    · intro r hr
      rcases List.mem_cons.mp hr with rfl | hr
      · rw [el] at l1; split_ifs at l1 <;> omega
      · exact l2 r hr
    · rcases l3 with h | ⟨r, hr, h⟩
      · rw [el] at h
        split_ifs at h
        · exact Or.inr ⟨a, List.mem_cons_self _ _, h⟩
        · exact Or.inl h
      · exact Or.inr ⟨r, List.mem_cons_of_mem _ hr, h⟩
    · rw [eb] at b1; split_ifs at b1 <;> omega
    · intro r hr
      rcases List.mem_cons.mp hr with rfl | hr
      · rw [eb] at b1; split_ifs at b1 <;> omega
      · exact b2 r hr
    · rcases b3 with h | ⟨r, hr, h⟩
      · rw [eb] at h
        split_ifs at h
        · exact Or.inr ⟨a, List.mem_cons_self _ _, h⟩
        · exact Or.inl h
      · exact Or.inr ⟨r, List.mem_cons_of_mem _ hr, h⟩
    · rw [er] at r1; split_ifs at r1 <;> omega
    · intro r hr
      rcases List.mem_cons.mp hr with rfl | hr
      · rw [er] at r1; split_ifs at r1 <;> omega
      · exact r2 r hr
    · rcases r3 with h | ⟨r, hr, h⟩
      · rw [er] at h
        split_ifs at h
        · exact Or.inr ⟨a, List.mem_cons_self _ _, h⟩
        · exact Or.inl h
      · exact Or.inr ⟨r, List.mem_cons_of_mem _ hr, h⟩

/-- C25: on a duplicate-free room set, the rooms after one `DriftIterate` are
exactly the translated copies of the old rooms: a rectangle is in the new set
if and only if it has the width and height of an old room `r` and the position
`(r.left + sx, r.top + sy)`, where `sx` and `sy` are the signs of the sums of
the x and y components of the vectors collected for `r`, each one of -1, 0, 1;
and an old room that intersects no other room has no vector collected, both
signs 0, and is itself in the new set. -/
theorem DriftIterate_moves_by_signs (d : Dungeon) (hnd : d.rooms_.Nodup) :
    (∀ q : Rect, q ∈ (DriftIterate d).rooms_ ↔ ∃ r ∈ d.rooms_, ∃ sx sy : Int,
      sx = sgn ((collectVectors d.rooms_ r).foldl (fun x f => x + f.x) 0) ∧
      sy = sgn ((collectVectors d.rooms_ r).foldl (fun y f => y + f.y) 0) ∧
      (sx = -1 ∨ sx = 0 ∨ sx = 1) ∧ (sy = -1 ∨ sy = 0 ∨ sy = 1) ∧
      q = ⟨r.left + sx, r.top + sy, r.width, r.height⟩) ∧
    (∀ r ∈ d.rooms_, (∀ s ∈ d.rooms_, s ≠ r → r.intersects s = false) →
      collectVectors d.rooms_ r = [] ∧
      sgn ((collectVectors d.rooms_ r).foldl (fun x f => x + f.x) 0) = 0 ∧
      sgn ((collectVectors d.rooms_ r).foldl (fun y f => y + f.y) 0) = 0 ∧
      r ∈ (DriftIterate d).rooms_) := by
  have hmem : ∀ q : Rect, q ∈ (DriftIterate d).rooms_ ↔ ∃ r ∈ d.rooms_, ∃ sx sy : Int,
      sx = sgn ((collectVectors d.rooms_ r).foldl (fun x f => x + f.x) 0) ∧
      sy = sgn ((collectVectors d.rooms_ r).foldl (fun y f => y + f.y) 0) ∧
      (sx = -1 ∨ sx = 0 ∨ sx = 1) ∧ (sy = -1 ∨ sy = 0 ∨ sy = 1) ∧
      q = ⟨r.left + sx, r.top + sy, r.width, r.height⟩ := by
    intro q
    rw [mem_DriftIterate_rooms]
    constructor
    · rintro ⟨r, hr, hq⟩
      rw [velocityOf_eq] at hq
      exact ⟨r, hr, _, _, rfl, rfl, sgn_range _, sgn_range _, hq⟩
    · rintro ⟨r, hr, sx, sy, hx, hy, _, _, hq⟩
      refine ⟨r, hr, ?_⟩
      rw [velocityOf_eq, hq, hx, hy]
  refine ⟨hmem, ?_⟩
  intro r hr hiso
  have h0 := collectVectors_isolated d.rooms_ hnd r hiso
  refine ⟨h0, ?_, ?_, ?_⟩
  · rw [h0]; rfl
  · rw [h0]; rfl
  · rw [hmem]
    refine ⟨r, hr, 0, 0, ?_, ?_, Or.inr (Or.inl rfl), Or.inr (Or.inl rfl), ?_⟩
    · rw [h0]; rfl
    · rw [h0]; rfl
    · simp

/-- Witness for C25: the third room of `driftExample` intersects neither of
the other two and is carried over unchanged. -/
theorem DriftIterate_moves_by_signs_witness :
    driftExample.rooms_.Nodup ∧
    (collectVectors driftExample.rooms_ ⟨0, 5, 3, 3⟩ = [] ∧
      sgn ((collectVectors driftExample.rooms_ ⟨0, 5, 3, 3⟩).foldl (fun x f => x + f.x) 0) = 0 ∧
      sgn ((collectVectors driftExample.rooms_ ⟨0, 5, 3, 3⟩).foldl (fun y f => y + f.y) 0) = 0 ∧
      (⟨0, 5, 3, 3⟩ : Rect) ∈ (DriftIterate driftExample).rooms_) :=
  ⟨by decide,
    (DriftIterate_moves_by_signs driftExample (by decide)).2 ⟨0, 5, 3, 3⟩ (by decide)
      (by decide)⟩

/-- C26: the rooms `eastRoom` and `southRoom` push each other at a right angle,
`eastRoom` upwards and `southRoom` to the left.  The room visited second has
its entry reset when it is visited, which removes the negated vector the first
room gave it: visited second, `southRoom` collects `(-1, 0)` alone and moves
one cell left, where the sum with the negated vector `(0, 1)` moves it one cell
left and one down; visited first, it keeps both and moves left and down, and
then it is `eastRoom` that loses the vector `(1, 0)` and moves up instead of
up and right. -/
theorem DriftIterate_depends_on_visiting_order :
    eastRoom.intersects southRoom = true ∧
    DriftVector eastRoom southRoom = ⟨0, -1⟩ ∧
    DriftVector southRoom eastRoom = ⟨-1, 0⟩ ∧
    collectVectors [eastRoom, southRoom] eastRoom = [⟨0, -1⟩, ⟨1, 0⟩] ∧
    collectVectors [eastRoom, southRoom] southRoom = [⟨-1, 0⟩] ∧
    collectVectors [southRoom, eastRoom] southRoom = [⟨-1, 0⟩, ⟨0, 1⟩] ∧
    collectVectors [southRoom, eastRoom] eastRoom = [⟨0, -1⟩] ∧
    (DriftIterate ⟨[eastRoom, southRoom], [], 0, 0, 0, 0⟩).rooms_ =
      [⟨6, -1, 6, 6⟩, ⟨-1, 5, 6, 3⟩] ∧
    (DriftIterate ⟨[southRoom, eastRoom], [], 0, 0, 0, 0⟩).rooms_ =
      [⟨-1, 6, 6, 3⟩, ⟨5, -1, 6, 6⟩] := by
  decide

/-- C27: after one `DriftIterate` the top is the minimum of the old top and
the tops of the rooms as they were before the move (it is at most each of them
and equal to one of them), the left likewise, and the bottom and the right are
the maxima of the old value and the far sides of those rooms; so every bound
has moved outwards or stayed and the bounds enclose every room of the old
set. -/
theorem DriftIterate_bounds (d : Dungeon) :
    ((DriftIterate d).top_ ≤ d.top_ ∧
      (∀ r ∈ d.rooms_, (DriftIterate d).top_ ≤ r.top) ∧
      ((DriftIterate d).top_ = d.top_ ∨ ∃ r ∈ d.rooms_, (DriftIterate d).top_ = r.top)) ∧
    ((DriftIterate d).left_ ≤ d.left_ ∧
      (∀ r ∈ d.rooms_, (DriftIterate d).left_ ≤ r.left) ∧
      ((DriftIterate d).left_ = d.left_ ∨ ∃ r ∈ d.rooms_, (DriftIterate d).left_ = r.left)) ∧
    (d.bottom_ ≤ (DriftIterate d).bottom_ ∧
      (∀ r ∈ d.rooms_, r.top + r.height ≤ (DriftIterate d).bottom_) ∧
      ((DriftIterate d).bottom_ = d.bottom_ ∨
        ∃ r ∈ d.rooms_, (DriftIterate d).bottom_ = r.top + r.height)) ∧
    (d.right_ ≤ (DriftIterate d).right_ ∧
      (∀ r ∈ d.rooms_, r.left + r.width ≤ (DriftIterate d).right_) ∧
      ((DriftIterate d).right_ = d.right_ ∨
        ∃ r ∈ d.rooms_, (DriftIterate d).right_ = r.left + r.width)) ∧
    (∀ r ∈ d.rooms_, (DriftIterate d).Encloses r) := by
  obtain ⟨e1, e2, e3, e4⟩ := DriftIterate_bounds_eq d
  obtain ⟨ht, hl, hb, hr⟩ := foldl_UpdateBounds d.rooms_ d
  rw [← e1] at ht
  rw [← e2] at hb
  rw [← e3] at hl
  rw [← e4] at hr
  refine ⟨ht, hl, hb, hr, ?_⟩
  intro r hmem
  exact ⟨hl.2.1 r hmem, hr.2.1 r hmem, ht.2.1 r hmem, hb.2.1 r hmem⟩

/-! ## The floor run of a corridor and its border -/

theorem TileCorridor_horizontal_caps (m : Map) (left0 top0 : Int) (c : Corridor)
    (hh : c.horizontal = true)
    (hin : ∀ w ∈ TileCorridorWrites left0 top0 c, InGrid m w.x w.y) :
    InGrid m (c.left - left0 - 1) (c.top - top0) ∧
    InGrid m (c.left - left0 + c.width) (c.top - top0 + 2) :=
  ⟨hin ⟨c.left - left0 - 1, c.top - top0, CorridorTopLeftRewrite⟩
      (by unfold TileCorridorWrites; simp [hh]),
    hin ⟨c.left - left0 + c.width, c.top - top0 + 2, CorridorBottomRightRewrite⟩
      (by unfold TileCorridorWrites; simp [hh])⟩

theorem TileCorridor_vertical_caps (m : Map) (left0 top0 : Int) (c : Corridor)
    (hh : c.horizontal = false)
    (hin : ∀ w ∈ TileCorridorWrites left0 top0 c, InGrid m w.x w.y) :
    InGrid m (c.left - left0) (c.top - top0 - 1) ∧
    InGrid m (c.left - left0 + 2) (c.top - top0 + c.height) :=
  ⟨hin ⟨c.left - left0, c.top - top0 - 1, CorridorTopLeftRewrite⟩
      (by unfold TileCorridorWrites; simp [hh]),
    hin ⟨c.left - left0 + 2, c.top - top0 + c.height, CorridorBottomRightRewrite⟩
      (by unfold TileCorridorWrites; simp [hh])⟩

/-- C28: for every grid, after `TileCorridor` has stamped a horizontal corridor
of height 3 and width at least 1 whose written cells lie inside the grid, every
cell of the centre row, row `top + 1` in the columns `left .. left + width - 1`
(grid coordinates: less the bounds `left0`, `top0`), holds `FLOOR_TEXTURE`; and
after it has stamped a vertical corridor of width 3 and height at least 1, every
cell of the centre column, column `left + 1` in the rows
`top .. top + height - 1`, holds `FLOOR_TEXTURE`. -/
theorem TileCorridor_centre_floor (m : Map) (left0 top0 : Int) (c : Corridor)
    (hin : ∀ w ∈ TileCorridorWrites left0 top0 c, InGrid m w.x w.y) :
    (c.horizontal = true → c.height = 3 → 1 ≤ c.width →
      ∀ x : Int, c.left ≤ x → x ≤ c.left + c.width - 1 →
        IsFloor (TileCorridor m left0 top0 c) (x - left0) (c.top + 1 - top0)) ∧
    (c.horizontal = false → c.width = 3 → 1 ≤ c.height →
      ∀ y : Int, c.top ≤ y → y ≤ c.top + c.height - 1 →
        IsFloor (TileCorridor m left0 top0 c) (c.left + 1 - left0) (y - top0)) := by
  constructor
  · intro hh h3 hw x hx1 hx2
    obtain ⟨hcapL, hcapR⟩ := TileCorridor_horizontal_caps m left0 top0 c hh hin
    have hxy : InGrid m (x - left0) (c.top + 1 - top0) := by
      unfold InGrid at hcapL hcapR ⊢
      omega
    have hk := hKind_floor (c.left - left0) (c.top - top0) c.width (x - left0)
      (c.top + 1 - top0) hw (by omega)
    refine ⟨by rw [TileCorridor, InGrid_applyWrites]; exact hxy, ?_⟩
    rw [TileCorridor_horizontal m left0 top0 c hh h3 hw hin _ _ hxy, hk]
    rfl
  · intro hh h3 hw y hy1 hy2
    obtain ⟨hcapT, hcapB⟩ := TileCorridor_vertical_caps m left0 top0 c hh hin
    have hxy : InGrid m (c.left + 1 - left0) (y - top0) := by
      unfold InGrid at hcapT hcapB ⊢
      omega
    have hk := vKind_floor (c.left - left0) (c.top - top0) c.height (c.left + 1 - left0)
      (y - top0) hw (by omega)
    refine ⟨by rw [TileCorridor, InGrid_applyWrites]; exact hxy, ?_⟩
    rw [TileCorridor_vertical m left0 top0 c hh h3 hw hin _ _ hxy, hk]
    rfl

/-- Witness for C28: the horizontal corridor `(3, 2, 11, 3)` stamped on the
background grid of 17 by 8 cells; the cell `(13, 3)` at the end of its centre
row holds floor. -/
theorem TileCorridor_centre_floor_witness :
    (∀ w ∈ TileCorridorWrites 0 0 horizontalExample, InGrid backgroundGrid w.x w.y) ∧
    GetTileTypeAt backgroundGrid 13 3 = WALL_TEXTURE ∧
    IsFloor (TileCorridor backgroundGrid 0 0 horizontalExample) (13 - 0) (2 + 1 - 0) :=
  ⟨by decide, by decide,
    (TileCorridor_centre_floor backgroundGrid 0 0 horizontalExample (by decide)).1 rfl rfl
      (by decide) 13 (by decide) (by decide)⟩

/-- The centre lines of a horizontal and a vertical corridor laid out as the
two corridors of the edge from `(x1, y1)` to `(x2, y2)` hold floor after both
are stamped. -/
theorem corridor_pair_floor (m : Map) (l0 t0 : Int) (H V : Corridor) (x1 y1 x2 y2 : Int)
    (hH : H.horizontal = true) (hH3 : H.height = 3) (hHl : H.left = min x1 x2)
    (hHt : H.top = y1 - 1) (hHw : H.width = |x1 - x2| + 1)
    (hV : V.horizontal = false) (hV3 : V.width = 3) (hVl : V.left = x2 - 1)
    (hVt : V.top = min y1 y2) (hVh : V.height = |y1 - y2| + 1)
    (hinh : ∀ w ∈ TileCorridorWrites l0 t0 H, InGrid m w.x w.y)
    (hinv : ∀ w ∈ TileCorridorWrites l0 t0 V, InGrid m w.x w.y) (a b : Int)
    (hab : OnLine (x1 - l0) (y1 - t0) (x2 - l0) (y2 - t0) a b) :
    IsFloor (TileCorridor (TileCorridor m l0 t0 H) l0 t0 V) a b := by
  have wx : |x1 - x2| + 1 = max x1 x2 - min x1 x2 + 1 := by
    rcases abs_cases (x1 - x2) with ⟨h1, _⟩ | ⟨h1, _⟩ <;> rw [h1] <;> omega
  have wy : |y1 - y2| + 1 = max y1 y2 - min y1 y2 + 1 := by
    rcases abs_cases (y1 - y2) with ⟨h1, _⟩ | ⟨h1, _⟩ <;> rw [h1] <;> omega
  rw [wx] at hHw
  rw [wy] at hVh
  obtain ⟨hcapL, hcapR⟩ := TileCorridor_horizontal_caps m l0 t0 H hH hinh
  obtain ⟨hcapT, hcapB⟩ := TileCorridor_vertical_caps m l0 t0 V hV hinv
  have hin0 : InGrid m a b := by
    unfold OnLine at hab
    unfold InGrid at hcapL hcapR hcapT hcapB ⊢
    omega
  have hin1 : InGrid (TileCorridor m l0 t0 H) a b := by
    rw [TileCorridor, InGrid_applyWrites]
    exact hin0
  have hinv1 : ∀ w ∈ TileCorridorWrites l0 t0 V, InGrid (TileCorridor m l0 t0 H) w.x w.y := by
    intro w hw
    rw [TileCorridor, InGrid_applyWrites]
    exact hinv w hw
  refine ⟨by rw [TileCorridor, InGrid_applyWrites]; exact hin1, ?_⟩
  rw [TileCorridor_vertical (TileCorridor m l0 t0 H) l0 t0 V hV hV3 (by omega) hinv1 a b hin1]
  rcases hab with ⟨hy, h1, h2⟩ | ⟨hx, h1, h2⟩
  · have hk := hKind_floor (H.left - l0) (H.top - t0) H.width a b (by omega) (by omega)
    rw [TileCorridor_horizontal m l0 t0 H hH hH3 (by omega) hinh a b hin0, hk]
    exact Role.apply_floor _
  · have hk := vKind_floor (V.left - l0) (V.top - t0) V.height a b (by omega) (by omega)
    rw [hk]
    rfl

/-- C30: for every grid and every edge from `A` to `B`, after `TileCorridor`
has stamped the horizontal and then the vertical corridor of the edge, all
written cells lying inside the grid, every cell `(x, A.y)` with `x` between
`A.x` and `B.x` and every cell `(B.x, y)` with `y` between `A.y` and `B.y`
(grid coordinates: less the bounds `l0`, `t0`) holds `FLOOR_TEXTURE`; the cell
`(B.x, A.y)` belongs to both runs, and the cells of `A` and `B` are joined by a
path of adjacent floor cells. -/
theorem edge_corridors_floor_path (m : Map) (l0 t0 : Int) (e : Edge)
    (hin : ∀ c ∈ edgeCorridors e, ∀ w ∈ TileCorridorWrites l0 t0 c, InGrid m w.x w.y) :
    (∀ x : Int, min e.origin.x e.destination.x ≤ x → x ≤ max e.origin.x e.destination.x →
      IsFloor ((edgeCorridors e).foldl (fun m c => TileCorridor m l0 t0 c) m)
        (x - l0) (e.origin.y - t0)) ∧
    (∀ y : Int, min e.origin.y e.destination.y ≤ y → y ≤ max e.origin.y e.destination.y →
      IsFloor ((edgeCorridors e).foldl (fun m c => TileCorridor m l0 t0 c) m)
        (e.destination.x - l0) (y - t0)) ∧
    IsFloor ((edgeCorridors e).foldl (fun m c => TileCorridor m l0 t0 c) m)
      (e.destination.x - l0) (e.origin.y - t0) ∧
    FloorConnected ((edgeCorridors e).foldl (fun m c => TileCorridor m l0 t0 c) m)
      (e.origin.x - l0, e.origin.y - t0) (e.destination.x - l0, e.destination.y - t0) := by
  rw [edgeCorridors_eq] at hin ⊢
  simp only [List.foldl_cons, List.foldl_nil]
  have hline := corridor_pair_floor m l0 t0
    (Corridor.new (min e.origin.x e.destination.x) (e.origin.y - 1)
      (|e.origin.x - e.destination.x| + 1) 3 true)
    (Corridor.new (e.destination.x - 1) (min e.origin.y e.destination.y) 3
      (|e.origin.y - e.destination.y| + 1) false)
    e.origin.x e.origin.y e.destination.x e.destination.y rfl rfl rfl rfl rfl rfl rfl rfl rfl rfl
    (hin _ (List.mem_cons_self _ _))
    (hin _ (List.mem_cons_of_mem _ (List.mem_cons_self _ _)))
  refine ⟨?_, ?_, ?_, ?_⟩
  · intro x h1 h2
    exact hline _ _ (Or.inl ⟨rfl, by omega, by omega⟩)
  · intro y h1 h2
    exact hline _ _ (Or.inr ⟨rfl, by omega, by omega⟩)
  · exact hline _ _ (Or.inl ⟨rfl, by omega, by omega⟩)
  · exact line_connected _ _ _ _ _ hline _ _ _ _ (OnLine.origin _ _ _ _)
      (OnLine.destination _ _ _ _)

/-- Witness for C30: the edge from `(3, 3)` to `(13, 5)` stamped on the grid of
`twoRooms`; the elbow `(13, 3)` holds floor. -/
theorem edge_corridors_floor_path_witness :
    (∀ c ∈ edgeCorridors ⟨⟨3, 3⟩, ⟨13, 5⟩⟩, ∀ w ∈ TileCorridorWrites 0 0 c,
      InGrid twoRoomsGrid w.x w.y) ∧
    IsFloor ((edgeCorridors ⟨⟨3, 3⟩, ⟨13, 5⟩⟩).foldl (fun m c => TileCorridor m 0 0 c)
      twoRoomsGrid) ((13 : Int) - 0) ((3 : Int) - 0) :=
  ⟨by decide,
    (edge_corridors_floor_path twoRoomsGrid 0 0 ⟨⟨3, 3⟩, ⟨13, 5⟩⟩ (by decide)).2.2.1⟩

/-! # The point set, the room count and the corridor cells -/

/-! ## One point per large room -/

/-- The centroid of a rectangle with positive width and height is one of its
cells. -/
theorem centroid_mem (r : Rect) (hw : 1 ≤ r.width) (hh : 1 ≤ r.height) :
    r.left ≤ r.centroid.x ∧ r.centroid.x < r.left + r.width ∧
    r.top ≤ r.centroid.y ∧ r.centroid.y < r.top + r.height := by
  unfold Rect.centroid
  simp only
  rw [Int.tdiv_eq_ediv (by omega) (by decide), Int.tdiv_eq_ediv (by omega) (by decide)]
  omega

theorem centroid_ne (r s : Rect) (hrw : 1 ≤ r.width) (hrh : 1 ≤ r.height) (hsw : 1 ≤ s.width)
    (hsh : 1 ≤ s.height) (h : r.intersects s = false) : r.centroid ≠ s.centroid := by
  intro hc
  obtain ⟨r1, r2, r3, r4⟩ := centroid_mem r hrw hrh
  obtain ⟨s1, s2, s3, s4⟩ := centroid_mem s hsw hsh
  rw [← hc] at s1 s2 s3 s4
  exact rooms_disjoint r s ⟨by omega, by omega⟩ ⟨by omega, by omega⟩ h r.centroid.x
    r.centroid.y ⟨r1, r2⟩ ⟨r3, r4⟩ ⟨s1, s2⟩ ⟨s3, s4⟩

/-- The algorithm `std::unique` removes nothing from a list without repeated
elements. -/
theorem unique_of_nodup : ∀ l : List Vert, l.Nodup → unique l = l
  | [], _ => rfl
  | [_], _ => rfl
  | a :: b :: t, h => by
    have hab : a ≠ b := by
      intro e
      rw [e] at h
      exact (List.nodup_cons.mp h).1 (List.mem_cons_self _ _)
    have ih := unique_of_nodup (b :: t) (List.nodup_cons.mp h).2
    unfold unique
    rw [if_neg hab, ih]

/-- C31: the centroid of a rectangle of width and height at least 1 is a cell
of the rectangle; two such rectangles that do not intersect have different
centroids; and on a duplicate-free room set whose rooms pairwise do not
intersect, the deduplication of `CreateCorridors` removes nothing: the point
set is the sorted list of the centroids of the large rooms, it has no repeated
point, it has as many points as there are large rooms, and two large rooms with
the same centroid are the same room. -/
theorem centroidBuffer_one_point_per_large_room (rooms : List Rect) (hnd : rooms.Nodup)
    (hsep : ∀ r ∈ rooms, ∀ s ∈ rooms, r ≠ s → r.intersects s = false) :
    (∀ r : Rect, 1 ≤ r.width → 1 ≤ r.height →
      r.left ≤ r.centroid.x ∧ r.centroid.x < r.left + r.width ∧
      r.top ≤ r.centroid.y ∧ r.centroid.y < r.top + r.height) ∧
    (∀ r s : Rect, 1 ≤ r.width → 1 ≤ r.height → 1 ≤ s.width → 1 ≤ s.height →
      r.intersects s = false → r.centroid ≠ s.centroid) ∧
    centroidBuffer rooms = ((rooms.filter IsLarge).map Rect.centroid).insertionSort rowLe ∧
    (centroidBuffer rooms).Nodup ∧
    (centroidBuffer rooms).length = (rooms.filter IsLarge).length ∧
    (∀ r ∈ rooms, IsLarge r = true → ∀ s ∈ rooms, IsLarge s = true →
      r.centroid = s.centroid → r = s) := by
  have hinj : ∀ r ∈ rooms, IsLarge r = true → ∀ s ∈ rooms, IsLarge s = true →
      r.centroid = s.centroid → r = s := by
    intro r hr hlr s hs hls hc
    by_contra hne
    have dr := IsLarge_dims r hlr
    have ds := IsLarge_dims s hls
    exact centroid_ne r s (by omega) (by omega) (by omega) (by omega) (hsep r hr s hs hne) hc
  have hmap : ((rooms.filter IsLarge).map Rect.centroid).Nodup := by
    rw [List.nodup_map_iff_inj_on (hnd.filter _)]
    intro r hr s hs hc
    rw [List.mem_filter] at hr hs
    exact hinj r hr.1 hr.2 s hs.1 hs.2 hc
  have hsort : (((rooms.filter IsLarge).map Rect.centroid).insertionSort rowLe).Nodup :=
    (List.perm_insertionSort _ _).nodup_iff.mpr hmap
  have heq : centroidBuffer rooms =
      ((rooms.filter IsLarge).map Rect.centroid).insertionSort rowLe := by
    unfold centroidBuffer
    exact unique_of_nodup _ hsort
  refine ⟨centroid_mem, centroid_ne, heq, ?_, ?_, hinj⟩
  · rw [heq]
    exact hsort
  · rw [heq, List.length_insertionSort, List.length_map]

/-- Witness for C31: the two large rooms of `twoRooms` give the two points
`(3, 3)` and `(13, 5)`. -/
theorem centroidBuffer_one_point_per_large_room_witness :
    twoRooms.rooms_.Nodup ∧
    (∀ r ∈ twoRooms.rooms_, ∀ s ∈ twoRooms.rooms_, r ≠ s → r.intersects s = false) ∧
    centroidBuffer twoRooms.rooms_ = [⟨3, 3⟩, ⟨13, 5⟩] ∧
    (centroidBuffer twoRooms.rooms_).length = (twoRooms.rooms_.filter IsLarge).length :=
  ⟨by decide, by decide, by decide,
    (centroidBuffer_one_point_per_large_room twoRooms.rooms_ (by decide) (by decide)).2.2.2.2.1⟩

/-! ## The number of rooms after one iteration -/

/-- C32 (counterexample): in `squeezedRooms` the room `(0, 0, 3, 6)` moves one
cell right and the room `(2, 0, 3, 6)` one cell left, both onto `(1, 0, 3, 6)`:
of the four rooms three are left after one `DriftIterate`. -/
theorem DriftIterate_merges_rooms :
    squeezedRooms.rooms_.Nodup ∧
    squeezedRooms.rooms_.length = 4 ∧
    velocityOf (collectVectors squeezedRooms.rooms_) ⟨0, 0, 3, 6⟩ = ⟨1, 0⟩ ∧
    velocityOf (collectVectors squeezedRooms.rooms_) ⟨2, 0, 3, 6⟩ = ⟨-1, 0⟩ ∧
    (DriftIterate squeezedRooms).rooms_ = [⟨1, 0, 3, 6⟩, ⟨-5, -1, 7, 9⟩, ⟨3, -1, 5, 8⟩] ∧
    ¬ ((DriftIterate squeezedRooms).rooms_.length = squeezedRooms.rooms_.length) := by
  decide

/-- C32 (amended): on a duplicate-free room set, the room set after one
`DriftIterate` has at most as many rooms as before, and exactly as many if and
only if no two distinct rooms are moved onto the same rectangle. -/
theorem DriftIterate_room_count (d : Dungeon) (hnd : d.rooms_.Nodup) :
    (DriftIterate d).rooms_.length ≤ d.rooms_.length ∧
    ((DriftIterate d).rooms_.length = d.rooms_.length ↔
      ∀ r ∈ d.rooms_, ∀ s ∈ d.rooms_, r ≠ s →
        (⟨r.left + (velocityOf (collectVectors d.rooms_) r).x,
          r.top + (velocityOf (collectVectors d.rooms_) r).y, r.width, r.height⟩ : Rect) ≠
        ⟨s.left + (velocityOf (collectVectors d.rooms_) s).x,
          s.top + (velocityOf (collectVectors d.rooms_) s).y, s.width, s.height⟩) := by
  have hset : (DriftIterate d).rooms_.toFinset =
      (d.rooms_.map (fun r : Rect =>
        (⟨r.left + (velocityOf (collectVectors d.rooms_) r).x,
          r.top + (velocityOf (collectVectors d.rooms_) r).y, r.width, r.height⟩ : Rect))).toFinset := by
    ext q
    rw [List.mem_toFinset, List.mem_toFinset, mem_DriftIterate_rooms, List.mem_map]
    constructor
    · rintro ⟨r, hr, rfl⟩
      exact ⟨r, hr, rfl⟩
    · rintro ⟨r, hr, rfl⟩
      exact ⟨r, hr, rfl⟩
  have hlen : (DriftIterate d).rooms_.length =
      (d.rooms_.map (fun r : Rect =>
        (⟨r.left + (velocityOf (collectVectors d.rooms_) r).x,
          r.top + (velocityOf (collectVectors d.rooms_) r).y, r.width, r.height⟩ : Rect))).toFinset.card := by
    rw [← hset, List.toFinset_card_of_nodup (DriftIterate_rooms_nodup d)]
  have hle := List.toFinset_card_le (d.rooms_.map (fun r : Rect =>
        (⟨r.left + (velocityOf (collectVectors d.rooms_) r).x,
          r.top + (velocityOf (collectVectors d.rooms_) r).y, r.width, r.height⟩ : Rect)))
  rw [List.length_map] at hle
  refine ⟨hlen ▸ hle, ?_⟩
  rw [hlen]
  constructor
  · intro h r hr s hs hne heq
    have hnd2 : (d.rooms_.map (fun r : Rect =>
        (⟨r.left + (velocityOf (collectVectors d.rooms_) r).x,
          r.top + (velocityOf (collectVectors d.rooms_) r).y, r.width, r.height⟩ : Rect))).Nodup := by
      rw [List.card_toFinset] at h
      rw [← List.dedup_eq_self]
      exact (List.dedup_sublist _).eq_of_length (by rw [h, List.length_map])
    exact hne ((List.nodup_map_iff_inj_on hnd).mp hnd2 r hr s hs heq)
  · intro h
    have hnd2 : (d.rooms_.map (fun r : Rect =>
        (⟨r.left + (velocityOf (collectVectors d.rooms_) r).x,
          r.top + (velocityOf (collectVectors d.rooms_) r).y, r.width, r.height⟩ : Rect))).Nodup := by
      rw [List.nodup_map_iff_inj_on hnd]
      intro r hr s hs heq
      by_contra hne
      exact h r hr s hs hne heq
    rw [List.toFinset_card_of_nodup hnd2, List.length_map]

/-- Witness for C32: the three rooms of `driftExample` are moved onto three
different rectangles. -/
theorem DriftIterate_room_count_witness :
    driftExample.rooms_.Nodup ∧
    (DriftIterate driftExample).rooms_ = [⟨5, -1, 6, 6⟩, ⟨4, 3, 6, 7⟩, ⟨0, 5, 3, 3⟩] ∧
    (DriftIterate driftExample).rooms_.length ≤ driftExample.rooms_.length :=
  ⟨by decide, by decide, (DriftIterate_room_count driftExample (by decide)).1⟩

/-! ## The cells written for an edge -/

/-- The index `y * width + x` of a cell inside a grid of `width` by `height`
cells lies inside the tile array. -/
theorem index_in_array (W H x y : Int) (hx : 0 ≤ x ∧ x < W) (hy : 0 ≤ y ∧ y < H) :
    0 ≤ y * W + x ∧ y * W + x < W * H := by
  have h1 : 0 ≤ y * W := mul_nonneg hy.1 (by omega)
  have h2 : y * W ≤ (H - 1) * W := mul_le_mul_of_nonneg_right (by omega) (by omega)
  have h3 : (H - 1) * W = W * H - W := by ring
  constructor
  · omega
  · omega

/-- C33: for an edge from the centroid of a large room `r` to the centroid of a
large room `s`, every cell that `TileCorridor` writes for the horizontal and
the vertical corridor of the edge, end caps included, lies inside the bounding
box of `r` and `s` (in the coordinates of the dungeon, the written cell is
`(d.left + w.x, d.top + w.y)`); and when the bounds of the dungeon enclose both
rooms, the cell lies inside the grid sized from the bounds and its index
`y * width + x` lies inside the tile array. -/
theorem corridor_writes_inside (r s : Rect) (hr : IsLarge r = true) (hs : IsLarge s = true)
    (e : Edge) (ho : e.origin = r.centroid) (hd : e.destination = s.centroid) (d : Dungeon) :
    ∀ c ∈ edgeCorridors e, ∀ w ∈ TileCorridorWrites d.left d.top c,
      (min r.left s.left ≤ d.left + w.x ∧
        d.left + w.x < max (r.left + r.width) (s.left + s.width) ∧
        min r.top s.top ≤ d.top + w.y ∧
        d.top + w.y < max (r.top + r.height) (s.top + s.height)) ∧
      (d.Encloses r → d.Encloses s → ∀ mem : Int → Nat,
        InGrid ⟨d.right - d.left, d.bottom - d.top, mem⟩ w.x w.y ∧
        0 ≤ w.y * (d.right - d.left) + w.x ∧
        w.y * (d.right - d.left) + w.x < (d.right - d.left) * (d.bottom - d.top)) := by
  obtain ⟨r1, r2, r3, r4⟩ := large_centroid r hr
  obtain ⟨s1, s2, s3, s4⟩ := large_centroid s hs
  rw [← ho] at r1 r2 r3 r4
  rw [← hd] at s1 s2 s3 s4
  have wx : |e.origin.x - e.destination.x| =
      max e.origin.x e.destination.x - min e.origin.x e.destination.x := by
    rcases abs_cases (e.origin.x - e.destination.x) with ⟨h1, _⟩ | ⟨h1, _⟩ <;> rw [h1] <;> omega
  have wy : |e.origin.y - e.destination.y| =
      max e.origin.y e.destination.y - min e.origin.y e.destination.y := by
    rcases abs_cases (e.origin.y - e.destination.y) with ⟨h1, _⟩ | ⟨h1, _⟩ <;> rw [h1] <;> omega
  have box : ∀ c ∈ edgeCorridors e, ∀ w ∈ TileCorridorWrites d.left d.top c,
      min r.left s.left ≤ d.left + w.x ∧
        d.left + w.x < max (r.left + r.width) (s.left + s.width) ∧
        min r.top s.top ≤ d.top + w.y ∧
        d.top + w.y < max (r.top + r.height) (s.top + s.height) := by
    intro c hc w hw
    rw [edgeCorridors_eq] at hc
    simp only [List.mem_cons, List.mem_singleton, List.not_mem_nil, or_false] at hc
    rcases hc with rfl | rfl
    · have hb := TileCorridorWrites_box_horizontal d.left d.top
        (Corridor.new (min e.origin.x e.destination.x) (e.origin.y - 1)
          (|e.origin.x - e.destination.x| + 1) 3 true) rfl rfl
        (by show 1 ≤ |e.origin.x - e.destination.x| + 1; rw [wx]; omega) w hw
      have e1 : (Corridor.new (min e.origin.x e.destination.x) (e.origin.y - 1)
          (|e.origin.x - e.destination.x| + 1) 3 true).left =
          min e.origin.x e.destination.x := rfl
      have e2 : (Corridor.new (min e.origin.x e.destination.x) (e.origin.y - 1)
          (|e.origin.x - e.destination.x| + 1) 3 true).top = e.origin.y - 1 := rfl
      have e3 : (Corridor.new (min e.origin.x e.destination.x) (e.origin.y - 1)
          (|e.origin.x - e.destination.x| + 1) 3 true).width =
          |e.origin.x - e.destination.x| + 1 := rfl
      rw [e1, e2, e3, wx] at hb
      omega
    · have hb := TileCorridorWrites_box_vertical d.left d.top
        (Corridor.new (e.destination.x - 1) (min e.origin.y e.destination.y) 3
          (|e.origin.y - e.destination.y| + 1) false) rfl rfl
        (by show 1 ≤ |e.origin.y - e.destination.y| + 1; rw [wy]; omega) w hw
      have e1 : (Corridor.new (e.destination.x - 1) (min e.origin.y e.destination.y) 3
          (|e.origin.y - e.destination.y| + 1) false).left = e.destination.x - 1 := rfl
      have e2 : (Corridor.new (e.destination.x - 1) (min e.origin.y e.destination.y) 3
          (|e.origin.y - e.destination.y| + 1) false).top =
          min e.origin.y e.destination.y := rfl
      have e3 : (Corridor.new (e.destination.x - 1) (min e.origin.y e.destination.y) 3
          (|e.origin.y - e.destination.y| + 1) false).height =
          |e.origin.y - e.destination.y| + 1 := rfl
      rw [e1, e2, e3, wy] at hb
      omega
  intro c hc w hw
  have hb := box c hc w hw
  refine ⟨hb, ?_⟩
  intro hr2 hs2 mem
  unfold Dungeon.Encloses at hr2 hs2
  have hx : 0 ≤ w.x ∧ w.x < d.right - d.left := by omega
  have hy : 0 ≤ w.y ∧ w.y < d.bottom - d.top := by omega
  exact ⟨⟨hx.1, hx.2, hy.1, hy.2⟩, index_in_array _ _ _ _ hx hy⟩

/-- Witness for C33: the edge between the centroids `(3, 3)` and `(13, 5)` of
the two rooms of `twoRooms`, whose bounds enclose both. -/
theorem corridor_writes_inside_witness :
    IsLarge ⟨0, 0, 6, 6⟩ = true ∧ IsLarge ⟨10, 2, 7, 6⟩ = true ∧
    twoRooms.Encloses ⟨0, 0, 6, 6⟩ ∧ twoRooms.Encloses ⟨10, 2, 7, 6⟩ ∧
    (∀ c ∈ edgeCorridors ⟨⟨3, 3⟩, ⟨13, 5⟩⟩,
      ∀ w ∈ TileCorridorWrites twoRooms.left twoRooms.top c,
        (min (0 : Int) 10 ≤ twoRooms.left + w.x ∧
          twoRooms.left + w.x < max ((0 : Int) + 6) (10 + 7) ∧
          min (0 : Int) 2 ≤ twoRooms.top + w.y ∧
          twoRooms.top + w.y < max ((0 : Int) + 6) (2 + 6)) ∧
        (twoRooms.Encloses ⟨0, 0, 6, 6⟩ → twoRooms.Encloses ⟨10, 2, 7, 6⟩ →
          ∀ mem : Int → Nat,
          InGrid ⟨twoRooms.right - twoRooms.left, twoRooms.bottom - twoRooms.top, mem⟩ w.x w.y ∧
          0 ≤ w.y * (twoRooms.right - twoRooms.left) + w.x ∧
          w.y * (twoRooms.right - twoRooms.left) + w.x <
            (twoRooms.right - twoRooms.left) * (twoRooms.bottom - twoRooms.top))) :=
  ⟨by decide, by decide, by decide, by decide,
    corridor_writes_inside ⟨0, 0, 6, 6⟩ ⟨10, 2, 7, 6⟩ (by decide) (by decide)
      ⟨⟨3, 3⟩, ⟨13, 5⟩⟩ (by decide) (by decide) twoRooms⟩

end DungeonGen
